import Mathlib

/-!
# sbcdec: SBC decoder front end (sbcdec/sbcdec.cpp)

A shallow embedding of the three conversions of `sbcdec.cpp`

* `convert_snd_to_wav`: legacy `.snd` recording to WAV (drop 24 bytes, swap byte pairs),
* `sbc_to_pcm`: whole-file decode of 57-byte frames into 240-byte slots, WAV output,
* `sbc_to_snd`: streaming decode through an 8192-byte buffer, AU output,

followed by the properties proved about them.

Conventions of the embedding.

* A byte is a `Nat` below 256; files and buffers are `List Nat`.
* A C `int` is an `Int` kept in range by `to_int` (32-bit two's complement, wrapping);
  a `size_t` is a `Nat` kept in range by `to_size_t` (64 bits).
* `st.st_size` is the length of the source file.
* An access outside an allocation is kept explicit and harmless: a store outside the
  buffer leaves the buffer unchanged, a load outside it yields the unspecified byte
  `mem k`; the same `mem` supplies the contents of freshly allocated memory.
  A `fwrite` that is asked for more bytes than its source buffer holds is a `fault`.
* `stat`, `fopen`, `malloc` of a representable size and `fread` succeed once the source
  file exists; the unchecked `fwrite` calls of the two WAV writers transfer every byte
  they are asked for. The checked `fwrite` calls of `sbc_to_snd` report what the
  parameter `fw` says.
-/

namespace SbcDec

/-! ## Machine integers -/

/-- Conversion to a 32-bit two's complement `int`. -/
def to_int (x : Int) : Int := (x + 2147483648) % 4294967296 - 2147483648

/-- Conversion to a 64-bit `size_t`. -/
def to_size_t (x : Int) : Nat := (x % 18446744073709551616).toNat

/-- Conversion `(unsigned char)x`. -/
def to_uchar (x : Int) : Nat := (x % 256).toNat

/-- Right shift `x >> k` of a signed value (arithmetic shift). -/
def shr (x : Int) (k : Nat) : Int := x / 2 ^ k

/-! ## Memory -/

/-- Load of `buf[idx]`; outside the buffer the unspecified byte `mem` is read. -/
def load (buf : List Nat) (idx : Int) (mem : Nat → Nat) : Nat :=
  if 0 ≤ idx then buf.getD idx.toNat (mem idx.toNat) else mem idx.natAbs

/-- Store `buf[idx] = v`; a store outside the buffer does not change the buffer. -/
def store (buf : List Nat) (idx : Int) (v : Nat) : List Nat :=
  if 0 ≤ idx then buf.set idx.toNat v else buf

/-- Load of the `n` bytes `buf[off], ..., buf[off + n - 1]`. -/
def load_bytes (buf : List Nat) (off : Int) (n : Nat) (mem : Nat → Nat) : List Nat :=
  (List.range n).map (fun (j : Nat) => load buf (off + (j : Int)) mem)

/-- Store of the bytes `bs` at `buf[off], buf[off + 1], ...`. -/
def store_bytes (buf : List Nat) (off : Int) : List Nat → List Nat
  | [] => buf
  | b :: bs => store_bytes (store buf off b) (off + 1) bs

/-- Call `malloc(size)` with `size` converted from a signed value: a negative value is
a request beyond the address space and yields `NULL`, which has no accessible byte;
otherwise `size` bytes of unspecified content. -/
def malloc (mem : Nat → Nat) (size : Int) : List Nat :=
  if size < 0 then [] else (List.range size.toNat).map mem

/-! ## Results of a conversion -/

/-- How a conversion ends. -/
inductive Outcome where
  /-- Returned before the output file was opened; no output file exists. -/
  | aborted : Outcome
  /-- Ran to the end; the output file holds `file`. -/
  | wrote (file : List Nat) : Outcome
  /-- The output file was opened and `file` written, then `fwrite` was asked for more
  bytes than its source buffer holds. -/
  | fault (file : List Nat) : Outcome
  /-- The iteration bound the model gives a loop was reached before the loop ended. -/
  | stuck : Outcome
  deriving DecidableEq, Repr

/-- The final `fwrite(ptr, size, 1, fp)` of the two WAV writers, `size` converted from a
signed value, after `file` has been written. -/
def fwrite_block (file : List Nat) (ptr : List Nat) (size : Int) : Outcome :=
  if 0 ≤ size ∧ size ≤ (ptr.length : Int) then Outcome.wrote (file ++ ptr.take size.toNat)
  else Outcome.fault file

/-! ## WAV header -/

def BUF_SIZE : Nat := 8192

def APP_WAVE_HDR_SIZE : Nat := 44

/-- The header template `app_wav_hdr`. -/
def app_wav_hdr : List Nat :=
  [ 0x52, 0x49, 0x46, 0x46,   -- "RIFF"
    0, 0, 0, 0,               -- chunk size
    0x57, 0x41, 0x56, 0x45,   -- "WAVE"
    0x66, 0x6d, 0x74, 0x20,   -- "fmt "
    0x10, 0x00, 0x00, 0x00,   -- subchunk size 16
    0x01, 0x00,               -- audio format 1
    0, 0,                     -- number of channels
    0, 0, 0, 0,               -- sample rate
    0, 0, 0, 0,               -- byte rate
    0, 0,                     -- block align
    0, 0,                     -- bits per sample
    0x64, 0x61, 0x74, 0x61,   -- "data"
    0, 0, 0, 0 ]              -- data size

/-- The header construction shared by `convert_snd_to_wav` (lines 99-153) and
`sbc_to_pcm` (lines 390-450): `nb_channels` is an `unsigned char`, `sample_rate` an
`unsigned long`, `bits_per_sample` an `unsigned short`; `byte_rate`, `block_align`,
`chunk_size` and `data_size` are `int`. -/
def build_wav_header (nb_channels sample_rate bits_per_sample : Nat) (data_size : Int) :
    List Nat :=
  let byte_rate : Int :=
    if bits_per_sample = 8 then to_int ((nb_channels * 1 * sample_rate : Nat) : Int)
    else to_int ((nb_channels * 2 * sample_rate : Nat) : Int)
  let block_align : Int :=
    if bits_per_sample = 8 then to_int ((nb_channels * 1 : Nat) : Int)
    else to_int ((nb_channels * 2 : Nat) : Int)
  let chunk_size : Int := to_int (data_size + 36)
  let header := app_wav_hdr
  let header := header.set 4 (to_uchar chunk_size)
  let header := header.set 5 (to_uchar (shr chunk_size 8))
  let header := header.set 6 (to_uchar (shr chunk_size 16))
  let header := header.set 7 (to_uchar (shr chunk_size 24))
  let header := header.set 22 (to_uchar nb_channels)
  let header := header.set 23 0
  let header := header.set 24 (to_uchar sample_rate)
  let header := header.set 25 (to_uchar (shr sample_rate 8))
  let header := header.set 26 (to_uchar (shr sample_rate 16))
  let header := header.set 27 (to_uchar (shr sample_rate 24))
  let header := header.set 28 (to_uchar byte_rate)
  let header := header.set 29 (to_uchar (shr byte_rate 8))
  let header := header.set 30 (to_uchar (shr byte_rate 16))
  let header := header.set 31 (to_uchar (shr byte_rate 24))
  let header := header.set 32 (to_uchar block_align)
  let header := header.set 33 (to_uchar (shr block_align 8))
  let header := header.set 34 (to_uchar bits_per_sample)
  let header := header.set 35 (to_uchar (shr bits_per_sample 8))
  let header := header.set 40 (to_uchar data_size)
  let header := header.set 41 (to_uchar (shr data_size 8))
  let header := header.set 42 (to_uchar (shr data_size 16))
  let header := header.set 43 (to_uchar (shr data_size 24))
  header

/-- Unsigned value of the `n`-byte field at offset `off`, least significant byte first. -/
def le_field (bytes : List Nat) (off : Nat) : Nat → Nat
  | 0 => 0
  | n + 1 => bytes.getD off 0 + 256 * le_field bytes (off + 1) n

/-- Unsigned value of the `n`-byte field at offset `off`, most significant byte first. -/
def be_field (bytes : List Nat) (off : Nat) : Nat → Nat
  | 0 => 0
  | n + 1 => bytes.getD off 0 * 256 ^ n + be_field bytes (off + 1) n

/-! ## convert_snd_to_wav -/

/-- The byte-swap loop `for (int i = 0; i < data_size; i = i + 2)` (lines 94-98); the
first argument bounds the number of iterations of the model. -/
def swap_loop (snd_data : List Nat) (mem : Nat → Nat) (data_size : Int) :
    Nat → Int → List Nat → Option (List Nat)
  | 0, _, _ => none
  | fuel + 1, i, pcm =>
    if i < data_size then
      let pcm := store pcm i (load snd_data (i + 1) mem)
      let pcm := store pcm (i + 1) (load snd_data i mem)
      swap_loop snd_data mem data_size fuel (to_int (i + 2)) pcm
    else some pcm

/-- The end of `convert_snd_to_wav` (lines 99-157) on the buffer the loop left: header,
then `fwrite` of header and PCM. -/
def convert_snd_to_wav_write (data_size : Int) : Option (List Nat) → Outcome
  | none => Outcome.stuck
  | some pcm =>
    let header := build_wav_header 1 16000 16 data_size
    fwrite_block (header.take APP_WAVE_HDR_SIZE) pcm data_size

/-- Function `convert_snd_to_wav`; `src` is the source file (`none` when `stat` fails). -/
def convert_snd_to_wav (src : Option (List Nat)) (mem : Nat → Nat) : Outcome :=
  match src with
  | none => Outcome.aborted
  | some stream =>
    let st_size : Int := stream.length
    let snd_header_size : Int := 24
    let snd_data := stream.drop 24
    let pcm := malloc mem (st_size - snd_header_size)
    let data_size : Int := to_int (st_size - snd_header_size)
    convert_snd_to_wav_write data_size
      (swap_loop snd_data mem data_size (data_size.toNat + 1) 0 pcm)

/-! ## The frame decoder (sbc/sbc.h) -/

/-- Modelled from the spec: the sample-rate class of a session (`sbc.frequency`, declared
in sbc/sbc.h, which is not part of the sources at hand): one of four enumerated rates, or
unknown. -/
inductive SbcFrequency where
  | SBC_FREQ_16000 : SbcFrequency
  | SBC_FREQ_32000 : SbcFrequency
  | SBC_FREQ_44100 : SbcFrequency
  | SBC_FREQ_48000 : SbcFrequency
  | unknown (code : Nat) : SbcFrequency
  deriving DecidableEq, Repr

/-- Modelled from the spec: the channel mode of a session (`sbc.mode`, declared in
sbc/sbc.h): mono, stereo, joint-stereo, or another value. -/
inductive SbcMode where
  | SBC_MODE_MONO : SbcMode
  | SBC_MODE_STEREO : SbcMode
  | SBC_MODE_JOINT_STEREO : SbcMode
  | other (code : Nat) : SbcMode
  deriving DecidableEq, Repr

/-- Modelled from the spec: the output byte order of a session (`sbc.endian`, declared in
sbc/sbc.h): big- or little-endian. -/
inductive SbcEndian where
  | SBC_LE : SbcEndian
  | SBC_BE : SbcEndian
  deriving DecidableEq, Repr

/-- Modelled from the spec: the decode session `sbc_t` (declared in sbc/sbc.h) with the
codec parameters the callers read or set; `priv` is the decoder's own state. -/
structure sbc_t (π : Type) where
  frequency : SbcFrequency
  mode : SbcMode
  endian : SbcEndian
  priv : π

/-- What one call `sbc_decode(&sbc, input, input_len, output, output_len, &written)`
yields: the updated session, the return value, and the bytes stored at `output`
(their number is the value stored in `*written`). -/
structure Decoded (π : Type) where
  sbc : sbc_t π
  framelen : Int
  output : List Nat

/-- Modelled from the spec: the frame decoder primitive of sbc/sbc.h, a collaborator given
by its interface: `init(variant) -> session` and
`decode(session, input_bytes, output_capacity) -> (consumed_len, produced_len)`.
The second argument of `sbc_decode` is the `input_len` bytes found at `input`. -/
structure Codec (π : Type) where
  sbc_init : sbc_t π
  sbc_init_msbc : sbc_t π
  sbc_decode : sbc_t π → List Nat → Nat → Decoded π

/-! ## sbc_to_pcm -/

/-- Arguments of one `sbc_decode` call: offsets are relative to the start of the input
stream and of the output buffer. -/
structure DecodeCall where
  input_off : Int
  input_len : Nat
  output_off : Int
  output_len : Nat
  deriving DecidableEq, Repr

/-- Variables of `sbc_to_pcm` that its decode loop changes, and the calls made so far. -/
structure PcmLoop (π : Type) where
  sbc : sbc_t π
  pcm : List Nat
  framelen : Int
  len : Nat
  data_size : Int
  calls : List DecodeCall

/-- The loop `for (int i = 0; i < sbc_frame_count; i++)` (lines 412-416); the first
argument bounds the number of iterations of the model. -/
def sbc_to_pcm_loop {π : Type} (cdc : Codec π) (stream : List Nat) (mem : Nat → Nat)
    (sbc_frame_count : Int) : Nat → Int → PcmLoop π → Option (PcmLoop π)
  | 0, _, _ => none
  | fuel + 1, i, s =>
    if i < sbc_frame_count then
      let r := cdc.sbc_decode s.sbc (load_bytes stream (to_int (i * 57)) 57 mem) 240
      let s : PcmLoop π :=
        { sbc := r.sbc
          pcm := store_bytes s.pcm (to_int (i * 240)) r.output
          framelen := to_int r.framelen
          len := r.output.length
          data_size := to_int (s.data_size + 240)
          calls := s.calls ++ [⟨to_int (i * 57), 57, to_int (i * 240), 240⟩] }
      sbc_to_pcm_loop cdc stream mem sbc_frame_count fuel (to_int (i + 1)) s
    else some s

/-- Function `sbc_to_pcm` up to the end of its decode loop (lines 363-416); `framelen`
and `len` are not read before they are assigned. -/
def sbc_to_pcm_decode {π : Type} (cdc : Codec π) (msbc : Bool) (stream : List Nat)
    (mem : Nat → Nat) : Option (PcmLoop π) :=
  let st_size : Int := stream.length
  let sbc := if msbc then cdc.sbc_init_msbc else cdc.sbc_init
  let sbc := { sbc with endian := SbcEndian.SBC_LE }
  let sbc_frame_count : Int := to_int (st_size / 57)
  let pcm := malloc mem (to_int (sbc_frame_count * 240))
  sbc_to_pcm_loop cdc stream mem sbc_frame_count (sbc_frame_count.toNat + 1) 0
    { sbc := sbc, pcm := pcm, framelen := 0, len := 0, data_size := 0, calls := [] }

/-- The end of `sbc_to_pcm` (lines 417-453) on the state the loop left: header, then
`fwrite` of header and PCM. -/
def sbc_to_pcm_write {π : Type} : Option (PcmLoop π) → Outcome
  | none => Outcome.stuck
  | some s =>
    let header := build_wav_header 1 16000 16 s.data_size
    fwrite_block (header.take APP_WAVE_HDR_SIZE) s.pcm s.data_size

/-- Function `sbc_to_pcm`; `src` is the source file (`none` when `stat` fails). -/
def sbc_to_pcm {π : Type} (cdc : Codec π) (msbc : Bool) (src : Option (List Nat))
    (mem : Nat → Nat) : Outcome :=
  match src with
  | none => Outcome.aborted
  | some stream => sbc_to_pcm_write (sbc_to_pcm_decode cdc msbc stream mem)

/-! ## sbc_to_snd -/

/-- Modelled from the spec: `AU_MAGIC` of formats.h, the magic number of an AU header as
it lies in the `magic` field (".snd"). -/
def AU_MAGIC : List Nat := [0x2e, 0x73, 0x6e, 0x64]

/-- Modelled from the spec: `AU_FMT_LIN16` of formats.h, the encoding tag of 16-bit
linear PCM. -/
def AU_FMT_LIN16 : Int := 3

/-- Modelled from the spec: `BE_INT` of formats.h, the 32-bit field that holds `v` most
significant byte first, given by its four bytes in memory. -/
def BE_INT (v : Int) : List Nat :=
  [to_uchar (shr v 24), to_uchar (shr v 16), to_uchar (shr v 8), to_uchar v]

/-- Modelled from the spec: `struct au_header` of formats.h, six 32-bit fields in the
order magic, header size, data size, encoding, sample rate, channels. -/
structure au_header where
  magic : List Nat
  hdr_size : List Nat
  data_size : List Nat
  encoding : List Nat
  sample_rate : List Nat
  channels : List Nat

/-- The bytes of a `struct au_header` as `fwrite(&au_hdr, sizeof(au_hdr), 1, fp)` reads
them. -/
def au_header.bytes (h : au_header) : List Nat :=
  h.magic ++ h.hdr_size ++ h.data_size ++ h.encoding ++ h.sample_rate ++ h.channels

/-- Something the streaming loop does, in the order it happens. -/
inductive Event where
  /-- An occupancy test `count + len >= BUF_SIZE` (lines 278 and 289). -/
  | check (count : Int) (len : Nat) : Event
  /-- A flush `fwrite(buf, 1, count, fp)` and what it reported. -/
  | flush (requested : Nat) (written : Nat) : Event
  /-- A call `sbc_decode(&sbc, stream + pos, streamlen - pos, buf + count,
  sizeof(buf) - count, &len)` of the loop. -/
  | decode (pos : Int) (input_len : Nat) (offset : Int) (capacity : Nat) : Event
  deriving DecidableEq, Repr

/-- Where `sbc_to_snd` stands. -/
inductive Status where
  /-- Returned before the output file was opened. -/
  | aborted : Status
  /-- The header write was short: `goto close`. -/
  | header_failed : Status
  /-- The sanity check failed: `exit(1)`. -/
  | fatal : Status
  /-- The loop ended and the last flush was made. -/
  | finished : Status
  /-- Still in the loop after the number of iterations the model was given. -/
  | running : Status
  deriving DecidableEq, Repr

/-- Variables of `sbc_to_snd`, the output file so far, the number of `fwrite` calls so
far, and the events so far. -/
structure SndState (π : Type) where
  sbc : sbc_t π
  buf : List Nat
  pos : Int
  framelen : Int
  count : Int
  len : Nat
  file : List Nat
  nwrites : Nat
  trace : List Event

/-- The flush `written = fwrite(buf, 1, count, fp); if (written > 0) count -= written;`;
`fw k n` is what the `k`-th `fwrite` call of the run reports when asked for `n` items. -/
def flush {π : Type} (fw : Nat → Nat → Nat) (s : SndState π) : SndState π :=
  let requested := to_size_t s.count
  let written := fw s.nwrites requested
  { s with
    file := s.file ++ s.buf.take written
    count := if written > 0 then to_int (s.count - (written : Int)) else s.count
    nwrites := s.nwrites + 1
    trace := s.trace ++ [Event.flush requested written] }

/-- The occupancy test `count + len >= BUF_SIZE`, evaluated in `size_t`. -/
def buffer_full {π : Type} (s : SndState π) : Bool :=
  decide (BUF_SIZE ≤ (to_size_t s.count + s.len) % 18446744073709551616)

/-- Record of the event `e`. -/
def note {π : Type} (e : Event) (s : SndState π) : SndState π :=
  { s with trace := s.trace ++ [e] }

/-- The end of the loop body (lines 299-304): `pos += framelen`, the next `sbc_decode`
call, `count += len`. -/
def decode_next {π : Type} (cdc : Codec π) (stream : List Nat) (mem : Nat → Nat)
    (streamlen : Int) (s : SndState π) : SndState π :=
  let pos := to_int (s.pos + s.framelen)
  let input_len := to_size_t (streamlen - pos)
  let capacity := to_size_t ((BUF_SIZE : Int) - s.count)
  let r := cdc.sbc_decode s.sbc (load_bytes stream pos input_len mem) capacity
  { s with
    sbc := r.sbc
    buf := store_bytes s.buf s.count r.output
    pos := pos
    framelen := to_int r.framelen
    len := r.output.length
    count := to_int (s.count + (r.output.length : Int))
    trace := s.trace ++ [Event.decode pos input_len s.count capacity] }

/-- The start of the loop body (lines 278-286): the occupancy test and, when it holds,
the flush; the state is the one the sanity check of line 289 sees. -/
def flush_if_full {π : Type} (fw : Nat → Nat → Nat) (s : SndState π) : SndState π :=
  let s := note (Event.check s.count s.len) s
  let s := if buffer_full s then flush fw s else s
  note (Event.check s.count s.len) s

/-- The flush after the loop (lines 307-313). -/
def final_flush {π : Type} (fw : Nat → Nat → Nat) (s : SndState π) : SndState π :=
  if 0 < s.count then flush fw s else s

/-- The loop `while (framelen > 0)` and the flush after it (lines 273-313); the first
argument is the number of iterations the model follows. -/
def sbc_to_snd_loop {π : Type} (cdc : Codec π) (stream : List Nat) (mem : Nat → Nat)
    (fw : Nat → Nat → Nat) (streamlen : Int) : Nat → SndState π → Status × SndState π
  | 0, s => (Status.running, s)
  | fuel + 1, s =>
    if 0 < s.framelen then
      let s := flush_if_full fw s
      if buffer_full s then (Status.fatal, s)
      else sbc_to_snd_loop cdc stream mem fw streamlen fuel (decode_next cdc stream mem streamlen s)
    else (Status.finished, final_flush fw s)

/-- The channel count `sbc.mode == SBC_MODE_MONO ? 1 : 2` (line 225). -/
def snd_channels (mode : SbcMode) : Int :=
  if mode = SbcMode.SBC_MODE_MONO then 1 else 2

/-- The `switch (sbc.frequency)` of lines 226-244; the result is a `uint16_t`. -/
def snd_frequency (f : SbcFrequency) : Nat :=
  match f with
  | SbcFrequency.SBC_FREQ_16000 => 16000
  | SbcFrequency.SBC_FREQ_32000 => 32000
  | SbcFrequency.SBC_FREQ_44100 => 44100
  | SbcFrequency.SBC_FREQ_48000 => 48000
  | SbcFrequency.unknown _ => 0

/-- The header `au_hdr` of lines 254-261. -/
def snd_au_header (frequency : Nat) (channels : Int) : au_header :=
  { magic := AU_MAGIC
    hdr_size := BE_INT 24
    data_size := BE_INT 0
    encoding := BE_INT AU_FMT_LIN16
    sample_rate := BE_INT frequency
    channels := BE_INT channels }

/-- Function `sbc_to_snd` up to the first `sbc_decode` call (lines 207-224); `buf` is an
uninitialised array of `BUF_SIZE` bytes. -/
def sbc_to_snd_first {π : Type} (cdc : Codec π) (msbc : Bool) (stream : List Nat)
    (mem : Nat → Nat) : Decoded π :=
  let streamlen : Int := to_int stream.length
  let sbc := if msbc then cdc.sbc_init_msbc else cdc.sbc_init
  let sbc := { sbc with endian := SbcEndian.SBC_BE }
  cdc.sbc_decode sbc (load_bytes stream 0 (to_size_t streamlen) mem) BUF_SIZE

/-- Function `sbc_to_snd`; `src` is the source file (`none` when `stat` fails), `fuel` the
number of loop iterations the model follows. The bytes of a short header write are not
modelled. -/
def sbc_to_snd {π : Type} (cdc : Codec π) (msbc : Bool) (src : Option (List Nat))
    (mem : Nat → Nat) (fw : Nat → Nat → Nat) (fuel : Nat) : Status × Option (SndState π) :=
  match src with
  | none => (Status.aborted, none)
  | some stream =>
    let streamlen : Int := to_int stream.length
    let r := sbc_to_snd_first cdc msbc stream mem
    let channels := snd_channels r.sbc.mode
    let frequency := snd_frequency r.sbc.frequency
    let au_hdr := snd_au_header frequency channels
    let written := fw 0 1 * 24
    let s : SndState π :=
      { sbc := r.sbc
        buf := store_bytes ((List.range BUF_SIZE).map mem) 0 r.output
        pos := 0
        framelen := to_int r.framelen
        count := to_int r.output.length
        len := r.output.length
        file := []
        nwrites := 1
        trace := [] }
    if written < 24 then (Status.header_failed, some s)
    else
      let r := sbc_to_snd_loop cdc stream mem fw streamlen fuel { s with file := au_hdr.bytes }
      (r.1, some r.2)

/-! ## Notation for the statements and example decoders -/

/-- What the buffer bound asks of an event: a test sees `0 <= count <= BUF_SIZE`; a decode
call of the loop gets a write offset `count < BUF_SIZE` and the capacity
`BUF_SIZE - count > 0`. -/
def within_capacity : Event → Prop
  | Event.check count _ => 0 ≤ count ∧ count ≤ (BUF_SIZE : Int)
  | Event.flush _ _ => True
  | Event.decode _ _ offset capacity =>
    0 ≤ offset ∧ offset < (BUF_SIZE : Int) ∧ (capacity : Int) = (BUF_SIZE : Int) - offset ∧
      0 < capacity

/-- The decode call the loop of `sbc_to_pcm` makes for frame `k` (line 414). -/
def pcm_call (k : Nat) : DecodeCall :=
  ⟨to_int ((k : Int) * 57), 57, to_int ((k : Int) * 240), 240⟩

/-- The bound on the variables at the head of the streaming loop. -/
def snd_bounded {π : Type} (s : SndState π) : Prop :=
  0 ≤ s.count ∧ s.count ≤ 8192 ∧ s.len ≤ 8192

/-- An example decoder: every call reports the consumed length `framelen` and stores
`produced` zero bytes, whatever capacity it is given. -/
def example_codec (framelen : Int) (produced : Nat) : Codec Unit :=
  let sbc : sbc_t Unit :=
    ⟨SbcFrequency.SBC_FREQ_16000, SbcMode.SBC_MODE_MONO, SbcEndian.SBC_LE, ()⟩
  { sbc_init := sbc
    sbc_init_msbc := sbc
    sbc_decode := fun s _ _ => ⟨s, framelen, List.replicate produced 0⟩ }

/-- An example decoder of 57-byte frames: a call that is given at least 57 input bytes
consumes 57 and stores 240 zero bytes, or as many as the capacity allows; a call that is
given fewer reports 0 and stores nothing. -/
def frame_codec : Codec Unit :=
  let sbc : sbc_t Unit :=
    ⟨SbcFrequency.SBC_FREQ_16000, SbcMode.SBC_MODE_MONO, SbcEndian.SBC_LE, ()⟩
  { sbc_init := sbc
    sbc_init_msbc := sbc
    sbc_decode := fun s input output_len =>
      if 57 ≤ input.length then ⟨s, 57, List.replicate (min 240 output_len) 0⟩
      else ⟨s, 0, []⟩ }

/-! ## The swap step on its own and the accesses of the swap loop -/

/-- The swap step of `convert_snd_to_wav` (lines 92-98) on the remainder `snd_data` of a
file: the PCM buffer has as many bytes as the remainder, `data_size` is that number as an
`int`. -/
def swap_bytes (snd_data : List Nat) (mem : Nat → Nat) : Option (List Nat) :=
  let size : Int := snd_data.length
  let pcm := malloc mem size
  let data_size : Int := to_int size
  swap_loop snd_data mem data_size (data_size.toNat + 1) 0 pcm

/-- An access of the swap loop: a load `snd_data[idx]` or a store `pcm[idx]`. -/
inductive Access where
  | read (idx : Int) : Access
  | write (idx : Int) : Access
  deriving DecidableEq, Repr

/-- The accesses of the swap loop (lines 94-98) in program order: each iteration loads
`snd_data[i + 1]`, stores `pcm[i]`, loads `snd_data[i]` and stores `pcm[i + 1]`. -/
def swap_loop_accesses (data_size : Int) : Nat → Int → List Access
  | 0, _ => []
  | fuel + 1, i =>
    if i < data_size then
      Access.read (i + 1) :: Access.write i :: Access.read i :: Access.write (i + 1) ::
        swap_loop_accesses data_size fuel (to_int (i + 2))
    else []

/-- The accesses the swap loop of `convert_snd_to_wav` makes on a source file of
`stream.length` bytes. -/
def convert_snd_to_wav_accesses (stream : List Nat) : List Access :=
  let st_size : Int := stream.length
  let data_size : Int := to_int (st_size - 24)
  swap_loop_accesses data_size (data_size.toNat + 1) 0

/-! ## The decode calls of sbc_to_snd -/

/-- One `sbc_decode` call of `sbc_to_snd`: the stream offset `pos` of its input, the
remaining length it is given, the consumed length as stored in `framelen`, and the bytes
it produced. -/
structure SndCall where
  pos : Int
  input_len : Nat
  framelen : Int
  output : List Nat
  deriving DecidableEq, Repr

/-- The `sbc_decode` call of line 300, as `decode_next` makes it. -/
def decode_call {π : Type} (cdc : Codec π) (stream : List Nat) (mem : Nat → Nat)
    (streamlen : Int) (s : SndState π) : SndCall :=
  let pos := to_int (s.pos + s.framelen)
  let input_len := to_size_t (streamlen - pos)
  let capacity := to_size_t ((BUF_SIZE : Int) - s.count)
  let r := cdc.sbc_decode s.sbc (load_bytes stream pos input_len mem) capacity
  { pos := pos, input_len := input_len, framelen := to_int r.framelen, output := r.output }

/-- The decode calls the loop of `sbc_to_snd` makes, in order, within the iterations the
model follows. -/
def sbc_to_snd_loop_calls {π : Type} (cdc : Codec π) (stream : List Nat) (mem : Nat → Nat)
    (fw : Nat → Nat → Nat) (streamlen : Int) : Nat → SndState π → List SndCall
  | 0, _ => []
  | fuel + 1, s =>
    if 0 < s.framelen then
      if buffer_full (flush_if_full fw s) then []
      else
        decode_call cdc stream mem streamlen (flush_if_full fw s) ::
          sbc_to_snd_loop_calls cdc stream mem fw streamlen fuel
            (decode_next cdc stream mem streamlen (flush_if_full fw s))
    else []

/-- The state of `sbc_to_snd` when it enters the loop (line 273): first frame decoded,
header written. -/
def snd_start {π : Type} (cdc : Codec π) (msbc : Bool) (stream : List Nat)
    (mem : Nat → Nat) : SndState π :=
  { sbc := (sbc_to_snd_first cdc msbc stream mem).sbc
    buf := store_bytes ((List.range BUF_SIZE).map mem) 0
      (sbc_to_snd_first cdc msbc stream mem).output
    pos := 0
    framelen := to_int (sbc_to_snd_first cdc msbc stream mem).framelen
    count := to_int (sbc_to_snd_first cdc msbc stream mem).output.length
    len := (sbc_to_snd_first cdc msbc stream mem).output.length
    file := (snd_au_header (snd_frequency (sbc_to_snd_first cdc msbc stream mem).sbc.frequency)
      (snd_channels (sbc_to_snd_first cdc msbc stream mem).sbc.mode)).bytes
    nwrites := 1
    trace := [] }

/-- The first decode call of `sbc_to_snd` (line 224). -/
def first_call {π : Type} (cdc : Codec π) (msbc : Bool) (stream : List Nat)
    (mem : Nat → Nat) : SndCall :=
  { pos := 0
    input_len := to_size_t (to_int stream.length)
    framelen := to_int (sbc_to_snd_first cdc msbc stream mem).framelen
    output := (sbc_to_snd_first cdc msbc stream mem).output }

/-- All decode calls of a run of `sbc_to_snd` on a source file that was read into
`stream`, in order: the first call and, when the header write completes, the calls of the
loop. -/
def sbc_to_snd_calls {π : Type} (cdc : Codec π) (msbc : Bool) (stream : List Nat)
    (mem : Nat → Nat) (fw : Nat → Nat → Nat) (fuel : Nat) : List SndCall :=
  if fw 0 1 * 24 < 24 then [first_call cdc msbc stream mem]
  else
    first_call cdc msbc stream mem ::
      sbc_to_snd_loop_calls cdc stream mem fw (to_int stream.length) fuel
        (snd_start cdc msbc stream mem)

/-- All bytes the calls produced, in decode order. -/
def produced (calls : List SndCall) : List Nat :=
  (calls.map (fun c => c.output)).flatten

/-- An example decoder: every call reports the consumed length `framelen` and stores the
bytes `out`, whatever capacity it is given. -/
def fixed_codec (framelen : Int) (out : List Nat) : Codec Unit :=
  let sbc : sbc_t Unit :=
    ⟨SbcFrequency.SBC_FREQ_16000, SbcMode.SBC_MODE_MONO, SbcEndian.SBC_LE, ()⟩
  { sbc_init := sbc
    sbc_init_msbc := sbc
    sbc_decode := fun s _ _ => ⟨s, framelen, out⟩ }


/-- Whether an event is an occupancy test; every loop iteration makes two (lines 278 and
289). -/
def Event.is_check : Event → Bool
  | Event.check _ _ => true
  | _ => false

/-- An example decoder of 57-byte frames with a marked last byte: a call that is given at
least 57 input bytes consumes 57 and stores 4095 bytes of value 7 and one byte of value 9;
a call that is given fewer reports 0 and stores nothing. -/
def marked_codec : Codec Unit :=
  let sbc : sbc_t Unit :=
    ⟨SbcFrequency.SBC_FREQ_16000, SbcMode.SBC_MODE_MONO, SbcEndian.SBC_LE, ()⟩
  { sbc_init := sbc
    sbc_init_msbc := sbc
    sbc_decode := fun s input _ =>
      if 57 ≤ input.length then ⟨s, 57, List.replicate 4095 7 ++ [9]⟩
      else ⟨s, 0, []⟩ }

/-- The stream offset and the remaining length of a decode call recorded in the trace. -/
def Event.call_input : Event → Option (Int × Nat)
  | Event.decode pos input_len _ _ => some (pos, input_len)
  | _ => none

/-! ## Machine integers and memory: basic facts -/

theorem to_int_of_range (x : Int) (h0 : -2147483648 ≤ x) (h1 : x < 2147483648) :
    to_int x = x := by
  unfold to_int; omega

theorem to_int_add_left (x y : Int) : to_int (to_int x + y) = to_int (x + y) := by
  unfold to_int; omega

theorem to_int_le_self (x : Int) (h : 0 ≤ x) : to_int x ≤ x := by
  unfold to_int; omega

theorem to_int_mod (x : Int) : to_int x % 4294967296 = x % 4294967296 := by
  unfold to_int; omega

theorem to_int_lt (x : Int) : to_int x < 2147483648 := by
  unfold to_int; omega

theorem le32_bytes (v : Int) :
    ((to_uchar v + 256 * (to_uchar (shr v 8) + 256 * (to_uchar (shr v 16) +
      256 * (to_uchar (shr v 24) + 256 * 0))) : Nat) : Int) = v % 4294967296 := by
  unfold to_uchar shr
  omega

theorem le16_bytes (v : Int) :
    ((to_uchar v + 256 * (to_uchar (shr v 8) + 256 * 0) : Nat) : Int) = v % 65536 := by
  unfold to_uchar shr
  omega

theorem store_nat (buf : List Nat) (n v : Nat) : store buf (n : Int) v = buf.set n v := by
  simp [store]

theorem store_length (buf : List Nat) (idx : Int) (v : Nat) :
    (store buf idx v).length = buf.length := by
  unfold store; split <;> simp

theorem store_bytes_length (bs : List Nat) :
    ∀ (buf : List Nat) (off : Int), (store_bytes buf off bs).length = buf.length := by
  induction bs with
  | nil => intro buf off; rfl
  | cons b bs ih => intro buf off; rw [store_bytes, ih, store_length]

theorem load_in_range (s : List Nat) (k : Nat) (mem : Nat → Nat) (h : k < s.length) :
    s[k]? = some (load s (k : Int) mem) := by
  unfold load
  rw [if_pos (by omega), Int.toNat_ofNat, List.getD_eq_getElem?_getD, List.getElem?_eq_getElem h]
  rfl

theorem load_append (s t : List Nat) (idx : Int) (mem : Nat → Nat)
    (h : idx < (s.length : Int)) : load (s ++ t) idx mem = load s idx mem := by
  unfold load
  split
  · rename_i h0
    have hlt : idx.toNat < s.length := by omega
    simp [List.getD_eq_getElem?_getD, List.getElem?_append_left hlt]
  · rfl

theorem load_bytes_append (s t : List Nat) (off : Int) (n : Nat) (mem : Nat → Nat)
    (h : off + (n : Int) ≤ (s.length : Int)) :
    load_bytes (s ++ t) off n mem = load_bytes s off n mem := by
  unfold load_bytes
  apply List.map_congr_left
  intro j hj
  rw [List.mem_range] at hj
  exact load_append s t _ mem (by omega)

theorem load_bytes_eq_slice (s : List Nat) (k n : Nat) (mem : Nat → Nat)
    (h : k + n ≤ s.length) : load_bytes s (k : Int) n mem = (s.drop k).take n := by
  apply List.ext_getElem?
  intro j
  unfold load_bytes
  by_cases hj : j < n
  · have h1 : ((k : Int) + (j : Int)) = ((k + j : Nat) : Int) := by omega
    rw [List.getElem?_map, List.getElem?_range hj, Option.map_some', h1,
      ← load_in_range s (k + j) mem (by omega), List.getElem?_take_of_lt hj, List.getElem?_drop]
  · rw [List.getElem?_eq_none (by simp; omega), List.getElem?_eq_none (by simp; omega)]

theorem malloc_length (mem : Nat → Nat) (n : Nat) : (malloc mem (n : Int)).length = n := by
  have h : ¬ ((n : Int) < 0) := by omega
  simp [malloc, h]

theorem fwrite_block_negative (file ptr : List Nat) (size : Int) (h : size < 0) :
    fwrite_block file ptr size = Outcome.fault file := by
  unfold fwrite_block
  rw [if_neg (by omega)]

theorem fwrite_block_all (file ptr : List Nat) :
    fwrite_block file ptr (ptr.length : Int) = Outcome.wrote (file ++ ptr) := by
  unfold fwrite_block
  rw [if_pos (by omega), Int.toNat_ofNat, List.take_of_length_le (le_refl _)]

/-! ## WAV header: shape -/

theorem build_wav_header_eq (c r b : Nat) (d : Int) :
    build_wav_header c r b d =
      [0x52, 0x49, 0x46, 0x46,
       to_uchar (to_int (d + 36)), to_uchar (shr (to_int (d + 36)) 8),
       to_uchar (shr (to_int (d + 36)) 16), to_uchar (shr (to_int (d + 36)) 24),
       0x57, 0x41, 0x56, 0x45, 0x66, 0x6d, 0x74, 0x20, 0x10, 0, 0, 0, 1, 0,
       to_uchar c, 0,
       to_uchar r, to_uchar (shr r 8), to_uchar (shr r 16), to_uchar (shr r 24),
       to_uchar (if b = 8 then to_int ((c * 1 * r : Nat) : Int)
         else to_int ((c * 2 * r : Nat) : Int)),
       to_uchar (shr (if b = 8 then to_int ((c * 1 * r : Nat) : Int)
         else to_int ((c * 2 * r : Nat) : Int)) 8),
       to_uchar (shr (if b = 8 then to_int ((c * 1 * r : Nat) : Int)
         else to_int ((c * 2 * r : Nat) : Int)) 16),
       to_uchar (shr (if b = 8 then to_int ((c * 1 * r : Nat) : Int)
         else to_int ((c * 2 * r : Nat) : Int)) 24),
       to_uchar (if b = 8 then to_int ((c * 1 : Nat) : Int) else to_int ((c * 2 : Nat) : Int)),
       to_uchar (shr (if b = 8 then to_int ((c * 1 : Nat) : Int)
         else to_int ((c * 2 : Nat) : Int)) 8),
       to_uchar b, to_uchar (shr b 8),
       0x64, 0x61, 0x74, 0x61,
       to_uchar d, to_uchar (shr d 8), to_uchar (shr d 16), to_uchar (shr d 24)] := by
  simp only [build_wav_header, app_wav_hdr, List.set_cons_succ, List.set_cons_zero]

theorem build_wav_header_length (c r b : Nat) (d : Int) :
    (build_wav_header c r b d).length = 44 := by
  simp only [build_wav_header, app_wav_hdr, List.length_set, List.length_cons, List.length_nil]

theorem build_wav_header_take (c r b : Nat) (d : Int) :
    (build_wav_header c r b d).take APP_WAVE_HDR_SIZE = build_wav_header c r b d :=
  List.take_of_length_le (by rw [build_wav_header_length, APP_WAVE_HDR_SIZE])

/-! ## convert_snd_to_wav: the swap loop -/

theorem swap_loop_even (snd_data : List Nat) (mem : Nat → Nat) (m : Nat)
    (hm : 2 * m < 2147483648) (hlen : snd_data.length = 2 * m) :
    ∀ (r fuel j : Nat) (pcm : List Nat), j + r = m → r < fuel → pcm.length = 2 * m →
      ∃ out, swap_loop snd_data mem ((2 * m : Nat) : Int) fuel ((2 * j : Nat) : Int) pcm
          = some out ∧
        out.length = 2 * m ∧
        (∀ x, x < 2 * j → out[x]? = pcm[x]?) ∧
        (∀ k, j ≤ k → k < m →
          out[2 * k]? = snd_data[2 * k + 1]? ∧ out[2 * k + 1]? = snd_data[2 * k]?) := by
  intro r
  induction r with
  | zero =>
    intro fuel j pcm hj hf hp
    obtain ⟨f, rfl⟩ : ∃ f, fuel = f + 1 := ⟨fuel - 1, by omega⟩
    refine ⟨pcm, ?_, hp, fun _ _ => rfl, fun k h1 h2 => by omega⟩
    have : ¬ (((2 * j : Nat) : Int) < ((2 * m : Nat) : Int)) := by omega
    rw [swap_loop, if_neg this]
  | succ r ih =>
    intro fuel j pcm hj hf hp
    obtain ⟨f, rfl⟩ : ∃ f, fuel = f + 1 := ⟨fuel - 1, by omega⟩
    have hlt : (((2 * j : Nat) : Int) < ((2 * m : Nat) : Int)) := by omega
    have hnext : to_int (((2 * j : Nat) : Int) + 2) = ((2 * (j + 1) : Nat) : Int) := by
      unfold to_int; omega
    have h1 : (((2 * j : Nat) : Int) + 1) = ((2 * j + 1 : Nat) : Int) := by omega
    obtain ⟨out, ho, hl, hpre, hpost⟩ :=
      ih f (j + 1) ((pcm.set (2 * j) (load snd_data ((2 * j + 1 : Nat) : Int) mem)).set
        (2 * j + 1) (load snd_data ((2 * j : Nat) : Int) mem)) (by omega) (by omega)
        (by simp [hp])
    refine ⟨out, ?_, hl, ?_, ?_⟩
    · rw [swap_loop, if_pos hlt]
      simp only [hnext, h1, store_nat]
      exact ho
    · intro x hx
      rw [hpre x (by omega)]
      rw [List.getElem?_set_ne (by omega), List.getElem?_set_ne (by omega)]
    · intro k hk1 hk2
      rcases Nat.eq_or_lt_of_le hk1 with rfl | hk
      · constructor
        · rw [hpre (2 * j) (by omega), List.getElem?_set_ne (by omega),
            List.getElem?_set_self, ← load_in_range snd_data (2 * j + 1) mem (by omega)]
          simp [hp]; omega
        · rw [hpre (2 * j + 1) (by omega), List.getElem?_set_self,
            ← load_in_range snd_data (2 * j) mem (by omega)]
          simp [hp]; omega
      · exact hpost k (by omega) hk2

theorem swap_loop_total (snd_data : List Nat) (mem : Nat → Nat) (d : Int)
    (hd : d < 2147483647) :
    ∀ (fuel : Nat) (i : Int) (pcm : List Nat), 0 ≤ i → i ≤ d + 1 → d + 1 - i < 2 * (fuel : Int) →
      ∃ out, swap_loop snd_data mem d fuel i pcm = some out ∧ out.length = pcm.length := by
  intro fuel
  induction fuel with
  | zero => intro i pcm h0 h1 h2; omega
  | succ f ih =>
    intro i pcm h0 h1 h2
    rw [swap_loop]
    split
    · rename_i hlt
      have hnext : to_int (i + 2) = i + 2 := to_int_of_range _ (by omega) (by omega)
      simp only [hnext]
      obtain ⟨out, ho, hl⟩ := ih (i + 2) (store (store pcm i (load snd_data (i + 1) mem)) (i + 1)
        (load snd_data i mem)) (by omega) (by omega) (by omega)
      exact ⟨out, ho, by rw [hl, store_length, store_length]⟩
    · exact ⟨pcm, rfl, rfl⟩

/-! ## convert_snd_to_wav: the whole function -/

theorem convert_snd_to_wav_negative (stream : List Nat) (mem : Nat → Nat)
    (h : to_int ((stream.length : Int) - 24) < 0) :
    convert_snd_to_wav (some stream) mem =
      Outcome.fault (build_wav_header 1 16000 16 (to_int ((stream.length : Int) - 24))) := by
  have hloop : ∀ pcm, swap_loop (stream.drop 24) mem (to_int ((stream.length : Int) - 24))
      ((to_int ((stream.length : Int) - 24)).toNat + 1) 0 pcm = some pcm := by
    intro pcm
    rw [swap_loop, if_neg (by omega)]
  simp only [convert_snd_to_wav, hloop]
  simp only [convert_snd_to_wav_write, build_wav_header_take]
  exact fwrite_block_negative _ _ _ h

theorem convert_snd_to_wav_sized (stream : List Nat) (mem : Nat → Nat) (d : Nat)
    (hlen : stream.length = 24 + d) (hd : d < 2147483647) :
    ∃ pcm, convert_snd_to_wav (some stream) mem =
        Outcome.wrote (build_wav_header 1 16000 16 (d : Int) ++ pcm) ∧ pcm.length = d := by
  have hsz : (stream.length : Int) - 24 = (d : Int) := by omega
  have hds : to_int (d : Int) = (d : Int) := to_int_of_range _ (by omega) (by omega)
  obtain ⟨out, ho, hl⟩ := swap_loop_total (stream.drop 24) mem (d : Int) (by omega)
    ((d : Int).toNat + 1) 0 (malloc mem (d : Int)) (by omega) (by omega) (by omega)
  rw [malloc_length] at hl
  refine ⟨out, ?_, hl⟩
  simp only [convert_snd_to_wav, hsz, hds, ho]
  simp only [convert_snd_to_wav_write, build_wav_header_take]
  rw [← hl, fwrite_block_all]

theorem convert_snd_to_wav_even (stream : List Nat) (mem : Nat → Nat) (m : Nat)
    (hlen : stream.length = 24 + 2 * m) (hm : 2 * m < 2147483648) :
    ∃ pcm, convert_snd_to_wav (some stream) mem =
        Outcome.wrote (build_wav_header 1 16000 16 ((2 * m : Nat) : Int) ++ pcm) ∧
      pcm.length = 2 * m ∧
      ∀ k, k < m →
        pcm[2 * k]? = stream[24 + 2 * k + 1]? ∧ pcm[2 * k + 1]? = stream[24 + 2 * k]? := by
  have hsz : (stream.length : Int) - 24 = ((2 * m : Nat) : Int) := by omega
  have hds : to_int ((2 * m : Nat) : Int) = ((2 * m : Nat) : Int) :=
    to_int_of_range _ (by omega) (by omega)
  obtain ⟨out, ho, hl, -, hsw⟩ := swap_loop_even (stream.drop 24) mem m hm (by simp [hlen])
    m (((2 * m : Nat) : Int).toNat + 1) 0 (malloc mem ((2 * m : Nat) : Int)) (by omega) (by omega)
    (malloc_length mem (2 * m))
  refine ⟨out, ?_, hl, ?_⟩
  · have h0 : ((2 * 0 : Nat) : Int) = 0 := rfl
    rw [h0] at ho
    simp only [convert_snd_to_wav, hsz, hds, ho]
    simp only [convert_snd_to_wav_write, build_wav_header_take]
    have hl2 : ((2 * m : Nat) : Int) = (out.length : Int) := by omega
    rw [hl2, fwrite_block_all, ← hl2]
  · intro k hk
    obtain ⟨h1, h2⟩ := hsw k (Nat.zero_le k) hk
    rw [h1, h2, List.getElem?_drop, List.getElem?_drop]
    exact ⟨by congr 1, rfl⟩

/-! ## sbc_to_pcm: the decode loop and the whole function -/

theorem sbc_to_pcm_loop_spec {π : Type} (cdc : Codec π) (stream : List Nat) (mem : Nat → Nat)
    (c : Nat) (hc : (c : Int) < 2147483648) :
    ∀ (r fuel i : Nat) (s : PcmLoop π), i + r = c → r < fuel →
      s.data_size = to_int (240 * (i : Int)) → s.calls = (List.range i).map pcm_call →
      ∃ out, sbc_to_pcm_loop cdc stream mem (c : Int) fuel (i : Int) s = some out ∧
        out.pcm.length = s.pcm.length ∧ out.data_size = to_int (240 * (c : Int)) ∧
        out.calls = (List.range c).map pcm_call := by
  intro r
  induction r with
  | zero =>
    intro fuel i s hi hf hd hcalls
    obtain ⟨f, rfl⟩ : ∃ f, fuel = f + 1 := ⟨fuel - 1, by omega⟩
    have hic : i = c := by omega
    subst hic
    refine ⟨s, ?_, rfl, hd, hcalls⟩
    rw [sbc_to_pcm_loop, if_neg (by omega)]
  | succ r ih =>
    intro fuel i s hi hf hd hcalls
    obtain ⟨f, rfl⟩ : ∃ f, fuel = f + 1 := ⟨fuel - 1, by omega⟩
    have hlt : (i : Int) < (c : Int) := by omega
    have hnext : to_int ((i : Int) + 1) = ((i + 1 : Nat) : Int) := by
      rw [to_int_of_range _ (by omega) (by omega)]; omega
    rw [sbc_to_pcm_loop, if_pos hlt]
    simp only [hnext]
    obtain ⟨out, ho, hl, hds, hcs⟩ := ih f (i + 1)
      { sbc := (cdc.sbc_decode s.sbc (load_bytes stream (to_int ((i : Int) * 57)) 57 mem) 240).sbc
        pcm := store_bytes s.pcm (to_int ((i : Int) * 240))
          (cdc.sbc_decode s.sbc (load_bytes stream (to_int ((i : Int) * 57)) 57 mem) 240).output
        framelen := to_int
          (cdc.sbc_decode s.sbc (load_bytes stream (to_int ((i : Int) * 57)) 57 mem) 240).framelen
        len := (cdc.sbc_decode s.sbc
          (load_bytes stream (to_int ((i : Int) * 57)) 57 mem) 240).output.length
        data_size := to_int (s.data_size + 240)
        calls := s.calls ++ [⟨to_int ((i : Int) * 57), 57, to_int ((i : Int) * 240), 240⟩] }
      (by omega) (by omega)
      (by simp only; rw [hd, to_int_add_left]; congr 1)
      (by simp only; rw [hcalls, List.range_succ, List.map_append]; rfl)
    refine ⟨out, ho, ?_, hds, hcs⟩
    rw [hl]; exact store_bytes_length _ _ _

theorem sbc_to_pcm_decode_spec {π : Type} (cdc : Codec π) (msbc : Bool) (stream : List Nat)
    (mem : Nat → Nat) (hc : stream.length / 57 < 2147483648) :
    ∃ out, sbc_to_pcm_decode cdc msbc stream mem = some out ∧
      out.pcm.length = (malloc mem (to_int (((stream.length / 57 : Nat) : Int) * 240))).length ∧
      out.data_size = to_int (240 * ((stream.length / 57 : Nat) : Int)) ∧
      out.calls = (List.range (stream.length / 57)).map pcm_call := by
  have h1 : ((stream.length : Int) / 57) = ((stream.length / 57 : Nat) : Int) := by omega
  have h2 : to_int ((stream.length / 57 : Nat) : Int) = ((stream.length / 57 : Nat) : Int) :=
    to_int_of_range _ (by omega) (by omega)
  obtain ⟨out, ho, hl, hd, hcs⟩ := sbc_to_pcm_loop_spec cdc stream mem (stream.length / 57)
    (by omega) (stream.length / 57) (stream.length / 57 + 1) 0
    { sbc := { (if msbc then cdc.sbc_init_msbc else cdc.sbc_init) with endian := SbcEndian.SBC_LE }
      pcm := malloc mem (to_int (((stream.length / 57 : Nat) : Int) * 240))
      framelen := 0, len := 0, data_size := 0, calls := [] }
    (by omega) (by omega) (by show (0 : Int) = to_int (240 * ((0 : Nat) : Int)); decide) (by rfl)
  simp only at hl
  refine ⟨out, ?_, hl, hd, hcs⟩
  simp only [sbc_to_pcm_decode, h1, h2, Int.toNat_ofNat]
  exact ho

theorem sbc_to_pcm_sized {π : Type} (cdc : Codec π) (msbc : Bool) (stream : List Nat)
    (mem : Nat → Nat) (hc : 240 * (stream.length / 57) < 2147483648) :
    ∃ out, sbc_to_pcm_decode cdc msbc stream mem = some out ∧
      out.pcm.length = 240 * (stream.length / 57) ∧
      out.data_size = ((240 * (stream.length / 57) : Nat) : Int) ∧
      out.calls = (List.range (stream.length / 57)).map pcm_call ∧
      sbc_to_pcm cdc msbc (some stream) mem =
        Outcome.wrote (build_wav_header 1 16000 16 ((240 * (stream.length / 57) : Nat) : Int)
          ++ out.pcm) := by
  obtain ⟨out, ho, hl, hd, hcs⟩ := sbc_to_pcm_decode_spec cdc msbc stream mem (by omega)
  have e1 : to_int (((stream.length / 57 : Nat) : Int) * 240) =
      ((240 * (stream.length / 57) : Nat) : Int) := by
    rw [to_int_of_range _ (by omega) (by omega)]; omega
  have e2 : to_int (240 * ((stream.length / 57 : Nat) : Int)) =
      ((240 * (stream.length / 57) : Nat) : Int) := by
    rw [to_int_of_range _ (by omega) (by omega)]; omega
  rw [e1, malloc_length] at hl
  rw [e2] at hd
  refine ⟨out, ho, hl, hd, hcs, ?_⟩
  simp only [sbc_to_pcm, ho]
  simp only [sbc_to_pcm_write, hd, build_wav_header_take]
  rw [← hl, fwrite_block_all]

theorem sbc_to_pcm_loop_append {π : Type} (cdc : Codec π) (s t : List Nat) (mem : Nat → Nat)
    (c : Int) (hc : c < 2147483648) (hs : c * 57 ≤ (s.length : Int)) :
    ∀ (fuel : Nat) (i : Int) (st : PcmLoop π), 0 ≤ i →
      sbc_to_pcm_loop cdc (s ++ t) mem c fuel i st = sbc_to_pcm_loop cdc s mem c fuel i st := by
  intro fuel
  induction fuel with
  | zero => intro i st _; rfl
  | succ f ih =>
    intro i st hi
    rw [sbc_to_pcm_loop, sbc_to_pcm_loop]
    split
    · rename_i hlt
      have hw : load_bytes (s ++ t) (to_int (i * 57)) 57 mem =
          load_bytes s (to_int (i * 57)) 57 mem := by
        apply load_bytes_append
        have := to_int_le_self (i * 57) (by omega)
        omega
      have hnext : to_int (i + 1) = i + 1 := to_int_of_range _ (by omega) (by omega)
      simp only [hw, hnext]
      exact ih _ _ (by omega)
    · rfl

theorem sbc_to_pcm_append {π : Type} (cdc : Codec π) (msbc : Bool) (s t : List Nat)
    (mem : Nat → Nat) (hs : 57 ∣ s.length) (ht : t.length < 57) :
    sbc_to_pcm cdc msbc (some (s ++ t)) mem = sbc_to_pcm cdc msbc (some s) mem := by
  have hlen : (((s ++ t).length : Nat) : Int) / 57 = (s.length : Int) / 57 := by
    rw [List.length_append]; omega
  have hdec : sbc_to_pcm_decode cdc msbc (s ++ t) mem = sbc_to_pcm_decode cdc msbc s mem := by
    simp only [sbc_to_pcm_decode, hlen]
    by_cases h0 : 0 ≤ to_int ((s.length : Int) / 57)
    · apply sbc_to_pcm_loop_append _ _ _ _ _ (to_int_lt _) _ _ _ _ (le_refl _)
      have := to_int_le_self ((s.length : Int) / 57) (by omega)
      omega
    · have hneg : ¬ (0 < to_int ((s.length : Int) / 57)) := by omega
      rw [sbc_to_pcm_loop, if_neg hneg, sbc_to_pcm_loop, if_neg hneg]
  simp only [sbc_to_pcm, hdec]

theorem sbc_to_pcm_negative_size {π : Type} (cdc : Codec π) (msbc : Bool) (stream : List Nat)
    (mem : Nat → Nat) (c : Nat) (hdiv : stream.length / 57 = c) (hc : c < 2147483648)
    (hneg : to_int (240 * (c : Int)) < 0) :
    sbc_to_pcm cdc msbc (some stream) mem =
      Outcome.fault (build_wav_header 1 16000 16 (to_int (240 * (c : Int)))) := by
  obtain ⟨out, h1, -, h3, -⟩ := sbc_to_pcm_decode_spec cdc msbc stream mem (by omega)
  rw [hdiv] at h3
  simp only [sbc_to_pcm, h1]
  simp only [sbc_to_pcm_write, h3, build_wav_header_take]
  exact fwrite_block_negative _ _ _ hneg

/-! ## sbc_to_snd: the streaming loop -/

theorem to_size_t_of_nonneg (x : Int) (h0 : 0 ≤ x) (h1 : x < 18446744073709551616) :
    (to_size_t x : Int) = x := by
  unfold to_size_t; omega

theorem buffer_full_iff {π : Type} (s : SndState π) (h0 : 0 ≤ s.count)
    (h1 : s.count ≤ 8192) (h2 : s.len ≤ 8192) :
    buffer_full s = true ↔ 8192 ≤ s.count + (s.len : Int) := by
  have h := to_size_t_of_nonneg s.count h0 (by omega)
  simp only [buffer_full, BUF_SIZE, decide_eq_true_eq]
  omega

theorem flush_count {π : Type} (fw : Nat → Nat → Nat) (s : SndState π) (h0 : 0 ≤ s.count)
    (h1 : s.count ≤ 8192) (hfw : ∀ k n, fw k n ≤ n) :
    0 ≤ (flush fw s).count ∧ (flush fw s).count ≤ s.count := by
  have h := to_size_t_of_nonneg s.count h0 (by omega)
  have hw := hfw s.nwrites (to_size_t s.count)
  simp only [flush]
  split
  · rw [to_int_of_range _ (by omega) (by omega)]
    omega
  · omega

theorem flush_trace {π : Type} (fw : Nat → Nat → Nat) (s : SndState π) :
    (flush fw s).trace = s.trace ++ [Event.flush (to_size_t s.count)
      (fw s.nwrites (to_size_t s.count))] := rfl

theorem flush_file {π : Type} (fw : Nat → Nat → Nat) (s : SndState π) :
    (flush fw s).file = s.file ++ s.buf.take (fw s.nwrites (to_size_t s.count)) := rfl

theorem flush_if_full_file {π : Type} (fw : Nat → Nat → Nat) (s : SndState π) :
    ∃ rest, (flush_if_full fw s).file = s.file ++ rest := by
  unfold flush_if_full
  by_cases h : buffer_full (note (Event.check s.count s.len) s) = true
  · simp only [h, if_true]
    exact ⟨_, flush_file fw _⟩
  · simp only [h, Bool.false_eq_true, if_false]
    exact ⟨[], by simp [note]⟩

theorem final_flush_file {π : Type} (fw : Nat → Nat → Nat) (s : SndState π) :
    ∃ rest, (final_flush fw s).file = s.file ++ rest := by
  unfold final_flush
  split
  · exact ⟨_, flush_file fw _⟩
  · exact ⟨[], by simp⟩

theorem decode_next_file {π : Type} (cdc : Codec π) (stream : List Nat) (mem : Nat → Nat)
    (streamlen : Int) (s : SndState π) :
    (decode_next cdc stream mem streamlen s).file = s.file := rfl

theorem sbc_to_snd_loop_file {π : Type} (cdc : Codec π) (stream : List Nat) (mem : Nat → Nat)
    (fw : Nat → Nat → Nat) (streamlen : Int) :
    ∀ (fuel : Nat) (s : SndState π),
      ∃ rest, (sbc_to_snd_loop cdc stream mem fw streamlen fuel s).2.file = s.file ++ rest := by
  intro fuel
  induction fuel with
  | zero => intro s; exact ⟨[], by simp [sbc_to_snd_loop]⟩
  | succ f ih =>
    intro s
    rw [sbc_to_snd_loop]
    by_cases hfl : 0 < s.framelen
    · rw [if_pos hfl]
      obtain ⟨r1, hr1⟩ := flush_if_full_file fw s
      by_cases hfull : buffer_full (flush_if_full fw s) = true
      · simp only [hfull, if_true]
        exact ⟨r1, hr1⟩
      · simp only [hfull, Bool.false_eq_true, if_false]
        obtain ⟨r2, hr2⟩ := ih (decode_next cdc stream mem streamlen (flush_if_full fw s))
        refine ⟨r1 ++ r2, ?_⟩
        rw [hr2, decode_next_file, hr1, List.append_assoc]
    · rw [if_neg hfl]
      exact final_flush_file fw s

theorem flush_if_full_within {π : Type} (fw : Nat → Nat → Nat) (s : SndState π)
    (hfw : ∀ k n, fw k n ≤ n) (hs : snd_bounded s) (ht : ∀ e ∈ s.trace, within_capacity e) :
    snd_bounded (flush_if_full fw s) ∧ ∀ e ∈ (flush_if_full fw s).trace, within_capacity e := by
  obtain ⟨h0, h1, h2⟩ := hs
  have hb : (((BUF_SIZE : Nat) : Int)) = 8192 := rfl
  unfold flush_if_full
  by_cases h : buffer_full (note (Event.check s.count s.len) s) = true
  · simp only [h, if_true]
    obtain ⟨c0, c1⟩ := flush_count fw (note (Event.check s.count s.len) s) h0 h1 hfw
    have c2 : (flush fw (note (Event.check s.count s.len) s)).count ≤ 8192 :=
      le_trans c1 h1
    refine ⟨⟨c0, c2, h2⟩, ?_⟩
    intro e he
    simp only [note, flush_trace, List.mem_append, List.mem_singleton] at he
    rcases he with ((he | he) | he) | he
    · exact ht e he
    · subst he; exact ⟨h0, by rw [hb]; exact h1⟩
    · subst he; trivial
    · subst he; exact ⟨c0, by rw [hb]; exact c2⟩
  · simp only [h, Bool.false_eq_true, if_false]
    refine ⟨⟨h0, h1, h2⟩, ?_⟩
    intro e he
    simp only [note, List.mem_append, List.mem_singleton] at he
    rcases he with (he | he) | he
    · exact ht e he
    · subst he; exact ⟨h0, by rw [hb]; exact h1⟩
    · subst he; exact ⟨h0, by rw [hb]; exact h1⟩

theorem decode_next_within {π : Type} (cdc : Codec π) (stream : List Nat) (mem : Nat → Nat)
    (streamlen : Int) (s : SndState π)
    (hdec : ∀ sbc input cap, (cdc.sbc_decode sbc input cap).output.length ≤ cap)
    (hs : snd_bounded s) (hfull : ¬ buffer_full s = true)
    (ht : ∀ e ∈ s.trace, within_capacity e) :
    snd_bounded (decode_next cdc stream mem streamlen s) ∧
      ∀ e ∈ (decode_next cdc stream mem streamlen s).trace, within_capacity e := by
  obtain ⟨h0, h1, h2⟩ := hs
  rw [buffer_full_iff s h0 h1 h2] at hfull
  have hcap : (to_size_t ((BUF_SIZE : Int) - s.count) : Int) = (BUF_SIZE : Int) - s.count :=
    to_size_t_of_nonneg _ (by simp only [BUF_SIZE]; omega) (by simp only [BUF_SIZE]; omega)
  have hout := hdec s.sbc
    (load_bytes stream (to_int (s.pos + s.framelen))
      (to_size_t (streamlen - to_int (s.pos + s.framelen))) mem)
    (to_size_t ((BUF_SIZE : Int) - s.count))
  simp only [BUF_SIZE] at hcap hout
  refine ⟨?_, ?_⟩
  · simp only [snd_bounded, decode_next, BUF_SIZE]
    rw [to_int_of_range _ (by omega) (by omega)]
    omega
  · intro e he
    simp only [decode_next, List.mem_append, List.mem_singleton] at he
    rcases he with he | he
    · exact ht e he
    · subst he
      simp only [within_capacity, BUF_SIZE]
      omega

theorem final_flush_within {π : Type} (fw : Nat → Nat → Nat) (s : SndState π)
    (ht : ∀ e ∈ s.trace, within_capacity e) :
    ∀ e ∈ (final_flush fw s).trace, within_capacity e := by
  unfold final_flush
  split
  · intro e he
    simp only [flush_trace, List.mem_append, List.mem_singleton] at he
    rcases he with he | he
    · exact ht e he
    · subst he; trivial
  · exact ht

theorem sbc_to_snd_loop_within {π : Type} (cdc : Codec π) (stream : List Nat)
    (mem : Nat → Nat) (fw : Nat → Nat → Nat) (streamlen : Int)
    (hdec : ∀ sbc input cap, (cdc.sbc_decode sbc input cap).output.length ≤ cap)
    (hfw : ∀ k n, fw k n ≤ n) :
    ∀ (fuel : Nat) (s : SndState π), snd_bounded s → (∀ e ∈ s.trace, within_capacity e) →
      ∀ e ∈ (sbc_to_snd_loop cdc stream mem fw streamlen fuel s).2.trace, within_capacity e := by
  intro fuel
  induction fuel with
  | zero => intro s _ ht; simpa [sbc_to_snd_loop] using ht
  | succ f ih =>
    intro s hs ht
    rw [sbc_to_snd_loop]
    by_cases hfl : 0 < s.framelen
    · rw [if_pos hfl]
      obtain ⟨hs1, ht1⟩ := flush_if_full_within fw s hfw hs ht
      by_cases hfull : buffer_full (flush_if_full fw s) = true
      · simp only [hfull, if_true]
        exact ht1
      · simp only [hfull, Bool.false_eq_true, if_false]
        obtain ⟨hs2, ht2⟩ := decode_next_within cdc stream mem streamlen _ hdec hs1 hfull ht1
        exact ih _ hs2 ht2
    · rw [if_neg hfl]
      exact final_flush_within fw s ht

/-! ## WAV header: field values -/

theorem le32_of_to_int (v : Nat) :
    to_uchar (to_int (v : Int)) + 256 * (to_uchar (shr (to_int (v : Int)) 8) +
      256 * (to_uchar (shr (to_int (v : Int)) 16) +
      256 * (to_uchar (shr (to_int (v : Int)) 24) + 256 * 0))) = v % 4294967296 := by
  have h := le32_bytes (to_int (v : Int))
  have h2 := to_int_mod (v : Int)
  generalize to_int (v : Int) = w at h h2 ⊢
  generalize to_uchar w + 256 * (to_uchar (shr w 8) + 256 * (to_uchar (shr w 16) +
    256 * (to_uchar (shr w 24) + 256 * 0))) = x at h ⊢
  omega

theorem le16_of_to_int (v : Nat) (hv : v < 65536) :
    to_uchar (to_int (v : Int)) + 256 * (to_uchar (shr (to_int (v : Int)) 8) + 256 * 0) = v := by
  have h := le16_bytes (v : Int)
  have h2 : to_int (v : Int) = (v : Int) := to_int_of_range _ (by omega) (by omega)
  rw [h2]
  generalize to_uchar (v : Int) + 256 * (to_uchar (shr (v : Int) 8) + 256 * 0) = x at h ⊢
  omega

theorem le32_of_nat (v : Nat) (hv : v < 4294967296) :
    to_uchar (v : Int) + 256 * (to_uchar (shr (v : Int) 8) +
      256 * (to_uchar (shr (v : Int) 16) + 256 * (to_uchar (shr (v : Int) 24) + 256 * 0))) = v := by
  have h := le32_bytes (v : Int)
  generalize to_uchar (v : Int) + 256 * (to_uchar (shr (v : Int) 8) +
    256 * (to_uchar (shr (v : Int) 16) + 256 * (to_uchar (shr (v : Int) 24) + 256 * 0))) = x
    at h ⊢
  omega

theorem le16_of_nat (v : Nat) (hv : v < 65536) :
    to_uchar (v : Int) + 256 * (to_uchar (shr (v : Int) 8) + 256 * 0) = v := by
  have h := le16_bytes (v : Int)
  generalize to_uchar (v : Int) + 256 * (to_uchar (shr (v : Int) 8) + 256 * 0) = x at h ⊢
  omega

theorem to_uchar_small (v : Nat) (hv : v < 256) : to_uchar (v : Int) = v := by
  unfold to_uchar; omega

theorem build_wav_header_sizes (c r b : Nat) (d : Nat) (hd : d ≤ 2147483611) :
    le_field (build_wav_header c r b (d : Int)) 40 4 = d ∧
      le_field (build_wav_header c r b (d : Int)) 4 4 = d + 36 := by
  have h1 := le32_of_nat d (by omega)
  have h2 := le32_of_nat (d + 36) (by omega)
  have h3 : to_int ((d : Int) + 36) = ((d + 36 : Nat) : Int) := by
    rw [to_int_of_range _ (by omega) (by omega)]; rfl
  rw [build_wav_header_eq]
  simp only [le_field, List.getD_cons_succ, List.getD_cons_zero, h3]
  exact ⟨h1, h2⟩

theorem build_wav_header_fields (c r b : Nat) (d : Int) (hc : c < 256) (hr : r < 4294967296)
    (hb : b < 65536) :
    le_field (build_wav_header c r b d) 16 4 = 16 ∧
    le_field (build_wav_header c r b d) 20 2 = 1 ∧
    le_field (build_wav_header c r b d) 22 2 = c ∧
    le_field (build_wav_header c r b d) 24 4 = r ∧
    le_field (build_wav_header c r b d) 28 4 = (c * (if b = 8 then 1 else 2) * r) % 4294967296 ∧
    le_field (build_wav_header c r b d) 32 2 = c * (if b = 8 then 1 else 2) ∧
    le_field (build_wav_header c r b d) 34 2 = b := by
  have hc1 : c * 1 < 65536 := by omega
  have hc2 : c * 2 < 65536 := by omega
  have e1 := to_uchar_small c hc
  have e2 := le32_of_nat r hr
  have e3 := le16_of_nat b hb
  rw [build_wav_header_eq]
  simp only [le_field, List.getD_cons_succ, List.getD_cons_zero]
  by_cases h8 : b = 8
  · have e4 := le32_of_to_int (c * 1 * r)
    have e5 := le16_of_to_int (c * 1) hc1
    simp only [if_pos h8]
    exact ⟨by decide, by decide, by rw [e1]; simp, e2, e4, e5, e3⟩
  · have e4 := le32_of_to_int (c * 2 * r)
    have e5 := le16_of_to_int (c * 2) hc2
    simp only [if_neg h8]
    exact ⟨by decide, by decide, by rw [e1]; simp, e2, e4, e5, e3⟩

/-! ## Claims about the WAV writers -/

/-- C1 (amended with the bound of the `int` data size): for every source file of
24 + 2m bytes with 2m < 2^31 the output of `convert_snd_to_wav` is the 44 header bytes
followed by 2m PCM bytes, PCM byte 2k being source byte 24+2k+1 and PCM byte 2k+1 being
source byte 24+2k; content bytes 01..08 after any 24 bytes give PCM 02 01 04 03 06 05 08 07
with data-size field 8 and RIFF-size field 44. -/
theorem convert_snd_to_wav_swaps_pairs (stream : List Nat) (mem : Nat → Nat) (m : Nat)
    (hlen : stream.length = 24 + 2 * m) (hm : 2 * m < 2147483648) :
    (∃ pcm, convert_snd_to_wav (some stream) mem =
        Outcome.wrote (build_wav_header 1 16000 16 ((2 * m : Nat) : Int) ++ pcm) ∧
      (build_wav_header 1 16000 16 ((2 * m : Nat) : Int)).length = 44 ∧
      pcm.length = 2 * m ∧
      ∀ k, k < m →
        pcm[2 * k]? = stream[24 + 2 * k + 1]? ∧ pcm[2 * k + 1]? = stream[24 + 2 * k]?) ∧
    (∀ legacy : List Nat, legacy.length = 24 →
      ∃ header, convert_snd_to_wav (some (legacy ++ [1, 2, 3, 4, 5, 6, 7, 8])) mem =
          Outcome.wrote (header ++ [2, 1, 4, 3, 6, 5, 8, 7]) ∧
        header.length = 44 ∧ le_field header 40 4 = 8 ∧ le_field header 4 4 = 44) := by
  constructor
  · obtain ⟨pcm, h1, h2, h3⟩ := convert_snd_to_wav_even stream mem m hlen hm
    exact ⟨pcm, h1, build_wav_header_length _ _ _ _, h2, h3⟩
  · intro legacy hleg
    obtain ⟨pcm, h1, h2, h3⟩ := convert_snd_to_wav_even (legacy ++ [1, 2, 3, 4, 5, 6, 7, 8]) mem 4
      (by simp [hleg]) (by decide)
    have hsz := build_wav_header_sizes 1 16000 16 8 (by decide)
    have hpcm : pcm = [2, 1, 4, 3, 6, 5, 8, 7] := by
      have e0 := h3 0 (by decide)
      have e1 := h3 1 (by decide)
      have e2 := h3 2 (by decide)
      have e3 := h3 3 (by decide)
      simp only [List.getElem?_append_right (show legacy.length ≤ 24 + 2 * 0 + 1 by omega),
        List.getElem?_append_right (show legacy.length ≤ 24 + 2 * 0 by omega),
        List.getElem?_append_right (show legacy.length ≤ 24 + 2 * 1 + 1 by omega),
        List.getElem?_append_right (show legacy.length ≤ 24 + 2 * 1 by omega),
        List.getElem?_append_right (show legacy.length ≤ 24 + 2 * 2 + 1 by omega),
        List.getElem?_append_right (show legacy.length ≤ 24 + 2 * 2 by omega),
        List.getElem?_append_right (show legacy.length ≤ 24 + 2 * 3 + 1 by omega),
        List.getElem?_append_right (show legacy.length ≤ 24 + 2 * 3 by omega), hleg] at e0 e1 e2 e3
      apply List.ext_getElem?
      intro n
      by_cases hn : n < 8
      · interval_cases n
        · exact e0.1
        · exact e0.2
        · exact e1.1
        · exact e1.2
        · exact e2.1
        · exact e2.2
        · exact e3.1
        · exact e3.2
      · rw [List.getElem?_eq_none (by omega), List.getElem?_eq_none (by simp; omega)]
    subst hpcm
    exact ⟨_, h1, build_wav_header_length _ _ _ _, hsz.1, hsz.2⟩

/-- C1, witness: a 32-byte source file, 24 zero bytes and the content bytes 01..08. -/
theorem convert_snd_to_wav_swaps_pairs_witness :
    (List.replicate 24 0 ++ [1, 2, 3, 4, 5, 6, 7, 8]).length = 24 + 2 * 4 ∧
    2 * 4 < 2147483648 ∧
    ∃ pcm, convert_snd_to_wav (some (List.replicate 24 0 ++ [1, 2, 3, 4, 5, 6, 7, 8]))
          (fun _ => 0) =
        Outcome.wrote (build_wav_header 1 16000 16 ((2 * 4 : Nat) : Int) ++ pcm) ∧
      (build_wav_header 1 16000 16 ((2 * 4 : Nat) : Int)).length = 44 ∧
      pcm.length = 2 * 4 ∧
      ∀ k, k < 4 →
        pcm[2 * k]? = (List.replicate 24 0 ++ [1, 2, 3, 4, 5, 6, 7, 8])[24 + 2 * k + 1]? ∧
        pcm[2 * k + 1]? = (List.replicate 24 0 ++ [1, 2, 3, 4, 5, 6, 7, 8])[24 + 2 * k]? :=
  ⟨by decide, by decide,
    (convert_snd_to_wav_swaps_pairs (List.replicate 24 0 ++ [1, 2, 3, 4, 5, 6, 7, 8])
      (fun _ => 0) 4 (by decide) (by decide)).1⟩

/-- C1, counterexample: a source file of 24 + 2 * 2^30 bytes. Its data size does not fit
the `int` it is stored in, the swap loop does not run and the PCM write is asked for more
bytes than the buffer holds: the output is not a header followed by 2^31 PCM bytes. -/
theorem convert_snd_to_wav_two_gib_counterexample :
    (List.replicate 2147483672 0).length = 24 + 2 * 1073741824 ∧
    convert_snd_to_wav (some (List.replicate 2147483672 0)) (fun _ => 0) =
      Outcome.fault (build_wav_header 1 16000 16 (-2147483648)) ∧
    ¬ ∃ file, convert_snd_to_wav (some (List.replicate 2147483672 0)) (fun _ => 0) =
      Outcome.wrote file := by
  have hlen : (List.replicate 2147483672 0).length = 2147483672 := List.length_replicate _ _
  have hv : to_int ((((List.replicate 2147483672 0).length : Nat) : Int) - 24) = -2147483648 := by
    rw [hlen]; unfold to_int; omega
  have key := convert_snd_to_wav_negative (List.replicate 2147483672 0) (fun _ => 0)
    (by rw [hv]; omega)
  rw [hv] at key
  refine ⟨hlen, key, ?_⟩
  rintro ⟨file, hfile⟩
  rw [key] at hfile
  exact Outcome.noConfusion hfile

/-- C10 (what the code does instead): for every source file shorter than 24 bytes
`convert_snd_to_wav` does not abort; it opens the output file, writes a 44-byte header
whose data size is the negative number length - 24, and then asks `fwrite` for more bytes
than the PCM buffer holds. -/
theorem convert_snd_to_wav_short_source (stream : List Nat) (mem : Nat → Nat)
    (h : stream.length < 24) :
    convert_snd_to_wav (some stream) mem =
      Outcome.fault (build_wav_header 1 16000 16 ((stream.length : Int) - 24)) ∧
    (build_wav_header 1 16000 16 ((stream.length : Int) - 24)).length = 44 ∧
    convert_snd_to_wav (some stream) mem ≠ Outcome.aborted := by
  have hv : to_int ((stream.length : Int) - 24) = (stream.length : Int) - 24 :=
    to_int_of_range _ (by omega) (by omega)
  have key := convert_snd_to_wav_negative stream mem (by rw [hv]; omega)
  rw [hv] at key
  refine ⟨key, build_wav_header_length _ _ _ _, ?_⟩
  rw [key]
  exact fun hk => Outcome.noConfusion hk

/-- C10, witness: a source file of 10 bytes. -/
theorem convert_snd_to_wav_short_source_witness :
    (List.replicate 10 0).length < 24 ∧
    convert_snd_to_wav (some (List.replicate 10 0)) (fun _ => 0) =
      Outcome.fault (build_wav_header 1 16000 16 (((List.replicate 10 0).length : Int) - 24)) ∧
    (build_wav_header 1 16000 16 (((List.replicate 10 0).length : Int) - 24)).length = 44 ∧
    convert_snd_to_wav (some (List.replicate 10 0)) (fun _ => 0) ≠ Outcome.aborted :=
  ⟨by decide, convert_snd_to_wav_short_source (List.replicate 10 0) (fun _ => 0) (by decide)⟩

/-- C2: in both WAV writers, for every data size d with 0 <= d <= 2^31 - 37, the output is
a 44-byte header followed by d PCM bytes, the data-chunk-size field (bytes 40..43, least
significant byte first) is the number of PCM bytes written and the RIFF chunk-size field
(bytes 4..7) is that number plus 36. In `convert_snd_to_wav` d is the source length less
24, in `sbc_to_pcm` it is 240 times the number of whole 57-byte frames. -/
theorem wav_header_size_fields {π : Type} (cdc : Codec π) (msbc : Bool) (stream : List Nat)
    (mem : Nat → Nat) (d : Nat) (hd : d ≤ 2147483611) :
    (stream.length = 24 + d →
      ∃ header pcm, convert_snd_to_wav (some stream) mem = Outcome.wrote (header ++ pcm) ∧
        header.length = 44 ∧ pcm.length = d ∧
        le_field header 40 4 = pcm.length ∧ le_field header 4 4 = pcm.length + 36) ∧
    (240 * (stream.length / 57) = d →
      ∃ header pcm, sbc_to_pcm cdc msbc (some stream) mem = Outcome.wrote (header ++ pcm) ∧
        header.length = 44 ∧ pcm.length = d ∧
        le_field header 40 4 = pcm.length ∧ le_field header 4 4 = pcm.length + 36) := by
  have hsz := build_wav_header_sizes 1 16000 16 d hd
  constructor
  · intro hlen
    obtain ⟨pcm, h1, h2⟩ := convert_snd_to_wav_sized stream mem d hlen (by omega)
    refine ⟨_, pcm, h1, build_wav_header_length _ _ _ _, h2, ?_, ?_⟩
    · rw [h2]; exact hsz.1
    · rw [h2]; exact hsz.2
  · intro hlen
    obtain ⟨out, -, h2, -, -, h5⟩ := sbc_to_pcm_sized cdc msbc stream mem (by omega)
    rw [hlen] at h2 h5
    refine ⟨_, out.pcm, h5, build_wav_header_length _ _ _ _, h2, ?_, ?_⟩
    · rw [h2]; exact hsz.1
    · rw [h2]; exact hsz.2

/-- C2, witness: a 32-byte legacy file (data size 8) and a one-frame SBC file (data size
240). -/
theorem wav_header_size_fields_witness :
    (8 ≤ 2147483611 ∧
      ∃ header pcm, convert_snd_to_wav (some (List.replicate 32 0)) (fun _ => 0) =
          Outcome.wrote (header ++ pcm) ∧
        header.length = 44 ∧ pcm.length = 8 ∧
        le_field header 40 4 = pcm.length ∧ le_field header 4 4 = pcm.length + 36) ∧
    (240 ≤ 2147483611 ∧
      ∃ header pcm, sbc_to_pcm frame_codec true (some (List.replicate 57 0)) (fun _ => 0) =
          Outcome.wrote (header ++ pcm) ∧
        header.length = 44 ∧ pcm.length = 240 ∧
        le_field header 40 4 = pcm.length ∧ le_field header 4 4 = pcm.length + 36) :=
  ⟨⟨by decide, (wav_header_size_fields frame_codec true (List.replicate 32 0) (fun _ => 0) 8
      (by decide)).1 (by decide)⟩,
   ⟨by decide, (wav_header_size_fields frame_codec true (List.replicate 57 0) (fun _ => 0) 240
      (by decide)).2 (by decide)⟩⟩

/-- C3: the header built from channel count c (an `unsigned char`), sample rate r (32 bits)
and bits-per-sample b (an `unsigned short`) has 44 bytes: "RIFF" at 0..3, "WAVE" at 8..11,
"fmt " at 12..15, 16 at 16..19, format tag 1 at 20..21, c at 22..23, r at 24..27, the byte
rate c * bytes-per-sample * r at 28..31 (its four low-order bytes; the product itself when
it fits the field), the block alignment c * bytes-per-sample at 32..33, b at 34..35 and
"data" at 36..39, integers least significant byte first, bytes-per-sample being 1 when
b = 8 and 2 otherwise. For c = 1, r = 16000, b = 16 the byte rate is 32000 and the block
alignment 2. -/
theorem build_wav_header_format (c r b : Nat) (d : Int) (hc : c < 256) (hr : r < 4294967296)
    (hb : b < 65536) :
    (build_wav_header c r b d).length = 44 ∧
    (build_wav_header c r b d).take 4 = [0x52, 0x49, 0x46, 0x46] ∧
    ((build_wav_header c r b d).drop 8).take 4 = [0x57, 0x41, 0x56, 0x45] ∧
    ((build_wav_header c r b d).drop 12).take 4 = [0x66, 0x6d, 0x74, 0x20] ∧
    le_field (build_wav_header c r b d) 16 4 = 16 ∧
    le_field (build_wav_header c r b d) 20 2 = 1 ∧
    le_field (build_wav_header c r b d) 22 2 = c ∧
    le_field (build_wav_header c r b d) 24 4 = r ∧
    le_field (build_wav_header c r b d) 28 4 =
      (c * (if b = 8 then 1 else 2) * r) % 4294967296 ∧
    (c * (if b = 8 then 1 else 2) * r < 4294967296 →
      le_field (build_wav_header c r b d) 28 4 = c * (if b = 8 then 1 else 2) * r) ∧
    le_field (build_wav_header c r b d) 32 2 = c * (if b = 8 then 1 else 2) ∧
    le_field (build_wav_header c r b d) 34 2 = b ∧
    ((build_wav_header c r b d).drop 36).take 4 = [0x64, 0x61, 0x74, 0x61] ∧
    le_field (build_wav_header 1 16000 16 d) 28 4 = 32000 ∧
    le_field (build_wav_header 1 16000 16 d) 32 2 = 2 := by
  obtain ⟨f1, f2, f3, f4, f5, f6, f7⟩ := build_wav_header_fields c r b d hc hr hb
  obtain ⟨-, -, -, -, g5, g6, -⟩ :=
    build_wav_header_fields 1 16000 16 d (by decide) (by decide) (by decide)
  refine ⟨build_wav_header_length _ _ _ _, ?_, ?_, ?_, f1, f2, f3, f4, f5, ?_, f6, f7, ?_,
    g5, g6⟩
  · rw [build_wav_header_eq]; rfl
  · rw [build_wav_header_eq]; rfl
  · rw [build_wav_header_eq]; rfl
  · intro hfit
    rw [f5, Nat.mod_eq_of_lt hfit]
  · rw [build_wav_header_eq]; rfl

/-- C3, witness: mono, 16000 Hz, 16 bits, data size 8. -/
theorem build_wav_header_format_witness :
    (1 < 256 ∧ 16000 < 4294967296 ∧ 16 < 65536) ∧
    le_field (build_wav_header 1 16000 16 8) 22 2 = 1 ∧
    le_field (build_wav_header 1 16000 16 8) 24 4 = 16000 ∧
    le_field (build_wav_header 1 16000 16 8) 34 2 = 16 :=
  ⟨by decide,
    (build_wav_header_format 1 16000 16 8 (by decide) (by decide) (by decide)).2.2.2.2.2.2.1,
    (build_wav_header_format 1 16000 16 8 (by decide) (by decide) (by decide)).2.2.2.2.2.2.2.1,
    (build_wav_header_format 1 16000 16 8 (by decide) (by decide)
      (by decide)).2.2.2.2.2.2.2.2.2.2.2.1⟩

/-- C7 (amended with the bound of the `int` sizes): for every input of n bytes with
240 * floor(n/57) < 2^31, in particular every such multiple of 57, `sbc_to_pcm` calls the
decoder exactly floor(n/57) times, call k on the 57 input bytes from offset 57k with the
240-byte output slot at offset 240k of the PCM buffer, and the PCM payload written after
the header has floor(n/57) * 240 bytes. -/
theorem sbc_to_pcm_decodes_every_frame {π : Type} (cdc : Codec π) (msbc : Bool)
    (stream : List Nat) (mem : Nat → Nat) (n : Nat) (hlen : stream.length = n)
    (hsize : 240 * (n / 57) < 2147483648) :
    ∃ s, sbc_to_pcm_decode cdc msbc stream mem = some s ∧
      s.calls.length = n / 57 ∧
      (∀ k, k < n / 57 →
        s.calls[k]? = some ⟨((57 * k : Nat) : Int), 57, ((240 * k : Nat) : Int), 240⟩ ∧
        load_bytes stream ((57 * k : Nat) : Int) 57 mem = (stream.drop (57 * k)).take 57 ∧
        240 * k + 240 ≤ s.pcm.length) ∧
      s.pcm.length = n / 57 * 240 ∧
      sbc_to_pcm cdc msbc (some stream) mem =
        Outcome.wrote (build_wav_header 1 16000 16 ((n / 57 * 240 : Nat) : Int) ++ s.pcm) := by
  subst hlen
  obtain ⟨out, h1, h2, -, h4, h5⟩ := sbc_to_pcm_sized cdc msbc stream mem hsize
  refine ⟨out, h1, ?_, ?_, ?_, ?_⟩
  · rw [h4]; simp
  · intro k hk
    refine ⟨?_, load_bytes_eq_slice stream (57 * k) 57 mem (by omega), by omega⟩
    rw [h4, List.getElem?_map, List.getElem?_range hk, Option.map_some', pcm_call]
    have e1 : to_int ((k : Int) * 57) = ((57 * k : Nat) : Int) := by
      rw [to_int_of_range _ (by omega) (by omega)]; omega
    have e2 : to_int ((k : Int) * 240) = ((240 * k : Nat) : Int) := by
      rw [to_int_of_range _ (by omega) (by omega)]; omega
    rw [e1, e2]
  · rw [h2, Nat.mul_comm]
  · rw [h5, Nat.mul_comm]

/-- C7, witness: two frames and no tail. -/
theorem sbc_to_pcm_decodes_every_frame_witness :
    (List.replicate 114 0).length = 114 ∧ 240 * (114 / 57) < 2147483648 ∧
    ∃ s, sbc_to_pcm_decode frame_codec true (List.replicate 114 0) (fun _ => 0) = some s ∧
      s.calls.length = 114 / 57 ∧
      (∀ k, k < 114 / 57 →
        s.calls[k]? = some ⟨((57 * k : Nat) : Int), 57, ((240 * k : Nat) : Int), 240⟩ ∧
        load_bytes (List.replicate 114 0) ((57 * k : Nat) : Int) 57 (fun _ => 0) =
          ((List.replicate 114 0).drop (57 * k)).take 57 ∧
        240 * k + 240 ≤ s.pcm.length) ∧
      s.pcm.length = 114 / 57 * 240 ∧
      sbc_to_pcm frame_codec true (some (List.replicate 114 0)) (fun _ => 0) =
        Outcome.wrote (build_wav_header 1 16000 16 ((114 / 57 * 240 : Nat) : Int) ++ s.pcm) :=
  ⟨by decide, by decide,
    sbc_to_pcm_decodes_every_frame frame_codec true (List.replicate 114 0) (fun _ => 0) 114
      (by decide) (by decide)⟩

/-- C7, counterexample: an input of 57 * 8947849 bytes. The product 8947849 * 240 does not
fit an `int`: the allocation request and the data size are negative, and the conversion
ends in a PCM write that is asked for more bytes than the buffer holds, not in a payload
of 8947849 * 240 bytes. -/
theorem sbc_to_pcm_overflow_counterexample :
    (List.replicate 510027393 0).length = 57 * 8947849 ∧
    sbc_to_pcm frame_codec true (some (List.replicate 510027393 0)) (fun _ => 0) =
      Outcome.fault (build_wav_header 1 16000 16 (-2147483536)) ∧
    ¬ ∃ file, sbc_to_pcm frame_codec true (some (List.replicate 510027393 0)) (fun _ => 0) =
      Outcome.wrote file := by
  have hlen : (List.replicate 510027393 0).length = 510027393 := List.length_replicate _ _
  have hv : to_int (240 * ((8947849 : Nat) : Int)) = -2147483536 := by
    unfold to_int; omega
  have key := sbc_to_pcm_negative_size frame_codec true (List.replicate 510027393 0)
    (fun _ => 0) 8947849 (by rw [hlen]) (by decide) (by rw [hv]; decide)
  rw [hv] at key
  refine ⟨hlen, key, ?_⟩
  rintro ⟨file, hfile⟩
  rw [key] at hfile
  exact Outcome.noConfusion hfile

/-- C8 (amended): the data size `sbc_to_pcm` uses for the WAV header and for the PCM write
is 240 for every decode call, that is 240 * floor(n/57) (below 2^31), whatever produced
lengths the decoder reports; the produced length of a call is stored in `len` and not
read. -/
theorem sbc_to_pcm_data_size_fixed {π : Type} (cdc : Codec π) (msbc : Bool)
    (stream : List Nat) (mem : Nat → Nat)
    (hsize : 240 * (stream.length / 57) < 2147483648) :
    ∃ s, sbc_to_pcm_decode cdc msbc stream mem = some s ∧
      s.data_size = ((240 * (stream.length / 57) : Nat) : Int) ∧
      sbc_to_pcm cdc msbc (some stream) mem =
        Outcome.wrote (build_wav_header 1 16000 16 s.data_size ++ s.pcm) ∧
      s.pcm.length = 240 * (stream.length / 57) ∧
      le_field (build_wav_header 1 16000 16 s.data_size) 40 4 = 240 * (stream.length / 57) := by
  obtain ⟨out, h1, h2, h3, -, h5⟩ := sbc_to_pcm_sized cdc msbc stream mem hsize
  refine ⟨out, h1, h3, ?_, h2, ?_⟩
  · rw [h3]; exact h5
  · rw [h3]
    exact (build_wav_header_sizes 1 16000 16 _ (by omega)).1

/-- C8, witness: one frame, decoded by a decoder that reports 100 produced bytes. -/
theorem sbc_to_pcm_data_size_fixed_witness :
    240 * ((List.replicate 57 0).length / 57) < 2147483648 ∧
    ∃ s, sbc_to_pcm_decode (example_codec 57 100) true (List.replicate 57 0) (fun _ => 0)
        = some s ∧
      s.data_size = ((240 * ((List.replicate 57 0).length / 57) : Nat) : Int) ∧
      sbc_to_pcm (example_codec 57 100) true (some (List.replicate 57 0)) (fun _ => 0) =
        Outcome.wrote (build_wav_header 1 16000 16 s.data_size ++ s.pcm) ∧
      s.pcm.length = 240 * ((List.replicate 57 0).length / 57) ∧
      le_field (build_wav_header 1 16000 16 s.data_size) 40 4 =
        240 * ((List.replicate 57 0).length / 57) :=
  ⟨by decide,
    sbc_to_pcm_data_size_fixed (example_codec 57 100) true (List.replicate 57 0) (fun _ => 0)
      (by decide)⟩

set_option maxRecDepth 100000 in
/-- C8, counterexample: one 57-byte frame and a decoder that reports 100 produced bytes.
The produced lengths sum to 100, the data size is 240 and 240 PCM bytes are written. -/
theorem sbc_to_pcm_short_frame_counterexample :
    (sbc_to_pcm_decode (example_codec 57 100) true (List.replicate 57 0) (fun _ => 0)).map
        (fun s => (s.len, s.data_size, s.pcm.length)) = some (100, 240, 240) ∧
    ∃ pcm, sbc_to_pcm (example_codec 57 100) true (some (List.replicate 57 0)) (fun _ => 0) =
        Outcome.wrote (build_wav_header 1 16000 16 240 ++ pcm) ∧ pcm.length = 240 ∧
      le_field (build_wav_header 1 16000 16 240) 40 4 = 240 := by
  refine ⟨by decide, ?_⟩
  obtain ⟨out, -, h2, -, -, h5⟩ := sbc_to_pcm_sized (example_codec 57 100) true
    (List.replicate 57 0) (fun _ => 0) (by decide)
  exact ⟨out.pcm, h5, h2, (build_wav_header_sizes 1 16000 16 240 (by decide)).1⟩

/-- C9 (amended): for every stream s whose length is a multiple of 57 and every tail t of
fewer than 57 bytes, `sbc_to_pcm` on s followed by t ends exactly as on s alone, with the
same decoder and the same initial memory: same outcome, same header, same PCM. While
240 * (|s| / 57) < 2^31 it is not a failure: the outcome is a written file of the header
and 240 * (|s| / 57) PCM bytes. -/
theorem sbc_to_pcm_discards_tail {π : Type} (cdc : Codec π) (msbc : Bool) (s t : List Nat)
    (mem : Nat → Nat) (hs : 57 ∣ s.length) (ht : t.length < 57) :
    sbc_to_pcm cdc msbc (some (s ++ t)) mem = sbc_to_pcm cdc msbc (some s) mem ∧
    (240 * (s.length / 57) < 2147483648 →
      ∃ pcm, sbc_to_pcm cdc msbc (some (s ++ t)) mem =
          Outcome.wrote (build_wav_header 1 16000 16 ((240 * (s.length / 57) : Nat) : Int)
            ++ pcm) ∧
        pcm.length = 240 * (s.length / 57)) := by
  have heq := sbc_to_pcm_append cdc msbc s t mem hs ht
  refine ⟨heq, ?_⟩
  intro hsize
  obtain ⟨out, -, h2, -, -, h5⟩ := sbc_to_pcm_sized cdc msbc s mem hsize
  exact ⟨out.pcm, by rw [heq]; exact h5, h2⟩

/-- C9, witness: one frame followed by a tail of three bytes. -/
theorem sbc_to_pcm_discards_tail_witness :
    57 ∣ (List.replicate 57 0).length ∧ [1, 2, 3].length < 57 ∧
    sbc_to_pcm frame_codec true (some (List.replicate 57 0 ++ [1, 2, 3])) (fun _ => 0) =
      sbc_to_pcm frame_codec true (some (List.replicate 57 0)) (fun _ => 0) ∧
    (240 * ((List.replicate 57 0).length / 57) < 2147483648 →
      ∃ pcm, sbc_to_pcm frame_codec true (some (List.replicate 57 0 ++ [1, 2, 3]))
            (fun _ => 0) =
          Outcome.wrote (build_wav_header 1 16000 16
            ((240 * ((List.replicate 57 0).length / 57) : Nat) : Int) ++ pcm) ∧
        pcm.length = 240 * ((List.replicate 57 0).length / 57)) :=
  ⟨by decide, by decide,
    sbc_to_pcm_discards_tail frame_codec true (List.replicate 57 0) [1, 2, 3] (fun _ => 0)
      (by decide) (by decide)⟩

/-- C9, counterexample: a stream of 57 * 8947849 bytes followed by a tail of one byte.
The conversion is a failure: the data size 8947849 * 240 does not fit an `int` and the PCM
write is asked for more bytes than the buffer holds. -/
theorem sbc_to_pcm_tail_overflow_counterexample :
    57 ∣ (List.replicate 510027393 0).length ∧ [1].length < 57 ∧
    sbc_to_pcm frame_codec true (some (List.replicate 510027393 0 ++ [1])) (fun _ => 0) =
      Outcome.fault (build_wav_header 1 16000 16 (-2147483536)) ∧
    ¬ ∃ file, sbc_to_pcm frame_codec true (some (List.replicate 510027393 0 ++ [1]))
      (fun _ => 0) = Outcome.wrote file := by
  have hlen : (List.replicate 510027393 0).length = 510027393 := List.length_replicate _ _
  have hlen2 : (List.replicate 510027393 0 ++ [1]).length = 510027394 := by
    rw [List.length_append, hlen]; rfl
  have hv : to_int (240 * ((8947849 : Nat) : Int)) = -2147483536 := by
    unfold to_int; omega
  have key := sbc_to_pcm_negative_size frame_codec true (List.replicate 510027393 0 ++ [1])
    (fun _ => 0) 8947849 (by rw [hlen2]) (by decide) (by rw [hv]; decide)
  rw [hv] at key
  refine ⟨by rw [hlen]; exact ⟨8947849, by decide⟩, by decide, key, ?_⟩
  rintro ⟨file, hfile⟩
  rw [key] at hfile
  exact Outcome.noConfusion hfile

/-! ## sbc_to_snd: the whole function -/

theorem sbc_to_snd_written {π : Type} (cdc : Codec π) (msbc : Bool) (stream : List Nat)
    (mem : Nat → Nat) (fw : Nat → Nat → Nat) (fuel : Nat) (hhdr : 1 ≤ fw 0 1) :
    sbc_to_snd cdc msbc (some stream) mem fw fuel =
      ((sbc_to_snd_loop cdc stream mem fw (to_int stream.length) fuel
        { sbc := (sbc_to_snd_first cdc msbc stream mem).sbc
          buf := store_bytes ((List.range BUF_SIZE).map mem) 0
            (sbc_to_snd_first cdc msbc stream mem).output
          pos := 0
          framelen := to_int (sbc_to_snd_first cdc msbc stream mem).framelen
          count := to_int (sbc_to_snd_first cdc msbc stream mem).output.length
          len := (sbc_to_snd_first cdc msbc stream mem).output.length
          file := (snd_au_header (snd_frequency (sbc_to_snd_first cdc msbc stream mem).sbc.frequency)
            (snd_channels (sbc_to_snd_first cdc msbc stream mem).sbc.mode)).bytes
          nwrites := 1
          trace := [] }).1,
       some (sbc_to_snd_loop cdc stream mem fw (to_int stream.length) fuel
        { sbc := (sbc_to_snd_first cdc msbc stream mem).sbc
          buf := store_bytes ((List.range BUF_SIZE).map mem) 0
            (sbc_to_snd_first cdc msbc stream mem).output
          pos := 0
          framelen := to_int (sbc_to_snd_first cdc msbc stream mem).framelen
          count := to_int (sbc_to_snd_first cdc msbc stream mem).output.length
          len := (sbc_to_snd_first cdc msbc stream mem).output.length
          file := (snd_au_header (snd_frequency (sbc_to_snd_first cdc msbc stream mem).sbc.frequency)
            (snd_channels (sbc_to_snd_first cdc msbc stream mem).sbc.mode)).bytes
          nwrites := 1
          trace := [] }).2) := by
  have h : ¬ (fw 0 1 * 24 < 24) := by omega
  simp only [sbc_to_snd, h, if_false]

theorem sbc_to_snd_header_failed {π : Type} (cdc : Codec π) (msbc : Bool) (stream : List Nat)
    (mem : Nat → Nat) (fw : Nat → Nat → Nat) (fuel : Nat) (hhdr : fw 0 1 = 0) :
    ∃ s, sbc_to_snd cdc msbc (some stream) mem fw fuel = (Status.header_failed, some s) ∧
      s.trace = [] ∧ s.file = [] := by
  have h : fw 0 1 * 24 < 24 := by omega
  simp only [sbc_to_snd, h, if_true]
  exact ⟨_, rfl, rfl, rfl⟩

theorem snd_au_header_bytes (f : SbcFrequency) (m : SbcMode) :
    (snd_au_header (snd_frequency f) (snd_channels m)).bytes.length = 24 ∧
    (snd_au_header (snd_frequency f) (snd_channels m)).bytes.take 16 =
      [0x2e, 0x73, 0x6e, 0x64, 0, 0, 0, 24, 0, 0, 0, 0, 0, 0, 0, 3] ∧
    be_field (snd_au_header (snd_frequency f) (snd_channels m)).bytes 0 4 = 0x2e736e64 ∧
    be_field (snd_au_header (snd_frequency f) (snd_channels m)).bytes 4 4 = 24 ∧
    be_field (snd_au_header (snd_frequency f) (snd_channels m)).bytes 8 4 = 0 ∧
    be_field (snd_au_header (snd_frequency f) (snd_channels m)).bytes 12 4 = 3 ∧
    be_field (snd_au_header (snd_frequency f) (snd_channels m)).bytes 16 4 = snd_frequency f ∧
    (be_field (snd_au_header (snd_frequency f) (snd_channels m)).bytes 20 4 : Int) =
      snd_channels m := by
  have hm : snd_channels m = 1 ∨ snd_channels m = 2 := by
    unfold snd_channels; split <;> simp
  rcases hm with hm | hm <;> rw [hm] <;> cases f <;> simp only [snd_frequency] <;> decide

theorem sbc_to_snd_loop_fatal {π : Type} (cdc : Codec π) (stream : List Nat)
    (mem : Nat → Nat) (fw : Nat → Nat → Nat) (streamlen : Int) (fuel : Nat) (s : SndState π)
    (hfl : 0 < s.framelen) (hc : s.count = 8192) (hl : s.len = 8192)
    (hfw : fw s.nwrites 8192 ≤ 8192) :
    (sbc_to_snd_loop cdc stream mem fw streamlen (fuel + 1) s).1 = Status.fatal ∧
    (sbc_to_snd_loop cdc stream mem fw streamlen (fuel + 1) s).2.trace =
      s.trace ++ [Event.check 8192 8192, Event.flush 8192 (fw s.nwrites 8192),
        Event.check (8192 - (fw s.nwrites 8192 : Int)) 8192] ∧
    (sbc_to_snd_loop cdc stream mem fw streamlen (fuel + 1) s).2.file =
      s.file ++ s.buf.take (fw s.nwrites 8192) := by
  obtain ⟨sbc, buf, pos, framelen, count, len, file, nwrites, trace⟩ := s
  simp only at hfl hc hl hfw
  subst hc hl
  have hsz : to_size_t 8192 = 8192 := by decide
  have hb1 : decide (8192 ≤ (8192 + 8192) % 18446744073709551616) = true := by decide
  have hc1 : (if fw nwrites 8192 > 0 then to_int (8192 - (fw nwrites 8192 : Int)) else 8192) =
      8192 - (fw nwrites 8192 : Int) := by
    split
    · exact to_int_of_range _ (by omega) (by omega)
    · omega
  have hb2 : decide (8192 ≤ (to_size_t (8192 - (fw nwrites 8192 : Int)) + 8192)
      % 18446744073709551616) = true := by
    have h3 := to_size_t_of_nonneg (8192 - (fw nwrites 8192 : Int)) (by omega) (by omega)
    rw [decide_eq_true_eq]
    omega
  rw [sbc_to_snd_loop, if_pos hfl]
  simp only [flush_if_full, note, buffer_full, BUF_SIZE, hsz, hb1, if_true, flush, hc1, hb2,
    List.append_assoc, List.cons_append, List.nil_append]
  exact ⟨trivial, trivial, trivial⟩

/-! ## Claims about the streaming decode -/

/-- C4: whenever the header write of `sbc_to_snd` completes, the output file starts with
exactly 24 header bytes, written before any PCM: six 32-bit fields, most significant byte
first, holding the magic number ".snd", the header size 24, the data size 0, the encoding
tag 3 (16-bit linear), the sample rate in Hz and the channel count of the session; the
first four fields are the same 16 bytes for every input. The sample rate field reads
16000, 32000, 44100 or 48000 for the session's sample-rate class (0 for an unknown class),
the channel field 1 for a mono session and 2 for any other. -/
theorem sbc_to_snd_au_header {π : Type} (cdc : Codec π) (msbc : Bool) (stream : List Nat)
    (mem : Nat → Nat) (fw : Nat → Nat → Nat) (fuel : Nat) (hhdr : 1 ≤ fw 0 1) :
    ∃ st s header pcm, sbc_to_snd cdc msbc (some stream) mem fw fuel = (st, some s) ∧
      s.file = header ++ pcm ∧
      header.length = 24 ∧
      header.take 16 = [0x2e, 0x73, 0x6e, 0x64, 0, 0, 0, 24, 0, 0, 0, 0, 0, 0, 0, 3] ∧
      be_field header 0 4 = 0x2e736e64 ∧
      be_field header 4 4 = 24 ∧
      be_field header 8 4 = 0 ∧
      be_field header 12 4 = 3 ∧
      be_field header 16 4 =
        snd_frequency (sbc_to_snd_first cdc msbc stream mem).sbc.frequency ∧
      (be_field header 20 4 : Int) =
        snd_channels (sbc_to_snd_first cdc msbc stream mem).sbc.mode ∧
      ((sbc_to_snd_first cdc msbc stream mem).sbc.frequency = SbcFrequency.SBC_FREQ_16000 →
        be_field header 16 4 = 16000) ∧
      ((sbc_to_snd_first cdc msbc stream mem).sbc.frequency = SbcFrequency.SBC_FREQ_32000 →
        be_field header 16 4 = 32000) ∧
      ((sbc_to_snd_first cdc msbc stream mem).sbc.frequency = SbcFrequency.SBC_FREQ_44100 →
        be_field header 16 4 = 44100) ∧
      ((sbc_to_snd_first cdc msbc stream mem).sbc.frequency = SbcFrequency.SBC_FREQ_48000 →
        be_field header 16 4 = 48000) ∧
      (∀ code, (sbc_to_snd_first cdc msbc stream mem).sbc.frequency =
          SbcFrequency.unknown code → be_field header 16 4 = 0) ∧
      ((sbc_to_snd_first cdc msbc stream mem).sbc.mode = SbcMode.SBC_MODE_MONO →
        be_field header 20 4 = 1) ∧
      ((sbc_to_snd_first cdc msbc stream mem).sbc.mode ≠ SbcMode.SBC_MODE_MONO →
        be_field header 20 4 = 2) := by
  obtain ⟨rest, hrest⟩ := sbc_to_snd_loop_file cdc stream mem fw (to_int stream.length) fuel
    { sbc := (sbc_to_snd_first cdc msbc stream mem).sbc
      buf := store_bytes ((List.range BUF_SIZE).map mem) 0
        (sbc_to_snd_first cdc msbc stream mem).output
      pos := 0
      framelen := to_int (sbc_to_snd_first cdc msbc stream mem).framelen
      count := to_int (sbc_to_snd_first cdc msbc stream mem).output.length
      len := (sbc_to_snd_first cdc msbc stream mem).output.length
      file := (snd_au_header (snd_frequency (sbc_to_snd_first cdc msbc stream mem).sbc.frequency)
        (snd_channels (sbc_to_snd_first cdc msbc stream mem).sbc.mode)).bytes
      nwrites := 1
      trace := [] }
  obtain ⟨b1, b2, b3, b4, b5, b6, b7, b8⟩ :=
    snd_au_header_bytes (sbc_to_snd_first cdc msbc stream mem).sbc.frequency
      (sbc_to_snd_first cdc msbc stream mem).sbc.mode
  have c1 : (sbc_to_snd_first cdc msbc stream mem).sbc.mode = SbcMode.SBC_MODE_MONO →
      be_field (snd_au_header
        (snd_frequency (sbc_to_snd_first cdc msbc stream mem).sbc.frequency)
        (snd_channels (sbc_to_snd_first cdc msbc stream mem).sbc.mode)).bytes 20 4 = 1 := by
    intro h
    have h1 : snd_channels (sbc_to_snd_first cdc msbc stream mem).sbc.mode = 1 := by
      unfold snd_channels; rw [if_pos h]
    have h3 := b8
    rw [h1] at h3 ⊢
    exact Int.ofNat.inj h3
  have c2 : (sbc_to_snd_first cdc msbc stream mem).sbc.mode ≠ SbcMode.SBC_MODE_MONO →
      be_field (snd_au_header
        (snd_frequency (sbc_to_snd_first cdc msbc stream mem).sbc.frequency)
        (snd_channels (sbc_to_snd_first cdc msbc stream mem).sbc.mode)).bytes 20 4 = 2 := by
    intro h
    have h2 : snd_channels (sbc_to_snd_first cdc msbc stream mem).sbc.mode = 2 := by
      unfold snd_channels; rw [if_neg h]
    have h3 := b8
    rw [h2] at h3 ⊢
    exact Int.ofNat.inj h3
  refine ⟨_, _, _, rest, sbc_to_snd_written cdc msbc stream mem fw fuel hhdr, hrest,
    b1, b2, b3, b4, b5, b6, b7, b8, ?_, ?_, ?_, ?_, ?_, c1, c2⟩
  · intro h; rw [b7, h]; rfl
  · intro h; rw [b7, h]; rfl
  · intro h; rw [b7, h]; rfl
  · intro h; rw [b7, h]; rfl
  · intro code h; rw [b7, h]; rfl

/-- C4, witness: three input bytes, a decoder that finds a mono 16000 Hz session, writes
that complete. -/
theorem sbc_to_snd_au_header_witness :
    1 ≤ (fun (_ n : Nat) => n) 0 1 ∧
    ∃ st s header pcm, sbc_to_snd frame_codec true (some [1, 2, 3]) (fun _ => 0)
        (fun _ n => n) 4 = (st, some s) ∧
      s.file = header ++ pcm ∧
      header.length = 24 ∧
      header.take 16 = [0x2e, 0x73, 0x6e, 0x64, 0, 0, 0, 24, 0, 0, 0, 0, 0, 0, 0, 3] ∧
      be_field header 0 4 = 0x2e736e64 ∧
      be_field header 4 4 = 24 ∧
      be_field header 8 4 = 0 ∧
      be_field header 12 4 = 3 ∧
      be_field header 16 4 =
        snd_frequency (sbc_to_snd_first frame_codec true [1, 2, 3] (fun _ => 0)).sbc.frequency ∧
      (be_field header 20 4 : Int) =
        snd_channels (sbc_to_snd_first frame_codec true [1, 2, 3] (fun _ => 0)).sbc.mode ∧
      ((sbc_to_snd_first frame_codec true [1, 2, 3] (fun _ => 0)).sbc.frequency =
        SbcFrequency.SBC_FREQ_16000 → be_field header 16 4 = 16000) ∧
      ((sbc_to_snd_first frame_codec true [1, 2, 3] (fun _ => 0)).sbc.frequency =
        SbcFrequency.SBC_FREQ_32000 → be_field header 16 4 = 32000) ∧
      ((sbc_to_snd_first frame_codec true [1, 2, 3] (fun _ => 0)).sbc.frequency =
        SbcFrequency.SBC_FREQ_44100 → be_field header 16 4 = 44100) ∧
      ((sbc_to_snd_first frame_codec true [1, 2, 3] (fun _ => 0)).sbc.frequency =
        SbcFrequency.SBC_FREQ_48000 → be_field header 16 4 = 48000) ∧
      (∀ code, (sbc_to_snd_first frame_codec true [1, 2, 3] (fun _ => 0)).sbc.frequency =
          SbcFrequency.unknown code → be_field header 16 4 = 0) ∧
      ((sbc_to_snd_first frame_codec true [1, 2, 3] (fun _ => 0)).sbc.mode =
        SbcMode.SBC_MODE_MONO → be_field header 20 4 = 1) ∧
      ((sbc_to_snd_first frame_codec true [1, 2, 3] (fun _ => 0)).sbc.mode ≠
        SbcMode.SBC_MODE_MONO → be_field header 20 4 = 2) :=
  ⟨by decide,
    sbc_to_snd_au_header frame_codec true [1, 2, 3] (fun _ => 0) (fun _ n => n) 4 (by decide)⟩

/-- C5: for every input stream, every decoder whose produced length never exceeds the
output capacity it is given, and writes that each report between 0 and the requested
number of bytes, after any number of loop iterations of `sbc_to_snd`: every occupancy test
of the loop (lines 278 and 289) sees 0 <= count <= BUF_SIZE, and every decode call of the
loop is given a write offset count with 0 <= count < BUF_SIZE and the capacity
BUF_SIZE - count > 0. -/
theorem sbc_to_snd_within_capacity {π : Type} (cdc : Codec π) (msbc : Bool)
    (stream : List Nat) (mem : Nat → Nat) (fw : Nat → Nat → Nat) (fuel : Nat)
    (hdec : ∀ sbc input cap, (cdc.sbc_decode sbc input cap).output.length ≤ cap)
    (hfw : ∀ k n, fw k n ≤ n) :
    ∃ st s, sbc_to_snd cdc msbc (some stream) mem fw fuel = (st, some s) ∧
      (∀ count len, Event.check count len ∈ s.trace → 0 ≤ count ∧ count ≤ (BUF_SIZE : Int)) ∧
      (∀ pos input_len offset capacity,
        Event.decode pos input_len offset capacity ∈ s.trace →
          0 ≤ offset ∧ offset < (BUF_SIZE : Int) ∧
          (capacity : Int) = (BUF_SIZE : Int) - offset ∧ 0 < capacity) := by
  have key : ∃ st s, sbc_to_snd cdc msbc (some stream) mem fw fuel = (st, some s) ∧
      ∀ e ∈ s.trace, within_capacity e := by
    by_cases hh : 1 ≤ fw 0 1
    · refine ⟨_, _, sbc_to_snd_written cdc msbc stream mem fw fuel hh, ?_⟩
      apply sbc_to_snd_loop_within cdc stream mem fw _ hdec hfw
      · have h := hdec ({ (if msbc then cdc.sbc_init_msbc else cdc.sbc_init) with
          endian := SbcEndian.SBC_BE })
          (load_bytes stream 0 (to_size_t (to_int stream.length)) mem) BUF_SIZE
        have h' : (sbc_to_snd_first cdc msbc stream mem).output.length ≤ 8192 := h
        refine ⟨?_, ?_, h'⟩
        · show 0 ≤ to_int ((sbc_to_snd_first cdc msbc stream mem).output.length : Int)
          rw [to_int_of_range _ (by omega) (by omega)]; omega
        · show to_int ((sbc_to_snd_first cdc msbc stream mem).output.length : Int) ≤ 8192
          rw [to_int_of_range _ (by omega) (by omega)]; omega
      · intro e he
        exact absurd he (List.not_mem_nil e)
    · obtain ⟨s, h1, h2, -⟩ := sbc_to_snd_header_failed cdc msbc stream mem fw fuel (by omega)
      refine ⟨_, s, h1, ?_⟩
      intro e he
      rw [h2] at he
      exact absurd he (List.not_mem_nil e)
  obtain ⟨st, s, h1, h2⟩ := key
  exact ⟨st, s, h1, fun count len he => h2 _ he, fun pos il off cap he => h2 _ he⟩

/-- C5, witness: the 57-byte frame decoder on a stream of three frames, writes that
complete. -/
theorem sbc_to_snd_within_capacity_witness :
    (∀ sbc input cap, (frame_codec.sbc_decode sbc input cap).output.length ≤ cap) ∧
    (∀ k n : Nat, (fun (_ n : Nat) => n) k n ≤ n) ∧
    ∃ st s, sbc_to_snd frame_codec true (some (List.replicate 171 0)) (fun _ => 0)
        (fun _ n => n) 8 = (st, some s) ∧
      (∀ count len, Event.check count len ∈ s.trace → 0 ≤ count ∧ count ≤ (BUF_SIZE : Int)) ∧
      (∀ pos input_len offset capacity,
        Event.decode pos input_len offset capacity ∈ s.trace →
          0 ≤ offset ∧ offset < (BUF_SIZE : Int) ∧
          (capacity : Int) = (BUF_SIZE : Int) - offset ∧ 0 < capacity) :=
  have hdec : ∀ sbc input cap, (frame_codec.sbc_decode sbc input cap).output.length ≤ cap := by
    intro sbc input cap
    simp only [frame_codec]
    split
    · simp only [List.length_replicate]; exact Nat.min_le_right _ _
    · exact Nat.zero_le _
  ⟨hdec, fun _ n => Nat.le_refl n,
    sbc_to_snd_within_capacity frame_codec true (List.replicate 171 0) (fun _ => 0)
      (fun _ n => n) 8 hdec (fun _ n => Nat.le_refl n)⟩

/-- C6 (amended): when every decode call reports a positive consumed length (one that fits
the `int` it is assigned to, below 2^31) and a produced length equal to BUF_SIZE, and the header write
completes, `sbc_to_snd` reaches the fatal sanity check (`exit(1)`) in the first loop
iteration, for every input stream and every outcome of the flush write (any number of
bytes between 0 and the BUF_SIZE requested): the loop makes the first test, the flush and
the second test, and no decode call. -/
theorem sbc_to_snd_fatal_first_iteration {π : Type} (cdc : Codec π) (msbc : Bool)
    (stream : List Nat) (mem : Nat → Nat) (fw : Nat → Nat → Nat) (fuel : Nat)
    (hdec : ∀ sbc input cap, 0 < (cdc.sbc_decode sbc input cap).framelen ∧
      (cdc.sbc_decode sbc input cap).framelen < 2147483648 ∧
      (cdc.sbc_decode sbc input cap).output.length = BUF_SIZE)
    (hhdr : 1 ≤ fw 0 1) (hfw : fw 1 BUF_SIZE ≤ BUF_SIZE) :
    ∃ s, sbc_to_snd cdc msbc (some stream) mem fw (fuel + 1) = (Status.fatal, some s) ∧
      s.trace = [Event.check 8192 8192, Event.flush 8192 (fw 1 8192),
        Event.check (8192 - (fw 1 8192 : Int)) 8192] := by
  obtain ⟨d1, d2, d3⟩ := hdec ({ (if msbc then cdc.sbc_init_msbc else cdc.sbc_init) with
      endian := SbcEndian.SBC_BE })
    (load_bytes stream 0 (to_size_t (to_int stream.length)) mem) BUF_SIZE
  have e1 : 0 < (sbc_to_snd_first cdc msbc stream mem).framelen := d1
  have e2 : (sbc_to_snd_first cdc msbc stream mem).framelen < 2147483648 := d2
  have e3 : (sbc_to_snd_first cdc msbc stream mem).output.length = 8192 := d3
  have e4 : to_int (((8192 : Nat) : Int)) = 8192 := by decide
  obtain ⟨f1, f2, -⟩ := sbc_to_snd_loop_fatal cdc stream mem fw (to_int stream.length) fuel
    { sbc := (sbc_to_snd_first cdc msbc stream mem).sbc
      buf := store_bytes ((List.range BUF_SIZE).map mem) 0
        (sbc_to_snd_first cdc msbc stream mem).output
      pos := 0
      framelen := to_int (sbc_to_snd_first cdc msbc stream mem).framelen
      count := to_int (sbc_to_snd_first cdc msbc stream mem).output.length
      len := (sbc_to_snd_first cdc msbc stream mem).output.length
      file := (snd_au_header (snd_frequency (sbc_to_snd_first cdc msbc stream mem).sbc.frequency)
        (snd_channels (sbc_to_snd_first cdc msbc stream mem).sbc.mode)).bytes
      nwrites := 1
      trace := [] }
    (by show 0 < to_int (sbc_to_snd_first cdc msbc stream mem).framelen
        rw [to_int_of_range _ (by omega) (by omega)]; exact e1)
    (by show to_int ((sbc_to_snd_first cdc msbc stream mem).output.length : Int) = 8192
        rw [e3]; exact e4)
    e3 hfw
  refine ⟨_, ?_, f2⟩
  rw [sbc_to_snd_written cdc msbc stream mem fw (fuel + 1) hhdr, f1]

/-- C6, witness: a decoder that reports 57 consumed and BUF_SIZE produced bytes on every
call, a flush that writes 100 of the 8192 bytes. -/
theorem sbc_to_snd_fatal_first_iteration_witness :
    (∀ sbc input cap, 0 < ((example_codec 57 BUF_SIZE).sbc_decode sbc input cap).framelen ∧
      ((example_codec 57 BUF_SIZE).sbc_decode sbc input cap).framelen < 2147483648 ∧
      ((example_codec 57 BUF_SIZE).sbc_decode sbc input cap).output.length = BUF_SIZE) ∧
    1 ≤ (fun (k _ : Nat) => if k = 0 then 1 else 100) 0 1 ∧
    (fun (k _ : Nat) => if k = 0 then 1 else 100) 1 BUF_SIZE ≤ BUF_SIZE ∧
    ∃ s, sbc_to_snd (example_codec 57 BUF_SIZE) true (some [1, 2, 3]) (fun _ => 0)
        (fun k _ => if k = 0 then 1 else 100) (0 + 1) = (Status.fatal, some s) ∧
      s.trace = [Event.check 8192 8192,
        Event.flush 8192 ((fun (k _ : Nat) => if k = 0 then 1 else 100) 1 8192),
        Event.check (8192 - (((fun (k _ : Nat) => if k = 0 then 1 else 100) 1 8192 : Nat) : Int))
          8192] :=
  have hdec : ∀ sbc input cap,
      0 < ((example_codec 57 BUF_SIZE).sbc_decode sbc input cap).framelen ∧
      ((example_codec 57 BUF_SIZE).sbc_decode sbc input cap).framelen < 2147483648 ∧
      ((example_codec 57 BUF_SIZE).sbc_decode sbc input cap).output.length = BUF_SIZE := by
    intro sbc input cap
    refine ⟨(by show (0 : Int) < 57; decide), (by show (57 : Int) < 2147483648; decide), ?_⟩
    simp only [example_codec, List.length_replicate]
  ⟨hdec, by decide, by decide,
    sbc_to_snd_fatal_first_iteration (example_codec 57 BUF_SIZE) true [1, 2, 3] (fun _ => 0)
      (fun k _ => if k = 0 then 1 else 100) 0 hdec (by decide) (by decide)⟩

/-- C6, counterexample: two runs in which every decode call reports a positive consumed
length and BUF_SIZE produced bytes, and the fatal check is not reached. With the consumed
length 2^32 the `int` framelen receives 0, the loop is not entered and the run finishes.
With a header write that fails the run leaves at `goto close` before the loop. -/
theorem sbc_to_snd_fatal_first_iteration_counterexample :
    ((∀ sbc input cap,
        0 < ((example_codec 4294967296 BUF_SIZE).sbc_decode sbc input cap).framelen ∧
        ((example_codec 4294967296 BUF_SIZE).sbc_decode sbc input cap).output.length =
          BUF_SIZE) ∧
      (sbc_to_snd (example_codec 4294967296 BUF_SIZE) false (some [1, 2, 3]) (fun _ => 0)
        (fun _ n => n) 1).1 = Status.finished) ∧
    ((∀ sbc input cap,
        0 < ((example_codec 57 BUF_SIZE).sbc_decode sbc input cap).framelen ∧
        ((example_codec 57 BUF_SIZE).sbc_decode sbc input cap).output.length = BUF_SIZE) ∧
      (sbc_to_snd (example_codec 57 BUF_SIZE) false (some [1, 2, 3]) (fun _ => 0)
        (fun _ _ => 0) 1).1 = Status.header_failed) := by
  refine ⟨⟨fun sbc input cap => ⟨(by show (0 : Int) < 4294967296; decide), ?_⟩, ?_⟩,
    ⟨fun sbc input cap => ⟨(by show (0 : Int) < 57; decide), ?_⟩, ?_⟩⟩
  · simp only [example_codec, List.length_replicate]
  · decide
  · simp only [example_codec, List.length_replicate]
  · decide

/-! ## Further facts for the WAV writers -/

theorem swap_bytes_even (bytes : List Nat) (mem : Nat → Nat) (m : Nat)
    (hlen : bytes.length = 2 * m) (hm : 2 * m < 2147483648) :
    ∃ out, swap_bytes bytes mem = some out ∧ out.length = 2 * m ∧
      ∀ k, k < m → out[2 * k]? = bytes[2 * k + 1]? ∧ out[2 * k + 1]? = bytes[2 * k]? := by
  have hds : to_int ((2 * m : Nat) : Int) = ((2 * m : Nat) : Int) :=
    to_int_of_range _ (by omega) (by omega)
  obtain ⟨out, ho, hl, -, hsw⟩ := swap_loop_even bytes mem m hm hlen
    m (((2 * m : Nat) : Int).toNat + 1) 0 (malloc mem ((2 * m : Nat) : Int)) (by omega) (by omega)
    (malloc_length mem (2 * m))
  have h0 : ((2 * 0 : Nat) : Int) = 0 := rfl
  rw [h0] at ho
  refine ⟨out, ?_, hl, fun k hk => hsw k (Nat.zero_le k) hk⟩
  simp only [swap_bytes, hlen, hds]
  exact ho

theorem swap_bytes_negative (bytes : List Nat) (mem : Nat → Nat)
    (h : to_int (bytes.length : Int) < 0) :
    swap_bytes bytes mem = some (malloc mem (bytes.length : Int)) := by
  simp only [swap_bytes]
  rw [swap_loop, if_neg (by omega)]

theorem convert_snd_to_wav_swap_bytes (stream : List Nat) (mem : Nat → Nat)
    (h : 24 ≤ stream.length) :
    convert_snd_to_wav (some stream) mem =
      convert_snd_to_wav_write (to_int ((stream.length : Int) - 24))
        (swap_bytes (stream.drop 24) mem) := by
  have hl : (((stream.drop 24).length : Nat) : Int) = (stream.length : Int) - 24 := by
    rw [List.length_drop]; omega
  simp only [convert_snd_to_wav, swap_bytes, hl]

theorem build_wav_header_data_size (c r b : Nat) (d : Int) :
    (le_field (build_wav_header c r b d) 40 4 : Int) = d % 4294967296 := by
  have h := le32_bytes d
  rw [build_wav_header_eq]
  simp only [le_field, List.getD_cons_succ, List.getD_cons_zero]
  exact h

theorem swap_loop_accesses_odd (m : Nat) (hm : 2 * m + 1 < 2147483647) :
    ∀ (r fuel j : Nat), j + r = m → r < fuel →
      Access.read ((2 * m + 1 : Nat) : Int) ∈
        swap_loop_accesses ((2 * m + 1 : Nat) : Int) fuel ((2 * j : Nat) : Int) ∧
      Access.write ((2 * m + 1 : Nat) : Int) ∈
        swap_loop_accesses ((2 * m + 1 : Nat) : Int) fuel ((2 * j : Nat) : Int) ∧
      ∀ idx, (Access.read idx ∈
            swap_loop_accesses ((2 * m + 1 : Nat) : Int) fuel ((2 * j : Nat) : Int) ∨
          Access.write idx ∈
            swap_loop_accesses ((2 * m + 1 : Nat) : Int) fuel ((2 * j : Nat) : Int)) →
        0 ≤ idx ∧ idx ≤ ((2 * m + 1 : Nat) : Int) := by
  intro r
  induction r with
  | zero =>
    intro fuel j hj hf
    obtain ⟨f, rfl⟩ : ∃ f, fuel = f + 1 := ⟨fuel - 1, by omega⟩
    have hjm : j = m := by omega
    subst hjm
    have e : ((2 * j : Nat) : Int) + 1 = ((2 * j + 1 : Nat) : Int) := by omega
    have e2 : to_int (((2 * j : Nat) : Int) + 2) = ((2 * j + 2 : Nat) : Int) := by
      rw [to_int_of_range _ (by omega) (by omega)]; omega
    have hstop : swap_loop_accesses ((2 * j + 1 : Nat) : Int) f ((2 * j + 2 : Nat) : Int) = [] := by
      cases f with
      | zero => rfl
      | succ g => rw [swap_loop_accesses, if_neg (by omega)]
    rw [swap_loop_accesses, if_pos (by omega), e, e2, hstop]
    refine ⟨List.mem_cons_self _ _, by simp, ?_⟩
    intro idx h
    simp only [List.mem_cons, Access.read.injEq, Access.write.injEq, List.mem_singleton,
      List.not_mem_nil, or_false, false_or, reduceCtorEq] at h
    omega
  | succ r ih =>
    intro fuel j hj hf
    obtain ⟨f, rfl⟩ : ∃ f, fuel = f + 1 := ⟨fuel - 1, by omega⟩
    have e2 : to_int (((2 * j : Nat) : Int) + 2) = ((2 * (j + 1) : Nat) : Int) := by
      rw [to_int_of_range _ (by omega) (by omega)]; omega
    obtain ⟨a, b, c⟩ := ih f (j + 1) (by omega) (by omega)
    rw [swap_loop_accesses, if_pos (by omega), e2]
    refine ⟨List.mem_cons_of_mem _ (List.mem_cons_of_mem _ (List.mem_cons_of_mem _
        (List.mem_cons_of_mem _ a))),
      List.mem_cons_of_mem _ (List.mem_cons_of_mem _ (List.mem_cons_of_mem _
        (List.mem_cons_of_mem _ b))), ?_⟩
    intro idx h
    simp only [List.mem_cons, Access.read.injEq, Access.write.injEq, reduceCtorEq,
      false_or] at h
    rcases h with (h | h | h) | (h | h | h)
    · omega
    · omega
    · exact c idx (Or.inl h)
    · omega
    · omega
    · exact c idx (Or.inr h)

/-! ## Claims about the swap step, the session parameters and the WAV header -/

/-- C11 (amended): for every byte sequence of even length below 2^31, the swap step of
`convert_snd_to_wav` applied twice gives back the sequence: the first application ends
with some `once`, and the second application, on `once`, ends with the sequence itself. -/
theorem swap_bytes_involution (bytes : List Nat) (mem : Nat → Nat) (m : Nat)
    (hlen : bytes.length = 2 * m) (hm : 2 * m < 2147483648) :
    ∃ once, swap_bytes bytes mem = some once ∧ swap_bytes once mem = some bytes := by
  obtain ⟨once, h1, hl1, hs1⟩ := swap_bytes_even bytes mem m hlen hm
  obtain ⟨twice, h2, hl2, hs2⟩ := swap_bytes_even once mem m hl1 hm
  refine ⟨once, h1, ?_⟩
  rw [h2]
  refine congrArg some (List.ext_getElem? ?_)
  intro x
  by_cases hx : x < 2 * m
  · obtain ⟨k, hk | hk⟩ : ∃ k, x = 2 * k ∨ x = 2 * k + 1 := ⟨x / 2, by omega⟩
    · subst hk
      rw [(hs2 k (by omega)).1, (hs1 k (by omega)).2]
    · subst hk
      rw [(hs2 k (by omega)).2, (hs1 k (by omega)).1]
  · rw [List.getElem?_eq_none (by omega), List.getElem?_eq_none (by omega)]

/-- C11, witness: the four bytes 1 2 3 4. -/
theorem swap_bytes_involution_witness :
    [1, 2, 3, 4].length = 2 * 2 ∧ 2 * 2 < 2147483648 ∧
    ∃ once, swap_bytes [1, 2, 3, 4] (fun _ => 0) = some once ∧
      swap_bytes once (fun _ => 0) = some [1, 2, 3, 4] :=
  ⟨by decide, by decide,
    swap_bytes_involution [1, 2, 3, 4] (fun _ => 0) 2 (by decide) (by decide)⟩

/-- C11, counterexample: two byte sequences that the swap applied twice does not give
back. For the three bytes 1 2 3 the loop runs past the end of both buffers and the last
byte is lost. For 2^31 bytes of value 7 the data size does not fit the `int`, the loop
does not run, and the result is the untouched PCM buffer. -/
theorem swap_bytes_twice_counterexample :
    (swap_bytes [1, 2, 3] (fun _ => 0) = some [2, 1, 0] ∧
      swap_bytes [2, 1, 0] (fun _ => 0) = some [1, 2, 0]) ∧
    ¬ ∃ once, swap_bytes (List.replicate 2147483648 7) (fun _ => 0) = some once ∧
      swap_bytes once (fun _ => 0) = some (List.replicate 2147483648 7) := by
  refine ⟨⟨by decide, by decide⟩, ?_⟩
  have hlen : (List.replicate 2147483648 7).length = 2147483648 := List.length_replicate _ _
  have hv : to_int ((2147483648 : Nat) : Int) < 0 := by unfold to_int; omega
  have h1 := swap_bytes_negative (List.replicate 2147483648 7) (fun _ => 0)
    (by rw [hlen]; exact hv)
  rw [hlen] at h1
  have hl2 : (malloc (fun _ => 0) ((2147483648 : Nat) : Int)).length = 2147483648 :=
    malloc_length _ _
  have h2 := swap_bytes_negative (malloc (fun _ => 0) ((2147483648 : Nat) : Int)) (fun _ => 0)
    (by rw [hl2]; exact hv)
  rw [hl2] at h2
  rintro ⟨once, ho1, ho2⟩
  rw [h1] at ho1
  have e1 : once = malloc (fun _ => 0) ((2147483648 : Nat) : Int) := (Option.some.inj ho1).symm
  rw [e1, h2] at ho2
  have e2 := Option.some.inj ho2
  have e3 : (malloc (fun _ => 0) ((2147483648 : Nat) : Int))[0]? =
      (List.replicate 2147483648 7)[0]? := by rw [e2]
  have hnn : ¬ (((2147483648 : Nat) : Int) < 0) := by omega
  simp only [malloc, hnn, if_false, Int.toNat_ofNat, List.getElem?_map,
    List.getElem?_range (show 0 < 2147483648 by decide), Option.map_some',
    List.getElem?_replicate] at e3
  simp at e3

/-- C16: the sample rate `sbc_to_snd` puts in the AU header is 16000, 32000, 44100 or 48000
for the four recognised sample-rate classes and 0 for any other class; the channel count is
1 for mono and 2 for every other mode. The rate fits the `uint16_t` it is kept in, the
channel count the `int`, and the 32-bit header fields hold both values unchanged. -/
theorem snd_session_parameters (f : SbcFrequency) (m : SbcMode) :
    snd_frequency SbcFrequency.SBC_FREQ_16000 = 16000 ∧
    snd_frequency SbcFrequency.SBC_FREQ_32000 = 32000 ∧
    snd_frequency SbcFrequency.SBC_FREQ_44100 = 44100 ∧
    snd_frequency SbcFrequency.SBC_FREQ_48000 = 48000 ∧
    (∀ code, snd_frequency (SbcFrequency.unknown code) = 0) ∧
    snd_channels SbcMode.SBC_MODE_MONO = 1 ∧
    (m ≠ SbcMode.SBC_MODE_MONO → snd_channels m = 2) ∧
    snd_frequency f < 65536 ∧
    (0 ≤ snd_channels m ∧ snd_channels m < 2147483648) ∧
    be_field (snd_au_header (snd_frequency f) (snd_channels m)).bytes 16 4 = snd_frequency f ∧
    (be_field (snd_au_header (snd_frequency f) (snd_channels m)).bytes 20 4 : Int) =
      snd_channels m := by
  obtain ⟨-, -, -, -, -, -, b7, b8⟩ := snd_au_header_bytes f m
  refine ⟨rfl, rfl, rfl, rfl, fun _ => rfl, rfl, ?_, ?_, ?_, b7, b8⟩
  · intro hm
    unfold snd_channels
    rw [if_neg hm]
  · cases f <;> simp [snd_frequency]
  · unfold snd_channels
    split <;> decide

/-- C17 (amended): the 44 header bytes `sbc_to_pcm` writes depend on the input only through
floor(n/57): two runs with equal floor(n/57) and 240 * floor(n/57) < 2^31 both write a
file that starts with the same 44-byte header, whatever the input bytes, the codec variant,
the decoder and its reports. The header has channel count 1, sample rate 16000, 16 bits
per sample and the data size 240 * floor(n/57), and 240 * floor(n/57) PCM bytes follow
it. -/
theorem sbc_to_pcm_header_by_frame_count {π ρ : Type} (cdc : Codec π) (cdc2 : Codec ρ)
    (msbc msbc2 : Bool) (stream stream2 : List Nat) (mem mem2 : Nat → Nat)
    (hcount : stream.length / 57 = stream2.length / 57)
    (hsize : 240 * (stream.length / 57) < 2147483648) :
    ∃ header pcm pcm2,
      sbc_to_pcm cdc msbc (some stream) mem = Outcome.wrote (header ++ pcm) ∧
      sbc_to_pcm cdc2 msbc2 (some stream2) mem2 = Outcome.wrote (header ++ pcm2) ∧
      header.length = 44 ∧
      le_field header 22 2 = 1 ∧
      le_field header 24 4 = 16000 ∧
      le_field header 34 2 = 16 ∧
      le_field header 40 4 = 240 * (stream.length / 57) ∧
      pcm.length = 240 * (stream.length / 57) ∧
      pcm2.length = 240 * (stream.length / 57) := by
  obtain ⟨out, -, hl, -, -, hw⟩ := sbc_to_pcm_sized cdc msbc stream mem hsize
  obtain ⟨out2, -, hl2, -, -, hw2⟩ := sbc_to_pcm_sized cdc2 msbc2 stream2 mem2
    (by rw [← hcount]; exact hsize)
  rw [← hcount] at hl2 hw2
  obtain ⟨-, -, f3, f4, -, -, f7⟩ := build_wav_header_fields 1 16000 16
    ((240 * (stream.length / 57) : Nat) : Int) (by decide) (by decide) (by decide)
  obtain ⟨s1, -⟩ := build_wav_header_sizes 1 16000 16 (240 * (stream.length / 57))
    (by omega)
  exact ⟨_, out.pcm, out2.pcm, hw, hw2, build_wav_header_length _ _ _ _, f3, f4, f7, s1,
    hl, hl2⟩

/-- C17, witness: one frame with a tail decoded by one decoder, one frame decoded by
another. -/
theorem sbc_to_pcm_header_by_frame_count_witness :
    (List.replicate 60 1).length / 57 = (List.replicate 57 0).length / 57 ∧
    240 * ((List.replicate 60 1).length / 57) < 2147483648 ∧
    ∃ header pcm pcm2,
      sbc_to_pcm frame_codec true (some (List.replicate 60 1)) (fun _ => 0) =
        Outcome.wrote (header ++ pcm) ∧
      sbc_to_pcm (example_codec 0 100) false (some (List.replicate 57 0)) (fun _ => 5) =
        Outcome.wrote (header ++ pcm2) ∧
      header.length = 44 ∧
      le_field header 22 2 = 1 ∧
      le_field header 24 4 = 16000 ∧
      le_field header 34 2 = 16 ∧
      le_field header 40 4 = 240 * ((List.replicate 60 1).length / 57) ∧
      pcm.length = 240 * ((List.replicate 60 1).length / 57) ∧
      pcm2.length = 240 * ((List.replicate 60 1).length / 57) :=
  ⟨by decide, by decide,
    sbc_to_pcm_header_by_frame_count frame_codec (example_codec 0 100) true false
      (List.replicate 60 1) (List.replicate 57 0) (fun _ => 0) (fun _ => 5) (by decide)
      (by decide)⟩

/-- C17, counterexample: an input of 57 * 8947849 bytes and a decoder that stores 240
bytes per frame. The data size 240 * 8947849 = 2147483760 does not fit the `int` it is
summed in, and the conversion does not end with a written file: no header followed by PCM
is produced for this floor(n/57). -/
theorem sbc_to_pcm_header_overflow_counterexample :
    (List.replicate 510027393 0).length / 57 = 8947849 ∧
    240 * ((List.replicate 510027393 0).length / 57) = 2147483760 ∧
    ¬ ∃ header pcm,
      sbc_to_pcm frame_codec false (some (List.replicate 510027393 0)) (fun _ => 0) =
        Outcome.wrote (header ++ pcm) := by
  have hlen : (List.replicate 510027393 0).length = 510027393 := List.length_replicate _ _
  have hv : to_int (240 * ((8947849 : Nat) : Int)) = -2147483536 := by
    unfold to_int; omega
  have key := sbc_to_pcm_negative_size frame_codec false (List.replicate 510027393 0)
    (fun _ => 0) 8947849 (by rw [hlen]) (by decide) (by rw [hv]; decide)
  refine ⟨by rw [hlen], by rw [hlen], ?_⟩
  rintro ⟨header, pcm, hfile⟩
  rw [key] at hfile
  exact Outcome.noConfusion hfile

/-- C18 (what the code does instead): for every source file of n bytes whose remainder
n - 24 is odd (and below 2^31 - 1), the last iteration of the swap loop loads remainder
index n - 24 and stores PCM index n - 24, which are not below n - 24: one byte past the
end of either buffer. -/
theorem convert_snd_to_wav_odd_accesses (stream : List Nat) (m : Nat)
    (hlen : stream.length = 24 + (2 * m + 1)) (hm : 2 * m + 1 < 2147483647) :
    Access.read ((stream.length : Int) - 24) ∈ convert_snd_to_wav_accesses stream ∧
    Access.write ((stream.length : Int) - 24) ∈ convert_snd_to_wav_accesses stream ∧
    ∀ idx, (Access.read idx ∈ convert_snd_to_wav_accesses stream ∨
      Access.write idx ∈ convert_snd_to_wav_accesses stream) →
        0 ≤ idx ∧ idx ≤ (stream.length : Int) - 24 := by
  have e1 : (stream.length : Int) - 24 = ((2 * m + 1 : Nat) : Int) := by omega
  have e2 : to_int ((2 * m + 1 : Nat) : Int) = ((2 * m + 1 : Nat) : Int) :=
    to_int_of_range _ (by omega) (by omega)
  have e3 : ((2 * 0 : Nat) : Int) = 0 := rfl
  obtain ⟨h1, h2, h3⟩ := swap_loop_accesses_odd m hm m
    (((2 * m + 1 : Nat) : Int).toNat + 1) 0 (by omega) (by omega)
  rw [e3] at h1 h2 h3
  simp only [convert_snd_to_wav_accesses, e1, e2]
  exact ⟨h1, h2, h3⟩

/-- C18, witness: a source file of 25 bytes, with a remainder and a PCM buffer of one byte:
the loop loads remainder index 1 and stores PCM index 1. -/
theorem convert_snd_to_wav_odd_accesses_witness :
    (List.replicate 25 0).length = 24 + (2 * 0 + 1) ∧ 2 * 0 + 1 < 2147483647 ∧
    Access.read (((List.replicate 25 0).length : Int) - 24) ∈
      convert_snd_to_wav_accesses (List.replicate 25 0) ∧
    Access.write (((List.replicate 25 0).length : Int) - 24) ∈
      convert_snd_to_wav_accesses (List.replicate 25 0) ∧
    ∀ idx, (Access.read idx ∈ convert_snd_to_wav_accesses (List.replicate 25 0) ∨
      Access.write idx ∈ convert_snd_to_wav_accesses (List.replicate 25 0)) →
        0 ≤ idx ∧ idx ≤ ((List.replicate 25 0).length : Int) - 24 :=
  ⟨by decide, by decide,
    convert_snd_to_wav_odd_accesses (List.replicate 25 0) 0 (by decide) (by decide)⟩

/-- C19: for every input of n bytes with 240 * floor(n/57) < 2^31, the PCM buffer
`sbc_to_pcm` allocates has 240 * floor(n/57) bytes; the decode call of every frame
k < floor(n/57) reads the input slice [57k, 57k + 57), which lies within the stream, and
writes the output slot [240k, 240k + 240), which lies within the buffer; slots of distinct
frames are disjoint and every byte of the buffer lies in the slot of one frame. -/
theorem sbc_to_pcm_slot_bounds {π : Type} (cdc : Codec π) (msbc : Bool) (stream : List Nat)
    (mem : Nat → Nat) (n : Nat) (hlen : stream.length = n)
    (hsize : 240 * (n / 57) < 2147483648) :
    ∃ s, sbc_to_pcm_decode cdc msbc stream mem = some s ∧
      (malloc mem (to_int (to_int ((n : Int) / 57) * 240))).length = 240 * (n / 57) ∧
      s.pcm.length = 240 * (n / 57) ∧
      (∀ k, k < n / 57 →
        s.calls[k]? = some ⟨((57 * k : Nat) : Int), 57, ((240 * k : Nat) : Int), 240⟩ ∧
        57 * k + 57 ≤ n ∧ 240 * k + 240 ≤ 240 * (n / 57)) ∧
      (∀ j k, j < n / 57 → k < n / 57 → j ≠ k →
        240 * j + 240 ≤ 240 * k ∨ 240 * k + 240 ≤ 240 * j) ∧
      (∀ x, x < 240 * (n / 57) → ∃ k, k < n / 57 ∧ 240 * k ≤ x ∧ x < 240 * k + 240) := by
  subst hlen
  obtain ⟨out, h1, h2, -, h4, -⟩ := sbc_to_pcm_sized cdc msbc stream mem hsize
  have ec : to_int ((stream.length : Int) / 57) = ((stream.length / 57 : Nat) : Int) := by
    rw [to_int_of_range _ (by omega) (by omega)]; omega
  have ea : to_int (((stream.length / 57 : Nat) : Int) * 240) =
      ((240 * (stream.length / 57) : Nat) : Int) := by
    rw [to_int_of_range _ (by omega) (by omega)]; omega
  refine ⟨out, h1, ?_, h2, ?_, ?_, ?_⟩
  · rw [ec, ea, malloc_length]
  · intro k hk
    refine ⟨?_, by omega, by omega⟩
    rw [h4, List.getElem?_map, List.getElem?_range hk, Option.map_some', pcm_call]
    have e1 : to_int ((k : Int) * 57) = ((57 * k : Nat) : Int) := by
      rw [to_int_of_range _ (by omega) (by omega)]; omega
    have e2 : to_int ((k : Int) * 240) = ((240 * k : Nat) : Int) := by
      rw [to_int_of_range _ (by omega) (by omega)]; omega
    rw [e1, e2]
  · intro j k _ _ hjk
    omega
  · intro x hx
    exact ⟨x / 240, by omega, by omega, by omega⟩

/-- C19, witness: two frames and a tail of six bytes. -/
theorem sbc_to_pcm_slot_bounds_witness :
    (List.replicate 120 0).length = 120 ∧ 240 * (120 / 57) < 2147483648 ∧
    ∃ s, sbc_to_pcm_decode frame_codec true (List.replicate 120 0) (fun _ => 0) = some s ∧
      (malloc (fun _ => 0) (to_int (to_int (((120 : Nat) : Int) / 57) * 240))).length =
        240 * (120 / 57) ∧
      s.pcm.length = 240 * (120 / 57) ∧
      (∀ k, k < 120 / 57 →
        s.calls[k]? = some ⟨((57 * k : Nat) : Int), 57, ((240 * k : Nat) : Int), 240⟩ ∧
        57 * k + 57 ≤ 120 ∧ 240 * k + 240 ≤ 240 * (120 / 57)) ∧
      (∀ j k, j < 120 / 57 → k < 120 / 57 → j ≠ k →
        240 * j + 240 ≤ 240 * k ∨ 240 * k + 240 ≤ 240 * j) ∧
      (∀ x, x < 240 * (120 / 57) → ∃ k, k < 120 / 57 ∧ 240 * k ≤ x ∧ x < 240 * k + 240) :=
  ⟨by decide, by decide,
    sbc_to_pcm_slot_bounds frame_codec true (List.replicate 120 0) (fun _ => 0) 120
      (by decide) (by decide)⟩

/-! ## sbc_to_snd: pending bytes and decode calls -/

theorem set_take_succ (buf : List Nat) (k v : Nat) (h : k < buf.length) :
    (buf.set k v).take (k + 1) = buf.take k ++ [v] := by
  apply List.ext_getElem?
  intro j
  rw [List.getElem?_take, List.getElem?_set]
  by_cases hj : j < k
  · rw [if_pos (by omega), if_neg (by omega), List.getElem?_append_left (by simp; omega),
      List.getElem?_take, if_pos hj]
  · by_cases hjk : j = k
    · subst hjk
      rw [if_pos (by omega), if_pos rfl, if_pos h,
        List.getElem?_append_right (by simp)]
      simp [Nat.min_eq_left (Nat.le_of_lt h)]
    · rw [if_neg (by omega), List.getElem?_eq_none (by simp; omega)]

theorem store_bytes_take (bs : List Nat) :
    ∀ (buf : List Nat) (k : Nat), k + bs.length ≤ buf.length →
      (store_bytes buf (k : Int) bs).take (k + bs.length) = buf.take k ++ bs := by
  induction bs with
  | nil => intro buf k _; simp [store_bytes]
  | cons b bs ih =>
    intro buf k h
    have hl : (b :: bs).length = bs.length + 1 := rfl
    rw [hl] at h
    have e : ((k : Int) + 1) = ((k + 1 : Nat) : Int) := by omega
    rw [store_bytes, store_nat, e, hl, show k + (bs.length + 1) = (k + 1) + bs.length by omega,
      ih (buf.set k b) (k + 1) (by rw [List.length_set]; omega),
      set_take_succ buf k b (by omega), List.append_assoc]
    rfl

theorem flush_if_full_eq {π : Type} (fw : Nat → Nat → Nat) (s : SndState π) :
    flush_if_full fw s =
      if buffer_full s then
        { s with
          file := s.file ++ s.buf.take (fw s.nwrites (to_size_t s.count))
          count := if fw s.nwrites (to_size_t s.count) > 0 then
            to_int (s.count - (fw s.nwrites (to_size_t s.count) : Int)) else s.count
          nwrites := s.nwrites + 1
          trace := s.trace ++ [Event.check s.count s.len] ++
            [Event.flush (to_size_t s.count) (fw s.nwrites (to_size_t s.count))] ++
            [Event.check (if fw s.nwrites (to_size_t s.count) > 0 then
              to_int (s.count - (fw s.nwrites (to_size_t s.count) : Int)) else s.count) s.len] }
      else
        { s with trace := s.trace ++ [Event.check s.count s.len] ++
            [Event.check s.count s.len] } := by
  have hb : buffer_full (note (Event.check s.count s.len) s) = buffer_full s := rfl
  unfold flush_if_full
  simp only [hb]
  by_cases h : buffer_full s = true
  · simp only [h, if_true]
    rfl
  · simp only [h, Bool.false_eq_true, if_false]
    rfl

theorem flush_if_full_full {π : Type} (fw : Nat → Nat → Nat) (s : SndState π)
    (hfw : ∀ k n, fw k n = n) (h0 : 0 ≤ s.count) (h1 : s.count ≤ 8192) (h2 : s.len ≤ 8192) :
    (flush_if_full fw s).sbc = s.sbc ∧ (flush_if_full fw s).buf = s.buf ∧
    (flush_if_full fw s).pos = s.pos ∧ (flush_if_full fw s).framelen = s.framelen ∧
    (flush_if_full fw s).len = s.len ∧
    0 ≤ (flush_if_full fw s).count ∧ (flush_if_full fw s).count ≤ s.count ∧
    (flush_if_full fw s).file ++ s.buf.take (flush_if_full fw s).count.toNat =
      s.file ++ s.buf.take s.count.toNat ∧
    (buffer_full (flush_if_full fw s) = true ↔ 8192 ≤ s.len) := by
  have hsz := to_size_t_of_nonneg s.count h0 (by omega)
  have hfull := buffer_full_iff s h0 h1 h2
  rw [flush_if_full_eq]
  by_cases h : buffer_full s = true
  · rw [if_pos h]
    have hz : (if fw s.nwrites (to_size_t s.count) > 0 then
        to_int (s.count - (fw s.nwrites (to_size_t s.count) : Int)) else s.count) = 0 := by
      rw [hfw]
      split
      · rw [hsz, Int.sub_self]; rfl
      · omega
    have ht : fw s.nwrites (to_size_t s.count) = s.count.toNat := by rw [hfw]; omega
    refine ⟨rfl, rfl, rfl, rfl, rfl, ?_, ?_, ?_, ?_⟩
    · show 0 ≤ (if fw s.nwrites (to_size_t s.count) > 0 then
        to_int (s.count - (fw s.nwrites (to_size_t s.count) : Int)) else s.count)
      rw [hz]
    · show (if fw s.nwrites (to_size_t s.count) > 0 then
        to_int (s.count - (fw s.nwrites (to_size_t s.count) : Int)) else s.count) ≤ s.count
      rw [hz]; exact h0
    · show (s.file ++ s.buf.take (fw s.nwrites (to_size_t s.count))) ++ s.buf.take
        (if fw s.nwrites (to_size_t s.count) > 0 then
          to_int (s.count - (fw s.nwrites (to_size_t s.count) : Int)) else s.count).toNat =
        s.file ++ s.buf.take s.count.toNat
      rw [hz, ht]
      simp
    · simp only [buffer_full, BUF_SIZE, decide_eq_true_eq, hz]
      have hz0 : to_size_t 0 = 0 := rfl
      rw [hz0]
      omega
  · rw [if_neg h]
    refine ⟨rfl, rfl, rfl, rfl, rfl, h0, le_refl _, rfl, ?_⟩
    have h3 : buffer_full ({ s with trace := s.trace ++ [Event.check s.count s.len] ++
        [Event.check s.count s.len] } : SndState π) = buffer_full s := rfl
    rw [h3]
    rw [hfull] at h ⊢
    omega

theorem decode_next_pending {π : Type} (cdc : Codec π) (stream : List Nat) (mem : Nat → Nat)
    (streamlen : Int) (s : SndState π)
    (hdec : ∀ sbc input cap, (cdc.sbc_decode sbc input cap).output.length ≤ cap)
    (h0 : 0 ≤ s.count) (h1 : s.count ≤ 8192) (hb : s.buf.length = 8192) :
    (decode_next cdc stream mem streamlen s).file = s.file ∧
    (decode_next cdc stream mem streamlen s).buf.length = 8192 ∧
    0 ≤ (decode_next cdc stream mem streamlen s).count ∧
    (decode_next cdc stream mem streamlen s).count ≤ 8192 ∧
    (decode_next cdc stream mem streamlen s).len ≤ 8192 ∧
    (decode_next cdc stream mem streamlen s).buf.take
        (decode_next cdc stream mem streamlen s).count.toNat =
      s.buf.take s.count.toNat ++ (decode_call cdc stream mem streamlen s).output ∧
    (decode_next cdc stream mem streamlen s).framelen =
      (decode_call cdc stream mem streamlen s).framelen ∧
    (decode_next cdc stream mem streamlen s).len =
      (decode_call cdc stream mem streamlen s).output.length := by
  have hcap : (to_size_t ((BUF_SIZE : Int) - s.count) : Int) = (BUF_SIZE : Int) - s.count :=
    to_size_t_of_nonneg _ (by simp only [BUF_SIZE]; omega) (by simp only [BUF_SIZE]; omega)
  have hout := hdec s.sbc
    (load_bytes stream (to_int (s.pos + s.framelen))
      (to_size_t (streamlen - to_int (s.pos + s.framelen))) mem)
    (to_size_t ((BUF_SIZE : Int) - s.count))
  simp only [BUF_SIZE] at hcap hout
  simp only [decode_next, decode_call, BUF_SIZE]
  generalize (cdc.sbc_decode s.sbc
    (load_bytes stream (to_int (s.pos + s.framelen))
      (to_size_t (streamlen - to_int (s.pos + s.framelen))) mem)
    (to_size_t (((8192 : Nat) : Int) - s.count))) = r at hout ⊢
  have hc : to_int (s.count + (r.output.length : Int)) = s.count + (r.output.length : Int) :=
    to_int_of_range _ (by omega) (by omega)
  obtain ⟨k, hk⟩ : ∃ k : Nat, (k : Int) = s.count := ⟨s.count.toNat, by omega⟩
  rw [hc, ← hk]
  have e : ((k : Int) + (r.output.length : Int)).toNat = k + r.output.length := by omega
  rw [e, Int.toNat_ofNat]
  refine ⟨trivial, ?_, by omega, by omega, by omega, ?_, trivial, trivial⟩
  · rw [store_bytes_length]; exact hb
  · exact store_bytes_take r.output s.buf k (by omega)

/-! ## sbc_to_snd: what the loop writes and when it is fatal -/

theorem produced_cons (c : SndCall) (cs : List SndCall) :
    produced (c :: cs) = c.output ++ produced cs := by
  simp [produced]

theorem final_flush_full {π : Type} (fw : Nat → Nat → Nat) (s : SndState π)
    (hfw : ∀ k n, fw k n = n) (h0 : 0 ≤ s.count) (h1 : s.count ≤ 8192) :
    (final_flush fw s).file = s.file ++ s.buf.take s.count.toNat := by
  have hsz := to_size_t_of_nonneg s.count h0 (by omega)
  unfold final_flush
  by_cases hc : 0 < s.count
  · rw [if_pos hc, flush_file, hfw]
    have ht : to_size_t s.count = s.count.toNat := by omega
    rw [ht]
  · rw [if_neg hc]
    have hz : s.count.toNat = 0 := by omega
    rw [hz]
    simp

theorem snd_loop_step {π : Type} (cdc : Codec π) (stream : List Nat) (mem : Nat → Nat)
    (fw : Nat → Nat → Nat) (streamlen : Int) (s : SndState π)
    (hdec : ∀ sbc input cap, (cdc.sbc_decode sbc input cap).output.length ≤ cap)
    (hfw : ∀ k n, fw k n = n) (hs : snd_bounded s) (hb : s.buf.length = 8192)
    (hfull : ¬ buffer_full (flush_if_full fw s) = true) :
    snd_bounded (decode_next cdc stream mem streamlen (flush_if_full fw s)) ∧
    (decode_next cdc stream mem streamlen (flush_if_full fw s)).buf.length = 8192 ∧
    (decode_next cdc stream mem streamlen (flush_if_full fw s)).file ++
      (decode_next cdc stream mem streamlen (flush_if_full fw s)).buf.take
        (decode_next cdc stream mem streamlen (flush_if_full fw s)).count.toNat =
      s.file ++ s.buf.take s.count.toNat ++
        (decode_call cdc stream mem streamlen (flush_if_full fw s)).output ∧
    (decode_next cdc stream mem streamlen (flush_if_full fw s)).framelen =
      (decode_call cdc stream mem streamlen (flush_if_full fw s)).framelen ∧
    (decode_next cdc stream mem streamlen (flush_if_full fw s)).len =
      (decode_call cdc stream mem streamlen (flush_if_full fw s)).output.length ∧
    s.len < 8192 := by
  obtain ⟨h0, h1, h2⟩ := hs
  obtain ⟨-, f2, -, -, -, f6, f7, f8, f9⟩ := flush_if_full_full fw s hfw h0 h1 h2
  obtain ⟨d1, d2, d3, d4, d5, d6, d7, d8⟩ := decode_next_pending cdc stream mem streamlen
    (flush_if_full fw s) hdec f6 (le_trans f7 h1) (by rw [f2]; exact hb)
  refine ⟨⟨d3, d4, d5⟩, d2, ?_, d7, d8, ?_⟩
  · rw [d1, d6, f2, ← List.append_assoc, f8]
  · rw [f9] at hfull
    omega

theorem sbc_to_snd_loop_output {π : Type} (cdc : Codec π) (stream : List Nat)
    (mem : Nat → Nat) (fw : Nat → Nat → Nat) (streamlen : Int)
    (hdec : ∀ sbc input cap, (cdc.sbc_decode sbc input cap).output.length ≤ cap)
    (hfw : ∀ k n, fw k n = n) :
    ∀ (fuel : Nat) (s : SndState π), snd_bounded s → s.buf.length = 8192 →
      ((sbc_to_snd_loop cdc stream mem fw streamlen fuel s).1 = Status.finished →
        (sbc_to_snd_loop cdc stream mem fw streamlen fuel s).2.file =
          s.file ++ s.buf.take s.count.toNat ++
            produced (sbc_to_snd_loop_calls cdc stream mem fw streamlen fuel s)) ∧
      ((sbc_to_snd_loop cdc stream mem fw streamlen fuel s).1 ≠ Status.finished →
        (sbc_to_snd_loop cdc stream mem fw streamlen fuel s).2.file ++
          (sbc_to_snd_loop cdc stream mem fw streamlen fuel s).2.buf.take
            (sbc_to_snd_loop cdc stream mem fw streamlen fuel s).2.count.toNat =
          s.file ++ s.buf.take s.count.toNat ++
            produced (sbc_to_snd_loop_calls cdc stream mem fw streamlen fuel s)) := by
  have hnil : produced [] = [] := rfl
  intro fuel
  induction fuel with
  | zero =>
    intro s _ _
    rw [sbc_to_snd_loop, sbc_to_snd_loop_calls, hnil, List.append_nil]
    refine ⟨?_, ?_⟩
    · intro h; cases h
    · intro _; rfl
  | succ f ih =>
    intro s hs hb
    rw [sbc_to_snd_loop, sbc_to_snd_loop_calls]
    by_cases hfl : 0 < s.framelen
    · rw [if_pos hfl, if_pos hfl]
      by_cases hfull : buffer_full (flush_if_full fw s) = true
      · rw [if_pos hfull, if_pos hfull, hnil, List.append_nil]
        obtain ⟨-, f2, -, -, -, -, -, f8, -⟩ := flush_if_full_full fw s hfw hs.1 hs.2.1 hs.2.2
        refine ⟨?_, ?_⟩
        · intro h; cases h
        · intro _
          show (flush_if_full fw s).file ++
            (flush_if_full fw s).buf.take (flush_if_full fw s).count.toNat = _
          rw [f2, f8]
      · rw [if_neg hfull, if_neg hfull]
        obtain ⟨g1, g2, g3, -, -, -⟩ := snd_loop_step cdc stream mem fw streamlen s hdec hfw
          hs hb hfull
        obtain ⟨i1, i2⟩ := ih _ g1 g2
        rw [produced_cons]
        refine ⟨fun h => ?_, fun h => ?_⟩
        · rw [i1 h, g3]; simp only [List.append_assoc]
        · rw [i2 h, g3]; simp only [List.append_assoc]
    · rw [if_neg hfl, if_neg hfl, hnil, List.append_nil]
      refine ⟨?_, ?_⟩
      · intro _
        exact final_flush_full fw s hfw hs.1 hs.2.1
      · intro h
        exact absurd rfl h

theorem sbc_to_snd_loop_fatal_iff {π : Type} (cdc : Codec π) (stream : List Nat)
    (mem : Nat → Nat) (fw : Nat → Nat → Nat) (streamlen : Int)
    (hdec : ∀ sbc input cap, (cdc.sbc_decode sbc input cap).output.length ≤ cap)
    (hfw : ∀ k n, fw k n = n) :
    ∀ (fuel : Nat) (s : SndState π), snd_bounded s → s.buf.length = 8192 →
      (sbc_to_snd_loop cdc stream mem fw streamlen fuel s).1 ≠ Status.running →
      ((sbc_to_snd_loop cdc stream mem fw streamlen fuel s).1 = Status.fatal ↔
        (0 < s.framelen ∧ 8192 ≤ s.len) ∨
          ∃ c ∈ sbc_to_snd_loop_calls cdc stream mem fw streamlen fuel s,
            0 < c.framelen ∧ 8192 ≤ c.output.length) := by
  intro fuel
  induction fuel with
  | zero =>
    intro s _ _ h
    rw [sbc_to_snd_loop] at h
    exact absurd rfl h
  | succ f ih =>
    intro s hs hb
    rw [sbc_to_snd_loop, sbc_to_snd_loop_calls]
    by_cases hfl : 0 < s.framelen
    · rw [if_pos hfl, if_pos hfl]
      by_cases hfull : buffer_full (flush_if_full fw s) = true
      · rw [if_pos hfull, if_pos hfull]
        intro _
        obtain ⟨-, -, -, -, -, -, -, -, f9⟩ := flush_if_full_full fw s hfw hs.1 hs.2.1 hs.2.2
        constructor
        · intro _
          exact Or.inl ⟨hfl, f9.mp hfull⟩
        · intro _
          rfl
      · rw [if_neg hfull, if_neg hfull]
        intro hrun
        obtain ⟨g1, g2, -, g4, g5, g6⟩ := snd_loop_step cdc stream mem fw streamlen s hdec hfw
          hs hb hfull
        rw [ih _ g1 g2 hrun, g4, g5]
        constructor
        · rintro (h | ⟨c, hc, hp⟩)
          · exact Or.inr ⟨_, List.mem_cons_self _ _, h⟩
          · exact Or.inr ⟨c, List.mem_cons_of_mem _ hc, hp⟩
        · rintro (⟨-, h⟩ | ⟨c, hc, hp⟩)
          · omega
          · rcases List.mem_cons.mp hc with hc | hc
            · subst hc; exact Or.inl hp
            · exact Or.inr ⟨c, hc, hp⟩
    · rw [if_neg hfl, if_neg hfl]
      intro _
      constructor
      · intro h; cases h
      · rintro (⟨h, -⟩ | ⟨c, hc, -⟩)
        · exact absurd h hfl
        · cases hc

theorem sbc_to_snd_loop_last {π : Type} (cdc : Codec π) (stream : List Nat)
    (mem : Nat → Nat) (fw : Nat → Nat → Nat) (streamlen : Int) :
    ∀ (fuel : Nat) (s : SndState π) (c0 : SndCall), c0.framelen = s.framelen →
      (sbc_to_snd_loop cdc stream mem fw streamlen fuel s).1 = Status.finished →
      ∃ c, (c0 :: sbc_to_snd_loop_calls cdc stream mem fw streamlen fuel s).getLast? = some c ∧
        c.framelen ≤ 0 := by
  intro fuel
  induction fuel with
  | zero =>
    intro s c0 _ h
    rw [sbc_to_snd_loop] at h
    cases h
  | succ f ih =>
    intro s c0 hc0
    rw [sbc_to_snd_loop, sbc_to_snd_loop_calls]
    by_cases hfl : 0 < s.framelen
    · rw [if_pos hfl, if_pos hfl]
      by_cases hfull : buffer_full (flush_if_full fw s) = true
      · rw [if_pos hfull, if_pos hfull]
        intro h; cases h
      · rw [if_neg hfull, if_neg hfull]
        intro h
        obtain ⟨c, hc, hn⟩ := ih _ (decode_call cdc stream mem streamlen (flush_if_full fw s))
          rfl h
        exact ⟨c, by rw [List.getLast?_cons_cons]; exact hc, hn⟩
    · rw [if_neg hfl, if_neg hfl]
      intro _
      exact ⟨c0, rfl, by omega⟩

theorem sbc_to_snd_start {π : Type} (cdc : Codec π) (msbc : Bool) (stream : List Nat)
    (mem : Nat → Nat) (fw : Nat → Nat → Nat) (fuel : Nat) (hhdr : 1 ≤ fw 0 1) :
    sbc_to_snd cdc msbc (some stream) mem fw fuel =
      ((sbc_to_snd_loop cdc stream mem fw (to_int stream.length) fuel
          (snd_start cdc msbc stream mem)).1,
        some (sbc_to_snd_loop cdc stream mem fw (to_int stream.length) fuel
          (snd_start cdc msbc stream mem)).2) :=
  sbc_to_snd_written cdc msbc stream mem fw fuel hhdr

theorem sbc_to_snd_calls_written {π : Type} (cdc : Codec π) (msbc : Bool) (stream : List Nat)
    (mem : Nat → Nat) (fw : Nat → Nat → Nat) (fuel : Nat) (hhdr : 1 ≤ fw 0 1) :
    sbc_to_snd_calls cdc msbc stream mem fw fuel =
      first_call cdc msbc stream mem ::
        sbc_to_snd_loop_calls cdc stream mem fw (to_int stream.length) fuel
          (snd_start cdc msbc stream mem) := by
  unfold sbc_to_snd_calls
  rw [if_neg (by omega)]

theorem snd_start_bounded {π : Type} (cdc : Codec π) (msbc : Bool) (stream : List Nat)
    (mem : Nat → Nat)
    (hdec : ∀ sbc input cap, (cdc.sbc_decode sbc input cap).output.length ≤ cap) :
    snd_bounded (snd_start cdc msbc stream mem) ∧
    (snd_start cdc msbc stream mem).buf.length = 8192 ∧
    (snd_start cdc msbc stream mem).buf.take (snd_start cdc msbc stream mem).count.toNat =
      (first_call cdc msbc stream mem).output := by
  have h := hdec ({ (if msbc then cdc.sbc_init_msbc else cdc.sbc_init) with
      endian := SbcEndian.SBC_BE })
    (load_bytes stream 0 (to_size_t (to_int stream.length)) mem) BUF_SIZE
  have h1 : (sbc_to_snd_first cdc msbc stream mem).output.length ≤ 8192 := h
  have hc : to_int ((sbc_to_snd_first cdc msbc stream mem).output.length : Int) =
      ((sbc_to_snd_first cdc msbc stream mem).output.length : Int) :=
    to_int_of_range _ (by omega) (by omega)
  have hl : ((List.range BUF_SIZE).map mem).length = 8192 := by
    rw [List.length_map, List.length_range]; rfl
  simp only [snd_bounded, snd_start, first_call, hc, Int.toNat_ofNat]
  refine ⟨⟨by omega, by omega, h1⟩, ?_, ?_⟩
  · rw [store_bytes_length, hl]
  · have h2 := store_bytes_take (sbc_to_snd_first cdc msbc stream mem).output
      ((List.range BUF_SIZE).map mem) 0 (by rw [hl]; omega)
    rw [Nat.zero_add, List.take_zero, List.nil_append] at h2
    exact h2

/-! ## sbc_to_snd: stream offsets and termination -/

theorem load_bytes_length (buf : List Nat) (off : Int) (n : Nat) (mem : Nat → Nat) :
    (load_bytes buf off n mem).length = n := by
  simp [load_bytes]

theorem flush_if_full_fields {π : Type} (fw : Nat → Nat → Nat) (s : SndState π) :
    (flush_if_full fw s).pos = s.pos ∧ (flush_if_full fw s).framelen = s.framelen ∧
    (flush_if_full fw s).trace.countP Event.is_check =
      s.trace.countP Event.is_check + 2 := by
  rw [flush_if_full_eq]
  by_cases h : buffer_full s = true
  · rw [if_pos h]
    refine ⟨rfl, rfl, ?_⟩
    simp [List.countP_append, Event.is_check]
  · rw [if_neg h]
    refine ⟨rfl, rfl, ?_⟩
    simp [List.countP_append, Event.is_check]

theorem decode_next_progress {π : Type} (cdc : Codec π) (stream : List Nat) (mem : Nat → Nat)
    (L : Nat) (hL : L < 2147483648)
    (hprog : ∀ sbc input cap, -2147483648 ≤ (cdc.sbc_decode sbc input cap).framelen ∧
      (0 < (cdc.sbc_decode sbc input cap).framelen →
        (cdc.sbc_decode sbc input cap).framelen ≤ (input.length : Int)))
    (s : SndState π) (h0 : 0 ≤ s.pos) (hf : 0 < s.framelen)
    (h1 : s.framelen ≤ (L : Int) - s.pos) :
    (decode_next cdc stream mem (L : Int) s).pos = s.pos + s.framelen ∧
    (decode_call cdc stream mem (L : Int) s).pos = s.pos + s.framelen ∧
    ((decode_call cdc stream mem (L : Int) s).input_len : Int) =
      (L : Int) - (s.pos + s.framelen) ∧
    (decode_next cdc stream mem (L : Int) s).framelen =
      (decode_call cdc stream mem (L : Int) s).framelen ∧
    (decode_next cdc stream mem (L : Int) s).framelen ≤ (L : Int) - (s.pos + s.framelen) ∧
    (decode_next cdc stream mem (L : Int) s).trace.countP Event.is_check =
      s.trace.countP Event.is_check := by
  have hp : to_int (s.pos + s.framelen) = s.pos + s.framelen :=
    to_int_of_range _ (by omega) (by omega)
  have hi : (to_size_t ((L : Int) - (s.pos + s.framelen)) : Int) =
      (L : Int) - (s.pos + s.framelen) := to_size_t_of_nonneg _ (by omega) (by omega)
  have hr := hprog s.sbc
    (load_bytes stream (s.pos + s.framelen) (to_size_t ((L : Int) - (s.pos + s.framelen))) mem)
    (to_size_t ((BUF_SIZE : Int) - s.count))
  rw [load_bytes_length] at hr
  simp only [decode_next, decode_call, hp]
  generalize (cdc.sbc_decode s.sbc
    (load_bytes stream (s.pos + s.framelen) (to_size_t ((L : Int) - (s.pos + s.framelen))) mem)
    (to_size_t ((BUF_SIZE : Int) - s.count))) = r at hr ⊢
  have hfr : to_int r.framelen = r.framelen := by
    by_cases hpos : 0 < r.framelen
    · have := hr.2 hpos
      exact to_int_of_range _ (by omega) (by omega)
    · exact to_int_of_range _ hr.1 (by omega)
  rw [hfr]
  refine ⟨trivial, trivial, hi, trivial, ?_, ?_⟩
  · by_cases hpos : 0 < r.framelen
    · have := hr.2 hpos
      omega
    · omega
  · simp [List.countP_append, Event.is_check]

theorem sbc_to_snd_loop_progress {π : Type} (cdc : Codec π) (stream : List Nat)
    (mem : Nat → Nat) (fw : Nat → Nat → Nat) (L : Nat) (hL : L < 2147483648)
    (hprog : ∀ sbc input cap, -2147483648 ≤ (cdc.sbc_decode sbc input cap).framelen ∧
      (0 < (cdc.sbc_decode sbc input cap).framelen →
        (cdc.sbc_decode sbc input cap).framelen ≤ (input.length : Int))) :
    ∀ (fuel : Nat) (s : SndState π), 0 ≤ s.pos → s.pos ≤ (L : Int) →
      s.framelen ≤ (L : Int) - s.pos →
      (((L : Int) - s.pos).toNat < fuel →
        (sbc_to_snd_loop cdc stream mem fw (L : Int) fuel s).1 ≠ Status.running) ∧
      (sbc_to_snd_loop cdc stream mem fw (L : Int) fuel s).2.trace.countP Event.is_check ≤
        s.trace.countP Event.is_check + 2 * ((L : Int) - s.pos).toNat ∧
      (sbc_to_snd_loop_calls cdc stream mem fw (L : Int) fuel s).length ≤
        ((L : Int) - s.pos).toNat ∧
      ∀ (i : Nat) (c : SndCall),
        (sbc_to_snd_loop_calls cdc stream mem fw (L : Int) fuel s)[i]? = some c →
        c.pos = s.pos + s.framelen +
          (((sbc_to_snd_loop_calls cdc stream mem fw (L : Int) fuel s).take i).map
            (fun c => c.framelen)).sum ∧
        0 ≤ c.pos ∧ c.pos ≤ (L : Int) ∧ (c.input_len : Int) = (L : Int) - c.pos := by
  intro fuel
  induction fuel with
  | zero =>
    intro s _ _ _
    rw [sbc_to_snd_loop, sbc_to_snd_loop_calls]
    refine ⟨fun h => absurd h (Nat.not_lt_zero _), Nat.le_add_right _ _, Nat.zero_le _, ?_⟩
    intro i c hc
    simp at hc
  | succ f ih =>
    intro s h0 h1 h2
    rw [sbc_to_snd_loop, sbc_to_snd_loop_calls]
    by_cases hfl : 0 < s.framelen
    · rw [if_pos hfl, if_pos hfl]
      obtain ⟨e1, e2, e3⟩ := flush_if_full_fields fw s
      by_cases hfull : buffer_full (flush_if_full fw s) = true
      · rw [if_pos hfull, if_pos hfull]
        refine ⟨fun _ h => (by cases h), ?_, Nat.zero_le _, ?_⟩
        · show (flush_if_full fw s).trace.countP Event.is_check ≤ _
          rw [e3]
          omega
        · intro i c hc
          simp at hc
      · rw [if_neg hfull, if_neg hfull]
        obtain ⟨d1, d2, d3, d4, d5, d6⟩ := decode_next_progress cdc stream mem L hL hprog
          (flush_if_full fw s) (by rw [e1]; exact h0) (by rw [e2]; exact hfl)
          (by rw [e1, e2]; exact h2)
        rw [e1, e2] at d1 d2 d3 d5
        obtain ⟨i1, i2, i3, i4⟩ := ih (decode_next cdc stream mem (L : Int) (flush_if_full fw s))
          (by rw [d1]; omega) (by rw [d1]; omega) (by rw [d1]; exact d5)
        rw [d1] at i1 i2 i3
        rw [d6, e3] at i2
        refine ⟨fun h => i1 (by omega), by omega, ?_, ?_⟩
        · rw [List.length_cons]
          omega
        · intro i c hc
          cases i with
          | zero =>
            rw [List.getElem?_cons_zero] at hc
            have hc2 := Option.some.inj hc
            subst hc2
            rw [List.take_zero, List.map_nil, List.sum_nil, d2]
            refine ⟨by omega, by omega, by omega, ?_⟩
            rw [d3]
          | succ j =>
            rw [List.getElem?_cons_succ] at hc
            obtain ⟨j1, j2, j3, j4⟩ := i4 j c hc
            rw [d1, d4] at j1
            rw [List.take_succ_cons, List.map_cons, List.sum_cons]
            exact ⟨by omega, j2, j3, j4⟩
    · rw [if_neg hfl, if_neg hfl]
      refine ⟨fun _ h => (by cases h), ?_, Nat.zero_le _, ?_⟩
      · show (final_flush fw s).trace.countP Event.is_check ≤ _
        have hft : (final_flush fw s).trace.countP Event.is_check =
            s.trace.countP Event.is_check := by
          unfold final_flush
          split
          · rw [flush_trace]
            simp [List.countP_append, Event.is_check]
          · rfl
        rw [hft]
        omega
      · intro i c hc
        simp at hc

theorem snd_au_header_length (f : Nat) (c : Int) : (snd_au_header f c).bytes.length = 24 :=
  rfl

theorem snd_start_progress {π : Type} (cdc : Codec π) (msbc : Bool) (stream : List Nat)
    (mem : Nat → Nat) (hL : stream.length < 2147483648)
    (hprog : ∀ sbc input cap, -2147483648 ≤ (cdc.sbc_decode sbc input cap).framelen ∧
      (0 < (cdc.sbc_decode sbc input cap).framelen →
        (cdc.sbc_decode sbc input cap).framelen ≤ (input.length : Int))) :
    to_int (stream.length : Int) = (stream.length : Int) ∧
    (snd_start cdc msbc stream mem).pos = 0 ∧
    (snd_start cdc msbc stream mem).framelen ≤ (stream.length : Int) ∧
    (snd_start cdc msbc stream mem).framelen = (first_call cdc msbc stream mem).framelen ∧
    (first_call cdc msbc stream mem).pos = 0 ∧
    ((first_call cdc msbc stream mem).input_len : Int) = (stream.length : Int) ∧
    (snd_start cdc msbc stream mem).trace = [] := by
  have hsl : to_int (stream.length : Int) = (stream.length : Int) :=
    to_int_of_range _ (by omega) (by omega)
  have hsz : (to_size_t (stream.length : Int) : Int) = (stream.length : Int) :=
    to_size_t_of_nonneg _ (by omega) (by omega)
  have hr := hprog ({ (if msbc then cdc.sbc_init_msbc else cdc.sbc_init) with
      endian := SbcEndian.SBC_BE })
    (load_bytes stream 0 (to_size_t (to_int stream.length)) mem) BUF_SIZE
  rw [load_bytes_length, hsl, hsz] at hr
  have hr2 : -2147483648 ≤ (sbc_to_snd_first cdc msbc stream mem).framelen ∧
      (0 < (sbc_to_snd_first cdc msbc stream mem).framelen →
        (sbc_to_snd_first cdc msbc stream mem).framelen ≤ (stream.length : Int)) := by
    simp only [sbc_to_snd_first, hsl]
    exact hr
  have hfr : to_int (sbc_to_snd_first cdc msbc stream mem).framelen ≤ (stream.length : Int) := by
    by_cases hpos : 0 < (sbc_to_snd_first cdc msbc stream mem).framelen
    · have := hr2.2 hpos
      rw [to_int_of_range _ (by omega) (by omega)]
      exact this
    · rw [to_int_of_range _ hr2.1 (by omega)]
      omega
  simp only [snd_start, first_call]
  refine ⟨hsl, trivial, hfr, trivial, trivial, ?_, trivial⟩
  rw [hsl, hsz]

theorem sbc_to_snd_loop_calls_trace {π : Type} (cdc : Codec π) (stream : List Nat)
    (mem : Nat → Nat) (fw : Nat → Nat → Nat) (streamlen : Int) :
    ∀ (fuel : Nat) (s : SndState π),
      (sbc_to_snd_loop cdc stream mem fw streamlen fuel s).2.trace.filterMap Event.call_input =
        s.trace.filterMap Event.call_input ++
          (sbc_to_snd_loop_calls cdc stream mem fw streamlen fuel s).map
            (fun c => (c.pos, c.input_len)) := by
  have hflush : ∀ s : SndState π,
      (flush_if_full fw s).trace.filterMap Event.call_input =
        s.trace.filterMap Event.call_input := by
    intro s
    rw [flush_if_full_eq]
    by_cases h : buffer_full s = true
    · rw [if_pos h]
      simp [List.filterMap_append, Event.call_input]
    · rw [if_neg h]
      simp [List.filterMap_append, Event.call_input]
  have hfinal : ∀ s : SndState π,
      (final_flush fw s).trace.filterMap Event.call_input =
        s.trace.filterMap Event.call_input := by
    intro s
    unfold final_flush
    split
    · rw [flush_trace]
      simp [List.filterMap_append, Event.call_input]
    · rfl
  have hdecode : ∀ s : SndState π,
      (decode_next cdc stream mem streamlen s).trace.filterMap Event.call_input =
        s.trace.filterMap Event.call_input ++
          [((decode_call cdc stream mem streamlen s).pos,
            (decode_call cdc stream mem streamlen s).input_len)] := by
    intro s
    simp [decode_next, decode_call, List.filterMap_append, Event.call_input]
  intro fuel
  induction fuel with
  | zero =>
    intro s
    rw [sbc_to_snd_loop, sbc_to_snd_loop_calls, List.map_nil, List.append_nil]
  | succ f ih =>
    intro s
    rw [sbc_to_snd_loop, sbc_to_snd_loop_calls]
    by_cases hfl : 0 < s.framelen
    · rw [if_pos hfl, if_pos hfl]
      by_cases hfull : buffer_full (flush_if_full fw s) = true
      · rw [if_pos hfull, if_pos hfull, List.map_nil, List.append_nil]
        exact hflush s
      · rw [if_neg hfull, if_neg hfull, ih, hdecode, hflush, List.map_cons,
          List.append_assoc]
        rfl
    · rw [if_neg hfl, if_neg hfl, List.map_nil, List.append_nil]
      exact hfinal s

/-! ## Claims about the streaming loop: output, fatal condition, termination -/

/-- C12: for every input stream, every decoder whose produced length never exceeds the
output capacity it is given, and writes that all complete in full, a run of `sbc_to_snd`
that has finished (the loop ended without the fatal path) has written the 24-byte AU header
followed by the produced bytes of every decode call made, in decode order; the last of
these calls reported a non-positive consumed length. While the loop is still running, the
file followed by the first count bytes of the buffer is the header followed by the
produced bytes of the calls so far. When moreover every reported consumed length fits an
`int` and a positive one is at most the remaining input length, a stream shorter than 2^31
bytes and more iterations than the stream has bytes leave no run still in the loop. -/
theorem sbc_to_snd_output {π : Type} (cdc : Codec π) (msbc : Bool) (stream : List Nat)
    (mem : Nat → Nat) (fw : Nat → Nat → Nat) (fuel : Nat)
    (hdec : ∀ sbc input cap, (cdc.sbc_decode sbc input cap).output.length ≤ cap)
    (hfw : ∀ k n, fw k n = n) :
    ∃ st s hdr, sbc_to_snd cdc msbc (some stream) mem fw fuel = (st, some s) ∧
      hdr = (snd_au_header (snd_frequency (sbc_to_snd_first cdc msbc stream mem).sbc.frequency)
        (snd_channels (sbc_to_snd_first cdc msbc stream mem).sbc.mode)).bytes ∧
      hdr.length = 24 ∧
      (st = Status.finished →
        s.file = hdr ++ produced (sbc_to_snd_calls cdc msbc stream mem fw fuel) ∧
        ∃ c, (sbc_to_snd_calls cdc msbc stream mem fw fuel).getLast? = some c ∧
          c.framelen ≤ 0) ∧
      (st = Status.running →
        s.file ++ s.buf.take s.count.toNat =
          hdr ++ produced (sbc_to_snd_calls cdc msbc stream mem fw fuel)) ∧
      ((∀ sbc input cap, -2147483648 ≤ (cdc.sbc_decode sbc input cap).framelen ∧
          (0 < (cdc.sbc_decode sbc input cap).framelen →
            (cdc.sbc_decode sbc input cap).framelen ≤ (input.length : Int))) →
        stream.length < 2147483648 → stream.length < fuel → st ≠ Status.running) := by
  have hh : 1 ≤ fw 0 1 := by rw [hfw]
  obtain ⟨b1, b2, b3⟩ := snd_start_bounded cdc msbc stream mem hdec
  obtain ⟨o1, o2⟩ := sbc_to_snd_loop_output cdc stream mem fw (to_int stream.length) hdec hfw
    fuel (snd_start cdc msbc stream mem) b1 b2
  have hfile : (snd_start cdc msbc stream mem).file =
      (snd_au_header (snd_frequency (sbc_to_snd_first cdc msbc stream mem).sbc.frequency)
        (snd_channels (sbc_to_snd_first cdc msbc stream mem).sbc.mode)).bytes := rfl
  refine ⟨_, _, _, sbc_to_snd_start cdc msbc stream mem fw fuel hh, rfl,
    snd_au_header_length _ _, ?_, ?_, ?_⟩
  · intro hfin
    rw [sbc_to_snd_calls_written cdc msbc stream mem fw fuel hh, produced_cons]
    refine ⟨?_, sbc_to_snd_loop_last cdc stream mem fw (to_int stream.length) fuel
      (snd_start cdc msbc stream mem) (first_call cdc msbc stream mem) rfl hfin⟩
    rw [o1 hfin, b3, hfile, List.append_assoc]
  · intro hrun
    have hne : (sbc_to_snd_loop cdc stream mem fw (to_int stream.length) fuel
        (snd_start cdc msbc stream mem)).1 ≠ Status.finished := by
      rw [hrun]; decide
    rw [sbc_to_snd_calls_written cdc msbc stream mem fw fuel hh, produced_cons]
    rw [o2 hne, b3, hfile, List.append_assoc]
  · intro hprog hL hfuel
    obtain ⟨p0, p1, p2, -, -, -, -⟩ := snd_start_progress cdc msbc stream mem hL hprog
    rw [p0]
    exact (sbc_to_snd_loop_progress cdc stream mem fw stream.length hL hprog fuel
      (snd_start cdc msbc stream mem) (by rw [p1]) (by rw [p1]; omega)
      (by rw [p1]; omega)).1 (by rw [p1]; omega)

/-- C12, witness: the 57-byte frame decoder on a stream of two frames and six more bytes,
writes that complete. -/
theorem sbc_to_snd_output_witness :
    (∀ sbc input cap, (frame_codec.sbc_decode sbc input cap).output.length ≤ cap) ∧
    (∀ k n : Nat, (fun (_ n : Nat) => n) k n = n) ∧
    ∃ st s hdr, sbc_to_snd frame_codec true (some (List.replicate 120 0)) (fun _ => 0)
        (fun _ n => n) 121 = (st, some s) ∧
      hdr = (snd_au_header (snd_frequency (sbc_to_snd_first frame_codec true
          (List.replicate 120 0) (fun _ => 0)).sbc.frequency)
        (snd_channels (sbc_to_snd_first frame_codec true
          (List.replicate 120 0) (fun _ => 0)).sbc.mode)).bytes ∧
      hdr.length = 24 ∧
      (st = Status.finished →
        s.file = hdr ++ produced (sbc_to_snd_calls frame_codec true (List.replicate 120 0)
          (fun _ => 0) (fun _ n => n) 121) ∧
        ∃ c, (sbc_to_snd_calls frame_codec true (List.replicate 120 0)
          (fun _ => 0) (fun _ n => n) 121).getLast? = some c ∧ c.framelen ≤ 0) ∧
      (st = Status.running →
        s.file ++ s.buf.take s.count.toNat =
          hdr ++ produced (sbc_to_snd_calls frame_codec true (List.replicate 120 0)
            (fun _ => 0) (fun _ n => n) 121)) ∧
      ((∀ sbc input cap, -2147483648 ≤ (frame_codec.sbc_decode sbc input cap).framelen ∧
          (0 < (frame_codec.sbc_decode sbc input cap).framelen →
            (frame_codec.sbc_decode sbc input cap).framelen ≤ (input.length : Int))) →
        (List.replicate 120 0).length < 2147483648 → (List.replicate 120 0).length < 121 →
          st ≠ Status.running) :=
  have hdec : ∀ sbc input cap, (frame_codec.sbc_decode sbc input cap).output.length ≤ cap := by
    intro sbc input cap
    simp only [frame_codec]
    split
    · simp only [List.length_replicate]; exact Nat.min_le_right _ _
    · exact Nat.zero_le _
  ⟨hdec, fun _ _ => rfl,
    sbc_to_snd_output frame_codec true (List.replicate 120 0) (fun _ => 0)
      (fun _ n => n) 121 hdec (fun _ _ => rfl)⟩

/-- C13: for every input stream, every decoder whose produced length never exceeds the
output capacity it is given, and writes that all complete in full, a run of `sbc_to_snd`
that has left the loop took the fatal path (`exit(1)`) if and only if some decode call
reported a positive consumed length and a produced length of at least BUF_SIZE. When
moreover every reported consumed length fits an `int` and a positive one is at most the
remaining input length, a stream shorter than 2^31 bytes and more iterations than the
stream has bytes leave no run still in the loop. -/
theorem sbc_to_snd_fatal_iff {π : Type} (cdc : Codec π) (msbc : Bool) (stream : List Nat)
    (mem : Nat → Nat) (fw : Nat → Nat → Nat) (fuel : Nat)
    (hdec : ∀ sbc input cap, (cdc.sbc_decode sbc input cap).output.length ≤ cap)
    (hfw : ∀ k n, fw k n = n) :
    ∃ st s, sbc_to_snd cdc msbc (some stream) mem fw fuel = (st, some s) ∧
      (st ≠ Status.running →
        (st = Status.fatal ↔
          ∃ c ∈ sbc_to_snd_calls cdc msbc stream mem fw fuel,
            0 < c.framelen ∧ BUF_SIZE ≤ c.output.length)) ∧
      ((∀ sbc input cap, -2147483648 ≤ (cdc.sbc_decode sbc input cap).framelen ∧
          (0 < (cdc.sbc_decode sbc input cap).framelen →
            (cdc.sbc_decode sbc input cap).framelen ≤ (input.length : Int))) →
        stream.length < 2147483648 → stream.length < fuel → st ≠ Status.running) := by
  have hh : 1 ≤ fw 0 1 := by rw [hfw]
  obtain ⟨b1, b2, -⟩ := snd_start_bounded cdc msbc stream mem hdec
  refine ⟨_, _, sbc_to_snd_start cdc msbc stream mem fw fuel hh, ?_, ?_⟩
  · intro hstop
    rw [sbc_to_snd_loop_fatal_iff cdc stream mem fw (to_int stream.length) hdec hfw fuel
      (snd_start cdc msbc stream mem) b1 b2 hstop,
      sbc_to_snd_calls_written cdc msbc stream mem fw fuel hh]
    have hb : BUF_SIZE = 8192 := rfl
    rw [hb]
    constructor
    · rintro (h | ⟨c, hc, hp⟩)
      · exact ⟨first_call cdc msbc stream mem, List.mem_cons_self _ _, h⟩
      · exact ⟨c, List.mem_cons_of_mem _ hc, hp⟩
    · rintro ⟨c, hc, hp⟩
      rcases List.mem_cons.mp hc with hc | hc
      · subst hc; exact Or.inl hp
      · exact Or.inr ⟨c, hc, hp⟩
  · intro hprog hL hfuel
    obtain ⟨p0, p1, p2, -, -, -, -⟩ := snd_start_progress cdc msbc stream mem hL hprog
    rw [p0]
    exact (sbc_to_snd_loop_progress cdc stream mem fw stream.length hL hprog fuel
      (snd_start cdc msbc stream mem) (by rw [p1]) (by rw [p1]; omega)
      (by rw [p1]; omega)).1 (by rw [p1]; omega)

/-- C13, witness: the 57-byte frame decoder on a stream of three frames, writes that
complete. -/
theorem sbc_to_snd_fatal_iff_witness :
    (∀ sbc input cap, (frame_codec.sbc_decode sbc input cap).output.length ≤ cap) ∧
    (∀ k n : Nat, (fun (_ n : Nat) => n) k n = n) ∧
    ∃ st s, sbc_to_snd frame_codec false (some (List.replicate 171 0)) (fun _ => 0)
        (fun _ n => n) 172 = (st, some s) ∧
      (st ≠ Status.running →
        (st = Status.fatal ↔
          ∃ c ∈ sbc_to_snd_calls frame_codec false (List.replicate 171 0) (fun _ => 0)
              (fun _ n => n) 172,
            0 < c.framelen ∧ BUF_SIZE ≤ c.output.length)) ∧
      ((∀ sbc input cap, -2147483648 ≤ (frame_codec.sbc_decode sbc input cap).framelen ∧
          (0 < (frame_codec.sbc_decode sbc input cap).framelen →
            (frame_codec.sbc_decode sbc input cap).framelen ≤ (input.length : Int))) →
        (List.replicate 171 0).length < 2147483648 → (List.replicate 171 0).length < 172 →
          st ≠ Status.running) :=
  have hdec : ∀ sbc input cap, (frame_codec.sbc_decode sbc input cap).output.length ≤ cap := by
    intro sbc input cap
    simp only [frame_codec]
    split
    · simp only [List.length_replicate]; exact Nat.min_le_right _ _
    · exact Nat.zero_le _
  ⟨hdec, fun _ _ => rfl,
    sbc_to_snd_fatal_iff frame_codec false (List.replicate 171 0) (fun _ => 0)
      (fun _ n => n) 172 hdec (fun _ _ => rfl)⟩

/-- C15 (amended): for every input stream of length L < 2^31 and every decoder whose
reported consumed length fits an `int` (is at least -2^31) and, when positive, is at most
the remaining input length it is given, `sbc_to_snd` leaves the loop within L iterations
(at most 2 L occupancy tests, two per iteration) and makes at most L + 1 decode calls; the
stream offset pos of every decode call is the sum of the consumed lengths of the calls
before it, lies between 0 and L, and the call is given the remaining length L - pos. -/
theorem sbc_to_snd_terminates {π : Type} (cdc : Codec π) (msbc : Bool) (stream : List Nat)
    (mem : Nat → Nat) (fw : Nat → Nat → Nat) (L : Nat) (hlen : stream.length = L)
    (hL : L < 2147483648)
    (hprog : ∀ sbc input cap, -2147483648 ≤ (cdc.sbc_decode sbc input cap).framelen ∧
      (0 < (cdc.sbc_decode sbc input cap).framelen →
        (cdc.sbc_decode sbc input cap).framelen ≤ (input.length : Int))) :
    ∃ st s, sbc_to_snd cdc msbc (some stream) mem fw (L + 1) = (st, some s) ∧
      st ≠ Status.running ∧
      s.trace.countP Event.is_check ≤ 2 * L ∧
      (sbc_to_snd_calls cdc msbc stream mem fw (L + 1)).length ≤ L + 1 ∧
      ∀ (i : Nat) (c : SndCall),
        (sbc_to_snd_calls cdc msbc stream mem fw (L + 1))[i]? = some c →
        c.pos = (((sbc_to_snd_calls cdc msbc stream mem fw (L + 1)).take i).map
          (fun c => c.framelen)).sum ∧
        0 ≤ c.pos ∧ c.pos ≤ (L : Int) ∧ (c.input_len : Int) = (L : Int) - c.pos := by
  subst hlen
  obtain ⟨p0, p1, p2, p3, p4, p5, p6⟩ := snd_start_progress cdc msbc stream mem hL hprog
  by_cases hh : 1 ≤ fw 0 1
  · obtain ⟨q1, q2, q3, q4⟩ := sbc_to_snd_loop_progress cdc stream mem fw stream.length hL
      hprog (stream.length + 1) (snd_start cdc msbc stream mem) (by rw [p1])
      (by rw [p1]; omega) (by rw [p1]; omega)
    have e : ((stream.length : Int) - 0).toNat = stream.length := by omega
    rw [p1, p6, e] at q2
    rw [p1, e] at q1 q3
    rw [p1] at q4
    have hstart := sbc_to_snd_start cdc msbc stream mem fw (stream.length + 1) hh
    rw [p0] at hstart
    rw [sbc_to_snd_calls_written cdc msbc stream mem fw _ hh, p0]
    refine ⟨_, _, hstart, q1 (by omega), ?_, ?_, ?_⟩
    · simpa using q2
    · rw [List.length_cons]
      omega
    · intro i c hc
      cases i with
      | zero =>
        rw [List.getElem?_cons_zero] at hc
        have hc2 := Option.some.inj hc
        subst hc2
        rw [List.take_zero, List.map_nil, List.sum_nil, p4, p5]
        omega
      | succ j =>
        rw [List.getElem?_cons_succ] at hc
        obtain ⟨j1, j2, j3, j4⟩ := q4 j c hc
        rw [List.take_succ_cons, List.map_cons, List.sum_cons, ← p3]
        exact ⟨by omega, j2, j3, j4⟩
  · obtain ⟨s, h1, h2, -⟩ := sbc_to_snd_header_failed cdc msbc stream mem fw
      (stream.length + 1) (by omega)
    have hcalls : sbc_to_snd_calls cdc msbc stream mem fw (stream.length + 1) =
        [first_call cdc msbc stream mem] := by
      unfold sbc_to_snd_calls
      rw [if_pos (by omega)]
    rw [hcalls]
    refine ⟨_, s, h1, by decide, by rw [h2]; simp, by simp, ?_⟩
    intro i c hc
    cases i with
    | zero =>
      rw [List.getElem?_cons_zero] at hc
      have hc2 := Option.some.inj hc
      subst hc2
      rw [List.take_zero, List.map_nil, List.sum_nil, p4, p5]
      omega
    | succ j =>
      simp at hc

/-- C15, witness: the 57-byte frame decoder on a stream of 120 bytes. -/
theorem sbc_to_snd_terminates_witness :
    (List.replicate 120 0).length = 120 ∧ 120 < 2147483648 ∧
    (∀ sbc input cap, -2147483648 ≤ (frame_codec.sbc_decode sbc input cap).framelen ∧
      (0 < (frame_codec.sbc_decode sbc input cap).framelen →
        (frame_codec.sbc_decode sbc input cap).framelen ≤ (input.length : Int))) ∧
    ∃ st s, sbc_to_snd frame_codec true (some (List.replicate 120 0)) (fun _ => 0)
        (fun _ n => n) (120 + 1) = (st, some s) ∧
      st ≠ Status.running ∧
      s.trace.countP Event.is_check ≤ 2 * 120 ∧
      (sbc_to_snd_calls frame_codec true (List.replicate 120 0) (fun _ => 0)
        (fun _ n => n) (120 + 1)).length ≤ 120 + 1 ∧
      ∀ (i : Nat) (c : SndCall),
        (sbc_to_snd_calls frame_codec true (List.replicate 120 0) (fun _ => 0)
          (fun _ n => n) (120 + 1))[i]? = some c →
        c.pos = (((sbc_to_snd_calls frame_codec true (List.replicate 120 0) (fun _ => 0)
          (fun _ n => n) (120 + 1)).take i).map (fun c => c.framelen)).sum ∧
        0 ≤ c.pos ∧ c.pos ≤ ((120 : Nat) : Int) ∧
          (c.input_len : Int) = ((120 : Nat) : Int) - c.pos :=
  have hprog : ∀ sbc input cap,
      -2147483648 ≤ (frame_codec.sbc_decode sbc input cap).framelen ∧
      (0 < (frame_codec.sbc_decode sbc input cap).framelen →
        (frame_codec.sbc_decode sbc input cap).framelen ≤ (input.length : Int)) := by
    intro sbc input cap
    by_cases h : 57 ≤ input.length
    · have e : frame_codec.sbc_decode sbc input cap =
          ⟨sbc, 57, List.replicate (min 240 cap) 0⟩ := by
        simp only [frame_codec]
        rw [if_pos h]
      rw [e]
      refine ⟨?_, fun _ => ?_⟩
      · show (-2147483648 : Int) ≤ 57
        decide
      · show (57 : Int) ≤ (input.length : Int)
        omega
    · have e : frame_codec.sbc_decode sbc input cap = ⟨sbc, 0, []⟩ := by
        simp only [frame_codec]
        rw [if_neg h]
      rw [e]
      refine ⟨?_, fun h0 => ?_⟩
      · show (-2147483648 : Int) ≤ 0
        decide
      · exact absurd h0 (by show ¬ ((0 : Int) < 0); decide)
  ⟨by decide, by decide, hprog,
    sbc_to_snd_terminates frame_codec true (List.replicate 120 0) (fun _ => 0)
      (fun _ n => n) 120 (by decide) (by decide) hprog⟩

/-- C15, counterexample: two runs the bounds of the amended claim exclude. On a stream of
2^31 bytes, with a decoder that never succeeds, the first decode call is given the
remaining length 2^64 - 2^31, not 2^31: the length does not fit the `int` streamlen. On
the empty stream, a decoder that reports the consumed length -4294967295 (not positive)
on every call keeps the loop running: the `int` framelen receives 1, and after one
iteration two decode calls are made and the loop has not ended. -/
theorem sbc_to_snd_terminates_counterexample :
    ((List.replicate 2147483648 0).length = 2147483648 ∧
      (∀ sbc input cap, ((fixed_codec 0 []).sbc_decode sbc input cap).framelen ≤ 0) ∧
      ∃ c, (sbc_to_snd_calls (fixed_codec 0 []) false (List.replicate 2147483648 0)
          (fun _ => 0) (fun _ n => n) 1)[0]? = some c ∧
        c.pos = 0 ∧ c.input_len = 18446744071562067968) ∧
    ((∀ sbc input cap,
        ((fixed_codec (-4294967295) []).sbc_decode sbc input cap).framelen ≤ 0) ∧
      (sbc_to_snd (fixed_codec (-4294967295) []) false (some []) (fun _ => 0)
        (fun _ n => n) 1).1 = Status.running ∧
      (sbc_to_snd_calls (fixed_codec (-4294967295) []) false [] (fun _ => 0)
        (fun _ n => n) 1).length = 2) := by
  have h1 : ∀ stream : List Nat,
      (sbc_to_snd_calls (fixed_codec 0 []) false stream (fun _ => 0) (fun _ n => n) 1)[0]? =
        some (first_call (fixed_codec 0 []) false stream (fun _ => 0)) := by
    intro stream
    rw [sbc_to_snd_calls_written (fixed_codec 0 []) false stream (fun _ => 0) (fun _ n => n) 1
      (by decide), List.getElem?_cons_zero]
  have h2 : ∀ stream : List Nat, stream.length = 2147483648 →
      (first_call (fixed_codec 0 []) false stream (fun _ => 0)).input_len =
        18446744071562067968 := by
    intro stream hl
    simp only [first_call, hl]
    decide
  refine ⟨⟨List.length_replicate _ _, fun _ _ _ => (by show (0 : Int) ≤ 0; decide), ?_⟩,
    fun _ _ _ => (by show (-4294967295 : Int) ≤ 0; decide), ?_, ?_⟩
  · exact ⟨_, h1 _, rfl, h2 _ (List.length_replicate _ _)⟩
  · decide
  · decide

/-- C14 (what the code does instead): a run of `sbc_to_snd` with one short write. The
decoder stores 4095 bytes of value 7 and one byte of value 9 for the one frame of the
stream; the flush of the first iteration asks for 4096 bytes and reports 4095 written. At
the second occupancy test count is 1 and the first byte of the buffer is a 7 that is
already in the file, while the byte not yet written is the 9; the final flush writes the
7 again, so the file ends with 7 where the decoded bytes end with 9. -/
theorem sbc_to_snd_short_write_pending :
    ∃ s, sbc_to_snd marked_codec false (some (List.replicate 57 0)) (fun _ => 0)
        (fun k n => if k = 1 then n - 1 else n) 2 = (Status.finished, some s) ∧
      s.trace = [Event.check 4096 4096, Event.flush 4096 4095, Event.check 1 4096,
        Event.decode 57 0 1 8191, Event.flush 1 1] ∧
      produced (sbc_to_snd_calls marked_codec false (List.replicate 57 0) (fun _ => 0)
        (fun k n => if k = 1 then n - 1 else n) 2) = List.replicate 4095 7 ++ [9] ∧
      (flush_if_full (fun k n => if k = 1 then n - 1 else n)
        (snd_start marked_codec false (List.replicate 57 0) (fun _ => 0))).count = 1 ∧
      (flush_if_full (fun k n => if k = 1 then n - 1 else n)
        (snd_start marked_codec false (List.replicate 57 0) (fun _ => 0))).buf.take 1 = [7] ∧
      (flush_if_full (fun k n => if k = 1 then n - 1 else n)
        (snd_start marked_codec false (List.replicate 57 0) (fun _ => 0))).file =
        (snd_au_header 16000 1).bytes ++ List.replicate 4095 7 ∧
      s.file = (snd_au_header 16000 1).bytes ++ (List.replicate 4095 7 ++ [7]) := by
  have n1 : to_int ((0 : Int) + 57) = 57 := by decide
  have n2 : to_size_t ((57 : Int) - 57) = 0 := by decide
  have n3 : to_size_t (((BUF_SIZE : Nat) : Int) - 1) = 8191 := by decide
  have n4 : to_int (0 : Int) = 0 := by decide
  have n5 : to_int ((1 : Int) + ((0 : Nat) : Int)) = 1 := by decide
  have n6 : ¬ (57 ≤ 0) := by decide
  have k1 : to_size_t (4096 : Int) = 4096 := by decide
  have k2 : (if 1 = 1 then 4096 - 1 else 4096) = 4095 := by decide
  have k3 : 4095 > 0 := by decide
  have k7 : ¬ decide (BUF_SIZE ≤ (to_size_t (1 : Int) + 4096) % 18446744073709551616) = true := by
    decide
  have k5 : decide (BUF_SIZE ≤ (to_size_t (4096 : Int) + 4096) % 18446744073709551616) = true := by
    decide
  have k4 : to_int ((4096 : Int) - ((4095 : Nat) : Int)) = 1 := by decide
  have hflush : ∀ (sbc : sbc_t Unit) (buf hdr : List Nat),
      flush_if_full (fun k n => if k = 1 then n - 1 else n)
        (⟨sbc, buf, 0, 57, 4096, 4096, hdr, 1, []⟩ : SndState Unit) =
      ⟨sbc, buf, 0, 57, 1, 4096, hdr ++ buf.take 4095, 2,
        [Event.check 4096 4096, Event.flush 4096 4095, Event.check 1 4096]⟩ := by
    intro sbc buf hdr
    have hb : buffer_full (⟨sbc, buf, 0, 57, 4096, 4096, hdr, 1, []⟩ : SndState Unit) = true := by
      simp only [buffer_full]
      exact k5
    rw [flush_if_full_eq, if_pos hb]
    simp only [k1, k2, k3, k4, if_true, List.nil_append, List.cons_append]
  have hdecode : ∀ (sbc : sbc_t Unit) (buf file : List Nat) (trace : List Event),
      decode_next marked_codec (List.replicate 57 0) (fun _ => 0) 57
        (⟨sbc, buf, 0, 57, 1, 4096, file, 2, trace⟩ : SndState Unit) =
      ⟨sbc, buf, 57, 0, 1, 0, file, 2, trace ++ [Event.decode 57 0 1 8191]⟩ := by
    intro sbc buf file trace
    simp only [decode_next, marked_codec, load_bytes_length, n1, n2, n3]
    simp only [n6, if_false, store_bytes, List.length_nil, n4, n5]
  have hcall : ∀ (sbc : sbc_t Unit) (buf file : List Nat) (trace : List Event),
      decode_call marked_codec (List.replicate 57 0) (fun _ => 0) 57
        (⟨sbc, buf, 0, 57, 1, 4096, file, 2, trace⟩ : SndState Unit) = ⟨57, 0, 0, []⟩ := by
    intro sbc buf file trace
    simp only [decode_call, marked_codec, load_bytes_length, n1, n2, n3]
    simp only [n6, if_false, n4]
  have hfinal : ∀ (sbc : sbc_t Unit) (buf file : List Nat) (trace : List Event),
      final_flush (fun k n => if k = 1 then n - 1 else n)
        (⟨sbc, buf, 57, 0, 1, 0, file, 2, trace⟩ : SndState Unit) =
      ⟨sbc, buf, 57, 0, 0, 0, file ++ buf.take 1, 3, trace ++ [Event.flush 1 1]⟩ := by
    intro sbc buf file trace
    rfl
  have m1 : to_size_t (to_int (((List.replicate 57 0).length : Nat) : Int)) = 57 := by
    rw [List.length_replicate]; decide
  have m2 : to_int (((List.replicate 57 0).length : Nat) : Int) = 57 := by
    rw [List.length_replicate]; decide
  have hfirst : sbc_to_snd_first marked_codec false (List.replicate 57 0) (fun _ => 0) =
      ⟨⟨SbcFrequency.SBC_FREQ_16000, SbcMode.SBC_MODE_MONO, SbcEndian.SBC_BE, ()⟩, 57,
        List.replicate 4095 7 ++ [9]⟩ := by
    simp only [sbc_to_snd_first, marked_codec, load_bytes_length, m1]
    rfl
  have hr_len : (List.replicate 4095 7).length = 4095 := List.length_replicate _ _
  have hr1 : (List.replicate 4095 7).take 1 = [7] := by
    rw [List.take_replicate]; rfl
  have hout_len : (List.replicate 4095 7 ++ [9]).length = 4096 := by
    rw [List.length_append, hr_len]; rfl
  have m3 : to_int ((4096 : Nat) : Int) = 4096 := by decide
  have m4 : to_int (57 : Int) = 57 := by decide
  have hB : ((List.range BUF_SIZE).map (fun (_ : Nat) => 0)).length = 8192 := by
    rw [List.length_map, List.length_range]; rfl
  have hbuf : (store_bytes ((List.range BUF_SIZE).map (fun (_ : Nat) => 0)) 0
      (List.replicate 4095 7 ++ [9])).take 4096 = List.replicate 4095 7 ++ [9] := by
    have h := store_bytes_take (List.replicate 4095 7 ++ [9])
      ((List.range BUF_SIZE).map (fun (_ : Nat) => 0)) 0 (by rw [hout_len, hB]; decide)
    rw [hout_len, List.take_zero, List.nil_append] at h
    exact h
  have hbuf1 : (store_bytes ((List.range BUF_SIZE).map (fun (_ : Nat) => 0)) 0
      (List.replicate 4095 7 ++ [9])).take 4095 = List.replicate 4095 7 := by
    have e : (store_bytes ((List.range BUF_SIZE).map (fun (_ : Nat) => 0)) 0
        (List.replicate 4095 7 ++ [9])).take 4095 =
        ((store_bytes ((List.range BUF_SIZE).map (fun (_ : Nat) => 0)) 0
          (List.replicate 4095 7 ++ [9])).take 4096).take 4095 := by
      rw [List.take_take]; rfl
    rw [e, hbuf, List.take_left' hr_len]
  have hbuf2 : (store_bytes ((List.range BUF_SIZE).map (fun (_ : Nat) => 0)) 0
      (List.replicate 4095 7 ++ [9])).take 1 = [7] := by
    have e : (store_bytes ((List.range BUF_SIZE).map (fun (_ : Nat) => 0)) 0
        (List.replicate 4095 7 ++ [9])).take 1 =
        ((store_bytes ((List.range BUF_SIZE).map (fun (_ : Nat) => 0)) 0
          (List.replicate 4095 7 ++ [9])).take 4096).take 1 := by
      rw [List.take_take]; rfl
    rw [e, hbuf, List.take_append_of_le_length (by rw [hr_len]; decide), hr1]
  have hstart : snd_start marked_codec false (List.replicate 57 0) (fun _ => 0) =
      ⟨⟨SbcFrequency.SBC_FREQ_16000, SbcMode.SBC_MODE_MONO, SbcEndian.SBC_BE, ()⟩,
        store_bytes ((List.range BUF_SIZE).map (fun (_ : Nat) => 0)) 0
          (List.replicate 4095 7 ++ [9]),
        0, 57, 4096, 4096, (snd_au_header 16000 1).bytes, 1, []⟩ := by
    simp only [snd_start, hfirst, hout_len, m3, m4]
    rfl
  have hh : 1 ≤ (fun (k n : Nat) => if k = 1 then n - 1 else n) 0 1 := by decide
  have hpos : (0 : Int) < 57 := by decide
  have hneg : ¬ ((0 : Int) < 0) := by decide
  have k6 : ∀ (sbc : sbc_t Unit) (buf file : List Nat) (trace : List Event),
      ¬ buffer_full (⟨sbc, buf, 0, 57, 1, 4096, file, 2, trace⟩ : SndState Unit) = true := by
    intro sbc buf file trace
    simp only [buffer_full]
    exact k7
  have hcalls : sbc_to_snd_calls marked_codec false (List.replicate 57 0) (fun _ => 0)
      (fun k n => if k = 1 then n - 1 else n) 2 =
      [⟨0, 57, 57, List.replicate 4095 7 ++ [9]⟩, ⟨57, 0, 0, []⟩] := by
    rw [sbc_to_snd_calls_written marked_codec false (List.replicate 57 0) (fun _ => 0)
      (fun k n => if k = 1 then n - 1 else n) 2 hh, m2, hstart, sbc_to_snd_loop_calls,
      if_pos hpos, hflush, if_neg (k6 _ _ _ _), hdecode, hcall, sbc_to_snd_loop_calls,
      if_neg hneg]
    simp only [first_call, hfirst, m1, m4]
  have hrun : sbc_to_snd marked_codec false (some (List.replicate 57 0)) (fun _ => 0)
      (fun k n => if k = 1 then n - 1 else n) 2 = (Status.finished, some
      ⟨⟨SbcFrequency.SBC_FREQ_16000, SbcMode.SBC_MODE_MONO, SbcEndian.SBC_BE, ()⟩,
        store_bytes ((List.range BUF_SIZE).map (fun (_ : Nat) => 0)) 0
          (List.replicate 4095 7 ++ [9]),
        57, 0, 0, 0,
        (snd_au_header 16000 1).bytes ++
          (store_bytes ((List.range BUF_SIZE).map (fun (_ : Nat) => 0)) 0
            (List.replicate 4095 7 ++ [9])).take 4095 ++
          (store_bytes ((List.range BUF_SIZE).map (fun (_ : Nat) => 0)) 0
            (List.replicate 4095 7 ++ [9])).take 1,
        3,
        [Event.check 4096 4096, Event.flush 4096 4095, Event.check 1 4096] ++
          [Event.decode 57 0 1 8191] ++ [Event.flush 1 1]⟩) := by
    rw [sbc_to_snd_start marked_codec false (List.replicate 57 0) (fun _ => 0)
      (fun k n => if k = 1 then n - 1 else n) 2 hh, m2, hstart, sbc_to_snd_loop,
      if_pos hpos, hflush, if_neg (k6 _ _ _ _), hdecode, sbc_to_snd_loop,
      if_neg hneg, hfinal]
  refine ⟨_, hrun, ?_, ?_, ?_, ?_, ?_, ?_⟩
  · simp only [List.cons_append, List.nil_append]
  · rw [hcalls]
    simp only [produced, List.map_cons, List.map_nil, List.flatten_cons, List.flatten_nil,
      List.append_nil]
  · rw [hstart, hflush]
  · rw [hstart, hflush]
    dsimp only
    exact hbuf2
  · rw [hstart, hflush]
    dsimp only
    rw [hbuf1]
  · dsimp only
    rw [hbuf1, hbuf2, List.append_assoc]

end SbcDec
